import Mathlib

/-!
# Transactional overlay over plain records

A shallow embedding of `JavaScript/8-dataset.js` and `JavaScript/9-separate.js`.

Modelling conventions.

* A JavaScript object used as a record or as a delta is the list of its own
  enumerable data properties, in the order `Object.keys` reports them
  (array-index keys in ascending order first, then the other keys in creation
  order), together with its prototype: `Object.prototype`, `null`, or an
  object value.  The operations that look beyond the own properties (the read
  `o[k]`, the test `k in o`, the method call `o.hasOwnProperty(k)` and the
  assignment `o[k] = v`, which for `__proto__` reaches the setter of
  `Object.prototype`) are in the section on prototypes.
* Field values are the primitives (`undefined`, `null`, booleans, integral
  numbers, `NaN`, strings) and immutable objects that carry an identity; no
  field value is a function.
* `Separate.Transaction` and `Dataset.Transaction` carry the current content
  of the objects they work on: there the record and the delta are distinct
  objects, and so are the records of a dataset.  `Separate.Transaction` keeps
  the own properties only: its delta has the prototype `Object.prototype`,
  and its `get` trap and merge loop are described for keys that are own
  properties or that no prototype provides.
* Where it matters which object a field holds (the copy that a log record
  keeps, two proxies over one record), the objects are kept in a heap and
  named by address: `Separate.Shared`, `Dataset.View`, `Dataset.DatasetView`.
* Listeners are functions on what they can reach; to see in which order and
  on which state they are called, `observer` listeners keep a journal.
* `===` is `strictEq`: it differs from equality only at `NaN`.
* A function that can complete abruptly returns the state reached together
  with `some` thrown value, or an `Except` when it only computes a result.
* The `time` stamp of a log record comes from the wall clock and is left out.
-/

/-! ## Values -/

/-- JSON text, as the tree `JSON.parse` reads back. -/
inductive Json where
  | null
  | bool (b : Bool)
  | num (n : Int)
  | str (s : String)
  | obj (props : List (String × Json))

mutual
/-- Decides the equality of two JSON trees. -/
def Json.decEq : (a b : Json) → Decidable (a = b)
  | .null, .null => isTrue rfl
  | .bool a, .bool b =>
    if h : a = b then isTrue (congrArg Json.bool h) else isFalse fun e => h (Json.bool.inj e)
  | .num a, .num b =>
    if h : a = b then isTrue (congrArg Json.num h) else isFalse fun e => h (Json.num.inj e)
  | .str a, .str b =>
    if h : a = b then isTrue (congrArg Json.str h) else isFalse fun e => h (Json.str.inj e)
  | .obj a, .obj b =>
    match Json.decEqProps a b with
    | isTrue h => isTrue (congrArg Json.obj h)
    | isFalse h => isFalse fun e => h (Json.obj.inj e)
  | .null, .bool _ | .null, .num _ | .null, .str _ | .null, .obj _
  | .bool _, .null | .bool _, .num _ | .bool _, .str _ | .bool _, .obj _
  | .num _, .null | .num _, .bool _ | .num _, .str _ | .num _, .obj _
  | .str _, .null | .str _, .bool _ | .str _, .num _ | .str _, .obj _
  | .obj _, .null | .obj _, .bool _ | .obj _, .num _ | .obj _, .str _ =>
    isFalse fun e => Json.noConfusion e
/-- Decides the equality of two lists of JSON members. -/
def Json.decEqProps : (a b : List (String × Json)) → Decidable (a = b)
  | [], [] => isTrue rfl
  | [], _ :: _ => isFalse fun e => List.noConfusion e
  | _ :: _, [] => isFalse fun e => List.noConfusion e
  | (k, v) :: xs, (k2, v2) :: ys =>
    if hk : k = k2 then
      match Json.decEq v v2 with
      | isTrue hv =>
        match Json.decEqProps xs ys with
        | isTrue hr => isTrue (by rw [hk, hv, hr])
        | isFalse hr => isFalse fun e => hr (List.cons.inj e).2
      | isFalse hv => isFalse fun e => hv (Prod.mk.inj (List.cons.inj e).1).2
    else isFalse fun e => hk (Prod.mk.inj (List.cons.inj e).1).1
end

instance : DecidableEq Json := Json.decEq

/-- Identity of an object value: one supplied by the caller, or the object
that `JSON.parse` created for `key` of member `member` in log record number
`entry` (each log record is parsed once, so the place names the object), or
the object held by the property `key` of the object `parent`. -/
inductive ObjId where
  | alloc (n : Nat)
  | parsed (entry : Nat) (member : Nat) (key : String)
  | nested (parent : ObjId) (key : String)
  deriving DecidableEq

/-- A JavaScript value held in a field. -/
inductive Val where
  | undefined
  | null
  | bool (b : Bool)
  | num (n : Int)
  | nan
  | str (s : String)
  | obj (id : ObjId) (content : List (String × Json))
  deriving DecidableEq

/-- The operator `===`.  `NaN` is not equal to itself; an object is equal to
itself only (an identity has one content, so this is equality of the value). -/
def strictEq (a b : Val) : Bool :=
  match a with
  | .nan => false
  | _ => decide (a = b)

/-- A thrown value (abrupt completion). -/
inductive Thrown where
  | typeError (msg : String)
  | error (v : Val)
  deriving DecidableEq

instance {ε α : Type} [DecidableEq ε] [DecidableEq α] : DecidableEq (Except ε α)
  | .ok a, .ok b =>
    if h : a = b then isTrue (congrArg Except.ok h) else isFalse fun e => h (Except.ok.inj e)
  | .error a, .error b =>
    if h : a = b then isTrue (congrArg Except.error h)
    else isFalse fun e => h (Except.error.inj e)
  | .ok _, .error _ => isFalse fun e => Except.noConfusion e
  | .error _, .ok _ => isFalse fun e => Except.noConfusion e

/-! ## Objects as ordered dictionaries -/

/-- Own enumerable data properties, in `Object.keys` order. -/
abbrev JsObject (α : Type) := List (String × α)

/-- A record or a delta. -/
abbrev Obj := JsObject Val

/-- Value of a decimal digit. -/
def digitVal? (c : Char) : Option Nat :=
  if 48 ≤ c.toNat ∧ c.toNat ≤ 57 then some (c.toNat - 48) else none

/-- Reads a list of decimal digits, most significant first. -/
def digitsVal? : List Char → Nat → Option Nat
  | [], acc => some acc
  | c :: cs, acc =>
    match digitVal? c with
    | some d => digitsVal? cs (10 * acc + d)
    | none => none

/-- The array index a property name denotes, if it is a canonical numeric
string below `2^32 - 1`. -/
def arrayIndex? (k : String) : Option Nat :=
  match k.data with
  | [] => none
  | c :: cs =>
    if c = '0' ∧ cs ≠ [] then none
    else
      match digitsVal? (c :: cs) 0 with
      | some n => if n < 4294967295 then some n else none
      | none => none

namespace JsObject

variable {α : Type}

/-- The own property `k`, if there is one. -/
def getOwn? : JsObject α → String → Option α
  | [], _ => none
  | (k', v) :: rest, k => if k' = k then some v else getOwn? rest k

/-- The call `o.hasOwnProperty(k)`. -/
def hasOwnProperty (o : JsObject α) (k : String) : Bool :=
  (getOwn? o k).isSome

/-- The call `Object.keys(o)`. -/
def keys (o : JsObject α) : List String :=
  o.map Prod.fst

/-- Overwrites the value of the existing property `k`. -/
def replace : JsObject α → String → α → JsObject α
  | [], _, _ => []
  | (k', v') :: rest, k, v =>
    if k' = k then (k', v) :: rest else (k', v') :: replace rest k v

/-- Creates the array-index property `k` (index `n`) at its place among the
index keys. -/
def insertIndex (n : Nat) (k : String) (v : α) : JsObject α → JsObject α
  | [] => [(k, v)]
  | (k', v') :: rest =>
    match arrayIndex? k' with
    | some m =>
      if m < n then (k', v') :: insertIndex n k v rest
      else (k, v) :: (k', v') :: rest
    | none => (k, v) :: (k', v') :: rest

/-- The assignment `o[k] = v`. -/
def set (o : JsObject α) (k : String) (v : α) : JsObject α :=
  if hasOwnProperty o k then replace o k v
  else
    match arrayIndex? k with
    | some n => insertIndex n k v o
    | none => o ++ [(k, v)]

/-- The statement `delete o[k]`. -/
def delete (o : JsObject α) (k : String) : JsObject α :=
  o.filter (fun p => decide (p.1 ≠ k))

end JsObject

/-- The read `o[k]`: `undefined` for a missing property. -/
def Obj.get (o : Obj) (k : String) : Val :=
  (JsObject.getOwn? o k).getD Val.undefined

/-- The call `Object.assign(target, source)`. -/
def Obj.assign (target source : Obj) : Obj :=
  (JsObject.keys source).foldl (fun t k => JsObject.set t k (Obj.get source k)) target

/-! ## Prototypes

A record or a delta starts with the prototype `Object.prototype`; writing
`__proto__` can replace it.  The functions below are the property operations
that look beyond the own properties. -/

/-- The property names an object inherits from `Object.prototype`. -/
def objectPrototypeNames : List String :=
  ["constructor", "__defineGetter__", "__defineSetter__", "hasOwnProperty",
   "__lookupGetter__", "__lookupSetter__", "isPrototypeOf", "propertyIsEnumerable",
   "toString", "valueOf", "__proto__", "toLocaleString"]

/-- The prototype of an object: `Object.prototype`, `null`, or an object value
(whose own prototype is `Object.prototype`). -/
inductive Proto where
  | objectPrototype
  | null
  | object (id : ObjId) (content : List (String × Json))
  deriving DecidableEq

/-- What a property read gives: a field value, or the member `name` of
`Object.prototype` (a function, or for `__proto__` the object
`Object.prototype` itself), which no field value is identical to. -/
inductive Read where
  | value (v : Val)
  | builtin (name : String)
  deriving DecidableEq

/-- The comparison `r === v` of what a read gave with a field value. -/
def Read.identical (r : Read) (v : Val) : Bool :=
  match r with
  | .value x => strictEq x v
  | .builtin _ => false

/-- The value of the member `j` of the object `parent`, under the key `key`. -/
def Json.toValIn (parent : ObjId) (key : String) : Json → Val
  | .null => Val.null
  | .bool b => Val.bool b
  | .num n => Val.num n
  | .str s => Val.str s
  | .obj props => Val.obj (ObjId.nested parent key) props

/-- The read of `key` on the prototype chain `p` of an object that has no own
property `key`. -/
def Proto.read (p : Proto) (key : String) : Read :=
  match p with
  | .null => Read.value Val.undefined
  | .objectPrototype =>
    if objectPrototypeNames.contains key then Read.builtin key else Read.value Val.undefined
  | .object id content =>
    match JsObject.getOwn? content key with
    | some j => Read.value (Json.toValIn id key j)
    | none =>
      if key = "__proto__" then Read.value (Val.obj id content)
      else if objectPrototypeNames.contains key then Read.builtin key
      else Read.value Val.undefined

/-- The read `o[key]` on an object with own properties `o` and prototype `p`. -/
def Obj.read (o : Obj) (p : Proto) (key : String) : Read :=
  match JsObject.getOwn? o key with
  | some v => Read.value v
  | none => p.read key

/-- The test `key in o`. -/
def Obj.hasProperty (o : Obj) (p : Proto) (key : String) : Bool :=
  JsObject.hasOwnProperty o key ||
    match p with
    | .null => false
    | .objectPrototype => objectPrototypeNames.contains key
    | .object _ content =>
      JsObject.hasOwnProperty content key || objectPrototypeNames.contains key

/-- Whether the lookup of `hasOwnProperty` on the object finds the function of
`Object.prototype`: no own property and no property of a prototype object
stands before it, and the chain reaches `Object.prototype`. -/
def Obj.inheritsHasOwnProperty (o : Obj) (p : Proto) : Bool :=
  !JsObject.hasOwnProperty o "hasOwnProperty" &&
    match p with
    | .objectPrototype => true
    | .null => false
    | .object _ content => !JsObject.hasOwnProperty content "hasOwnProperty"

/-- The method call `o.hasOwnProperty(key)`: the property `hasOwnProperty` is
looked up on the object first, and what is found in its place (a field value,
or `undefined`) is not a function. -/
def Obj.callHasOwnProperty (o : Obj) (p : Proto) (key : String) : Except Thrown Bool :=
  if Obj.inheritsHasOwnProperty o p then Except.ok (JsObject.hasOwnProperty o key)
  else Except.error (Thrown.typeError "hasOwnProperty is not a function")

/-- The prototype after the setter of `__proto__` has been called with `v`:
`null` and objects are installed, other values are ignored. -/
def Proto.afterSet (p : Proto) (v : Val) : Proto :=
  match v with
  | .null => Proto.null
  | .obj id content => Proto.object id content
  | _ => p

/-- The assignment `o[key] = v` on an object with own properties `o` and
prototype `p`: an own property is overwritten; otherwise `__proto__`, when it
is found as the accessor of `Object.prototype`, calls the setter and creates
no property; every other key becomes an own property. -/
def Obj.put (o : Obj) (p : Proto) (key : String) (v : Val) : Obj × Proto :=
  if JsObject.hasOwnProperty o key then (JsObject.set o key v, p)
  else
    match p with
    | .null => (JsObject.set o key v, p)
    | .objectPrototype =>
      if key = "__proto__" then (o, p.afterSet v) else (JsObject.set o key v, p)
    | .object _ content =>
      if JsObject.hasOwnProperty content key then (JsObject.set o key v, p)
      else if key = "__proto__" then (o, p.afterSet v)
      else (JsObject.set o key v, p)

/-- The call `Object.assign(target, source)` on a target with prototype `p`:
every own key of `source` is assigned to the target, in the order of
`Object.keys(source)`. -/
def Obj.assignInto (target : Obj) (p : Proto) (source : Obj) : Obj × Proto :=
  (JsObject.keys source).foldl (fun t k => Obj.put t.1 t.2 k (Obj.get source k)) (target, p)

/-- An object of the store: its own properties and its prototype. -/
structure HeapObject where
  props : Obj
  proto : Proto
  deriving DecidableEq

/-- The objects of a run, by address. -/
abbrev Heap := List HeapObject

/-- The object at address `a`. -/
def Heap.read (h : Heap) (a : Nat) : HeapObject :=
  (h[a]?).getD ⟨[], Proto.objectPrototype⟩

/-- Sequencing of two steps: the second runs only if the first completed
normally. -/
def andThen {σ : Type} (r : σ × Option Thrown) (f : σ → σ × Option Thrown) :
    σ × Option Thrown :=
  match r with
  | (s, none) => f s
  | (s, some e) => (s, some e)

/-! ## `9-separate.js` -/

namespace Separate

/-- A record of `this.logs`: `{ id, time, operation, delta }`. -/
structure LogEntry where
  id : Nat
  operation : String
  delta : Obj
  deriving DecidableEq

/-- What a listener can reach: the public fields `data`, `delta` and `logs`
of the transaction, and the rest of the program state `env`. -/
structure Store (ω : Type) where
  data : Obj
  delta : Obj
  logs : List LogEntry
  env : ω

/-- A callback registered with `before` or `after`: it is called with the
arguments of the operation, may change what it reaches, and may throw. -/
abbrev Listener (ω : Type) := List Val → Store ω → Store ω × Option Thrown

/-- One value of `this.events`: `{ before: [], after: [] }`. -/
structure Hooks (ω : Type) where
  before : List (Listener ω)
  after : List (Listener ω)

/-- An instance of `class Transaction`; `id` is the private field `#id`. -/
structure Transaction (ω : Type) where
  store : Store ω
  events : JsObject (Hooks ω)
  id : Nat

variable {ω : Type}

/-- The loop `listeners.forEach((cb) => cb(...args))`. -/
def runListeners : List (Listener ω) → List Val → Store ω → Store ω × Option Thrown
  | [], _, s => (s, none)
  | cb :: rest, args, s =>
    match cb args s with
    | (s', none) => runListeners rest args s'
    | (s', some e) => (s', some e)

namespace Transaction

/-- The private method `#writeLog(operation)`. -/
def writeLog (t : Transaction ω) (operation : String) : Transaction ω :=
  let delta := Obj.assign [] t.store.delta
  let log : LogEntry := { id := t.id, operation := operation, delta := delta }
  { t with
    id := t.id + 1
    store := { t.store with logs := t.store.logs ++ [log] } }

/-- The initial value of `this.events`. -/
def initialEvents : JsObject (Hooks ω) :=
  [("commit", ⟨[], []⟩), ("rollback", ⟨[], []⟩), ("revoke", ⟨[], []⟩),
   ("set", ⟨[], []⟩), ("get", ⟨[], []⟩), ("timeout", ⟨[], []⟩)]

/-- The constructor `new Transaction(data)`. -/
def new (data : Obj) (env : ω) : Transaction ω :=
  writeLog
    { store := { data := data, delta := [], logs := [], env := env }
      events := initialEvents
      id := 0 }
    "started"

/-- The static method `Transaction.start(data)`: the proxy it returns beside
the transaction has no state of its own, its traps are `Proxy.get` and
`Proxy.set` below. -/
def start (data : Obj) (env : ω) : Transaction ω :=
  new data env

/-- The private method `#runBefore(name, ...args)`. -/
def runBefore (t : Transaction ω) (name : String) (args : List Val) :
    Transaction ω × Option Thrown :=
  match JsObject.getOwn? t.events name with
  | none => (t, none)
  | some event =>
    let r := runListeners event.before args t.store
    ({ t with store := r.1 }, r.2)

/-- The private method `#runAfter(name, ...args)`. -/
def runAfter (t : Transaction ω) (name : String) (args : List Val) :
    Transaction ω × Option Thrown :=
  match JsObject.getOwn? t.events name with
  | none => (t, none)
  | some event =>
    let r := runListeners event.after args t.store
    ({ t with store := r.1 }, r.2)

/-- The loop `keys.forEach((key) => (this.data[key] = this.delta[key]))` of
`commit`, with `keys = Object.keys(this.delta)`: every key of the delta becomes
or stays an own property of the record. -/
def merge (t : Transaction ω) : Transaction ω :=
  let keys := JsObject.keys t.store.delta
  { t with
    store := { t.store with
      data := keys.foldl (fun d key => JsObject.set d key (Obj.get t.store.delta key))
        t.store.data } }

/-- The assignment `this.delta = {}`. -/
def clearDelta (t : Transaction ω) : Transaction ω :=
  { t with store := { t.store with delta := [] } }

/-- The method `commit()`. -/
def commit (t : Transaction ω) : Transaction ω × Option Thrown :=
  andThen (runBefore (writeLog t "commit") "commit" []) fun t1 =>
  andThen (runAfter (merge t1) "commit" []) fun t2 =>
  (clearDelta t2, none)

/-- The method `rollback()`. -/
def rollback (t : Transaction ω) : Transaction ω × Option Thrown :=
  andThen (runBefore (writeLog t "rollback") "rollback" []) fun t1 =>
  runAfter (clearDelta t1) "rollback" []

/-- The method `revoke()`. -/
def revoke (t : Transaction ω) : Transaction ω × Option Thrown :=
  andThen (runBefore (writeLog t "revoke") "revoke" []) fun t1 =>
  runAfter t1 "revoke" []

/-- The method `timeout(msec)`. -/
def timeout (t : Transaction ω) (msec : Val) : Transaction ω × Option Thrown :=
  andThen (runBefore (writeLog t "timeout") "timeout" [msec]) fun t1 =>
  runAfter t1 "timeout" [msec]

/-- The method `before(event, listener)`: reading `before` of a missing
registry entry throws. -/
def before (t : Transaction ω) (event : String) (listener : Listener ω) :
    Transaction ω × Option Thrown :=
  match JsObject.getOwn? t.events event with
  | none => (t, some (Thrown.typeError "Cannot read properties of undefined"))
  | some events =>
    ({ t with
       events := JsObject.set t.events event
         { events with before := events.before ++ [listener] } }, none)

/-- The method `after(event, listener)`. -/
def after (t : Transaction ω) (event : String) (listener : Listener ω) :
    Transaction ω × Option Thrown :=
  match JsObject.getOwn? t.events event with
  | none => (t, some (Thrown.typeError "Cannot read properties of undefined"))
  | some events =>
    ({ t with
       events := JsObject.set t.events event
         { events with after := events.after ++ [listener] } }, none)

end Transaction

namespace Proxy

/-- The `get` trap of the proxy built by `Transaction.start`, on a delta that
has the method `hasOwnProperty` (as a new one has), for a key that the record
owns or that nothing provides. -/
def get (t : Transaction ω) (key : String) : Val :=
  if JsObject.hasOwnProperty t.store.delta key then Obj.get t.store.delta key
  else Obj.get t.store.data key

/-- The `set` trap of the proxy built by `Transaction.start`, on a delta whose
prototype is `Object.prototype` (the prototype that a write of `null` or of an
object to `__proto__` installs is not part of `Store`; it is in `Shared`
below). -/
def set (t : Transaction ω) (key : String) (value : Val) : Transaction ω :=
  { t with
    store := { t.store with
      delta := (Obj.put t.store.delta Proto.objectPrototype key value).1 } }

end Proxy

/-- No listener is registered for any operation. -/
def NoListeners (t : Transaction ω) : Prop :=
  ∀ name hooks, JsObject.getOwn? t.events name = some hooks →
    hooks.before = [] ∧ hooks.after = []

/-- A lifecycle call on a transaction. -/
inductive Op where
  | commit
  | rollback
  | revoke
  | timeout (msec : Val)

/-- The operation name the call writes to the log. -/
def Op.name : Op → String
  | .commit => "commit"
  | .rollback => "rollback"
  | .revoke => "revoke"
  | .timeout _ => "timeout"

/-- Performs one lifecycle call. -/
def Op.run (t : Transaction ω) : Op → Transaction ω × Option Thrown
  | .commit => t.commit
  | .rollback => t.rollback
  | .revoke => t.revoke
  | .timeout msec => t.timeout msec

/-- Performs a sequence of lifecycle calls, stopping at the first that throws. -/
def runOps : Transaction ω → List Op → Transaction ω × Option Thrown
  | t, [] => (t, none)
  | t, op :: rest => andThen (op.run t) fun t1 => runOps t1 rest

/-- The calls `before(event, l)` for the listeners `l` of a list, in list
order. -/
def registerBefore : Transaction ω → String → List (Listener ω) →
    Transaction ω × Option Thrown
  | t, _, [] => (t, none)
  | t, event, l :: rest => andThen (t.before event l) fun t1 => registerBefore t1 event rest

/-- The calls `after(event, l)` for the listeners `l` of a list, in list
order. -/
def registerAfter : Transaction ω → String → List (Listener ω) →
    Transaction ω × Option Thrown
  | t, _, [] => (t, none)
  | t, event, l :: rest => andThen (t.after event l) fun t1 => registerAfter t1 event rest

/-- The transaction after `before(event, l)` for every `l` of `befores` and
`after(event, l)` for every `l` of `afters`, in list order. -/
def withListeners (t : Transaction ω) (event : String) (befores afters : List (Listener ω)) :
    Transaction ω :=
  (registerAfter (registerBefore t event befores).1 event afters).1

/-- What a listener saw when it was called: its arguments, the record and the
delta. -/
structure Seen where
  tag : Nat
  args : List Val
  data : Obj
  delta : Obj
  deriving DecidableEq

/-- The listener number `tag` of a program whose listeners note what they see
in a journal, change nothing else and return. -/
def observer (tag : Nat) : Listener (List Seen) :=
  fun args s => ({ s with env := s.env ++ [⟨tag, args, s.data, s.delta⟩] }, none)

/-- A listener that throws `e`. -/
def thrower (e : Thrown) : Listener ω :=
  fun _ s => (s, some e)

/-! ### The transaction over shared objects

A log record holds an object; whether that object is a copy of the delta or
the delta itself shows only when the delta changes afterwards.  Here the
record, the objects bound to `this.delta` and the objects held by the log are
objects of a heap, and the fields that hold them hold their addresses.  The
methods are those of `Transaction` above, acting on the objects in place. -/

namespace Shared

/-- A record of `this.logs`: `{ id, time, operation, delta }`, `delta` being
the address of the object it holds. -/
structure LogEntry where
  id : Nat
  operation : String
  delta : Nat
  deriving DecidableEq

/-- What a listener can reach: the objects of the run, the public fields
`data`, `delta` (addresses) and `logs` of the transaction, and the rest of the
program state `env`. -/
structure Store (ω : Type) where
  heap : Heap
  data : Nat
  delta : Nat
  logs : List LogEntry
  env : ω

/-- A callback registered with `before` or `after`. -/
abbrev Listener (ω : Type) := List Val → Store ω → Store ω × Option Thrown

/-- One value of `this.events`: `{ before: [], after: [] }`. -/
structure Hooks (ω : Type) where
  before : List (Listener ω)
  after : List (Listener ω)

/-- An instance of `class Transaction`; `id` is the private field `#id`. -/
structure Transaction (ω : Type) where
  store : Store ω
  events : JsObject (Hooks ω)
  id : Nat

/-- The loop `listeners.forEach((cb) => cb(...args))`. -/
def runListeners : List (Listener ω) → List Val → Store ω → Store ω × Option Thrown
  | [], _, s => (s, none)
  | cb :: rest, args, s =>
    match cb args s with
    | (s', none) => runListeners rest args s'
    | (s', some e) => (s', some e)

namespace Transaction

/-- The private method `#writeLog(operation)`: `Object.assign({}, this.delta)`
fills a new object, and the new log record holds that object. -/
def writeLog (t : Transaction ω) (operation : String) : Transaction ω :=
  let delta := Obj.assignInto [] Proto.objectPrototype (t.store.heap.read t.store.delta).props
  let log : LogEntry := { id := t.id, operation := operation, delta := t.store.heap.length }
  { t with
    id := t.id + 1
    store := { t.store with
      heap := t.store.heap ++ [⟨delta.1, delta.2⟩]
      logs := t.store.logs ++ [log] } }

/-- The initial value of `this.events`. -/
def initialEvents : JsObject (Hooks ω) :=
  [("commit", ⟨[], []⟩), ("rollback", ⟨[], []⟩), ("revoke", ⟨[], []⟩),
   ("set", ⟨[], []⟩), ("get", ⟨[], []⟩), ("timeout", ⟨[], []⟩)]

/-- The constructor `new Transaction(data)`, in a run whose only object so far
is the record: `this.delta = {}` makes the second object. -/
def new (data : HeapObject) (env : ω) : Transaction ω :=
  writeLog
    { store := { heap := [data, ⟨[], Proto.objectPrototype⟩], data := 0, delta := 1,
                 logs := [], env := env }
      events := initialEvents
      id := 0 }
    "started"

/-- The static method `Transaction.start(data)`; the `set` trap of the proxy
it returns is `Proxy.set` below. -/
def start (data : HeapObject) (env : ω) : Transaction ω :=
  new data env

/-- The private method `#runBefore(name, ...args)`. -/
def runBefore (t : Transaction ω) (name : String) (args : List Val) :
    Transaction ω × Option Thrown :=
  match JsObject.getOwn? t.events name with
  | none => (t, none)
  | some event =>
    let r := runListeners event.before args t.store
    ({ t with store := r.1 }, r.2)

/-- The private method `#runAfter(name, ...args)`. -/
def runAfter (t : Transaction ω) (name : String) (args : List Val) :
    Transaction ω × Option Thrown :=
  match JsObject.getOwn? t.events name with
  | none => (t, none)
  | some event =>
    let r := runListeners event.after args t.store
    ({ t with store := r.1 }, r.2)

/-- The assignment `this.data[key] = this.delta[key]`, for a key of
`Object.keys(this.delta)`: it changes the record in place (the key is an own
property of the delta, so `this.delta[key]` is the own value). -/
def assignField (data delta : Nat) (h : Heap) (key : String) : Heap :=
  let r := Obj.put (h.read data).props (h.read data).proto key
    (Obj.get (h.read delta).props key)
  List.set h data ⟨r.1, r.2⟩

/-- The loop `keys.forEach((key) => (this.data[key] = this.delta[key]))` of
`commit`, with `keys = Object.keys(this.delta)`. -/
def merge (t : Transaction ω) : Transaction ω :=
  let keys := JsObject.keys (t.store.heap.read t.store.delta).props
  { t with
    store := { t.store with
      heap := keys.foldl (assignField t.store.data t.store.delta) t.store.heap } }

/-- The assignment `this.delta = {}`: a new object. -/
def clearDelta (t : Transaction ω) : Transaction ω :=
  { t with
    store := { t.store with
      heap := t.store.heap ++ [⟨[], Proto.objectPrototype⟩]
      delta := t.store.heap.length } }

/-- The method `commit()`. -/
def commit (t : Transaction ω) : Transaction ω × Option Thrown :=
  andThen (runBefore (writeLog t "commit") "commit" []) fun t1 =>
  andThen (runAfter (merge t1) "commit" []) fun t2 =>
  (clearDelta t2, none)

/-- The method `rollback()`. -/
def rollback (t : Transaction ω) : Transaction ω × Option Thrown :=
  andThen (runBefore (writeLog t "rollback") "rollback" []) fun t1 =>
  runAfter (clearDelta t1) "rollback" []

/-- The method `revoke()`. -/
def revoke (t : Transaction ω) : Transaction ω × Option Thrown :=
  andThen (runBefore (writeLog t "revoke") "revoke" []) fun t1 =>
  runAfter t1 "revoke" []

/-- The method `timeout(msec)`. -/
def timeout (t : Transaction ω) (msec : Val) : Transaction ω × Option Thrown :=
  andThen (runBefore (writeLog t "timeout") "timeout" [msec]) fun t1 =>
  runAfter t1 "timeout" [msec]

/-- The method `before(event, listener)`. -/
def before (t : Transaction ω) (event : String) (listener : Listener ω) :
    Transaction ω × Option Thrown :=
  match JsObject.getOwn? t.events event with
  | none => (t, some (Thrown.typeError "Cannot read properties of undefined"))
  | some events =>
    ({ t with
       events := JsObject.set t.events event
         { events with before := events.before ++ [listener] } }, none)

/-- The method `after(event, listener)`. -/
def after (t : Transaction ω) (event : String) (listener : Listener ω) :
    Transaction ω × Option Thrown :=
  match JsObject.getOwn? t.events event with
  | none => (t, some (Thrown.typeError "Cannot read properties of undefined"))
  | some events =>
    ({ t with
       events := JsObject.set t.events event
         { events with after := events.after ++ [listener] } }, none)

end Transaction

/-- The `set` trap of the proxy, `transaction.delta[key] = value`: the object
bound to `this.delta` changes in place. -/
def Proxy.set (t : Transaction ω) (key : String) (value : Val) : Transaction ω :=
  let r := Obj.put (t.store.heap.read t.store.delta).props
    (t.store.heap.read t.store.delta).proto key value
  { t with
    store := { t.store with heap := List.set t.store.heap t.store.delta ⟨r.1, r.2⟩ } }

/-- A step of a program that uses the transaction: a write through the view,
or a lifecycle call. -/
inductive Step where
  | write (key : String) (value : Val)
  | call (op : Op)

/-- Performs one step. -/
def Step.run (t : Transaction ω) : Step → Transaction ω × Option Thrown
  | .write key value => (Proxy.set t key value, none)
  | .call .commit => t.commit
  | .call .rollback => t.rollback
  | .call .revoke => t.revoke
  | .call (.timeout msec) => t.timeout msec

/-- Performs a sequence of steps, stopping at the first that throws. -/
def runSteps : Transaction ω → List Step → Transaction ω × Option Thrown
  | t, [] => (t, none)
  | t, step :: rest => andThen (step.run t) fun t1 => runSteps t1 rest

/-- The listener `() => { transaction.logs.length = 0 }`. -/
def truncateLogs : Listener ω :=
  fun _ s => ({ s with logs := [] }, none)

/-- The listener `() => { transaction.logs[0].delta[key] = value }`. -/
def writeFirstLogged (key : String) (value : Val) : Listener ω :=
  fun _ s =>
    match s.logs with
    | [] => (s, some (Thrown.typeError "Cannot read properties of undefined"))
    | e :: _ =>
      let r := Obj.put (s.heap.read e.delta).props (s.heap.read e.delta).proto key value
      ({ s with heap := List.set s.heap e.delta ⟨r.1, r.2⟩ }, none)

/-- The record and the current delta are two objects of the heap, and every
object held by the log is a third one. -/
def Separated (t : Transaction ω) : Prop :=
  t.store.data < t.store.heap.length ∧ t.store.delta < t.store.heap.length ∧
  t.store.data ≠ t.store.delta ∧
  ∀ e ∈ t.store.logs,
    e.delta < t.store.heap.length ∧ e.delta ≠ t.store.data ∧ e.delta ≠ t.store.delta

/-- Every object the log holds is as it was, and the log has only grown at
the end. -/
def Keeps (t t' : Transaction ω) : Prop :=
  t.store.logs <+: t'.store.logs ∧
  ∀ e ∈ t.store.logs, t'.store.heap.read e.delta = t.store.heap.read e.delta

end Shared

end Separate

/-! ## `8-dataset.js` -/

namespace Dataset

/-- A callback registered with `on`: `emit` calls it with the record, which it
may change, and it may throw. -/
abbrev Listener := Obj → Obj × Option Thrown

/-- What one call of `Transaction.start(data)` captures: the record `data`
(its own properties, and its prototype `dataProto`) and the closure variables
`delta` (the own properties and the prototype `deltaProto` of the object it is
bound to) and `events`.  The proxy returned is a view on this state. -/
structure Transaction where
  data : Obj
  delta : Obj
  events : JsObject (List Listener)
  dataProto : Proto
  deltaProto : Proto

/-- A property descriptor of a data property. -/
structure Descriptor where
  value : Val
  writable : Bool
  enumerable : Bool
  configurable : Bool
  deriving DecidableEq

/-- What the `get` trap can return: a field value, the object `delta`, one of
the functions of `methods`, or a member of `Object.prototype` that the record
inherits. -/
inductive Got where
  | value (v : Val)
  | delta (d : Obj)
  | method (name : String)
  | builtin (name : String)
  deriving DecidableEq

/-- The result of the read `target[key]`, as a result of the `get` trap. -/
def Got.ofRead : Read → Got
  | .value v => Got.value v
  | .builtin name => Got.builtin name

/-- The own keys of the object `methods`. -/
def methodNames : List String := ["commit", "rollback", "clone", "on"]

/-- The call `Object.getOwnPropertyDescriptor(o, key)` on a record. -/
def Obj.getOwnPropertyDescriptor (o : Obj) (key : String) : Option Descriptor :=
  (JsObject.getOwn? o key).map fun v =>
    { value := v, writable := true, enumerable := true, configurable := true }

/-- The loop `for (const listener of event) listener(data)`. -/
def runListeners : List Listener → Obj → Obj × Option Thrown
  | [], data => (data, none)
  | listener :: rest, data =>
    match listener data with
    | (data', none) => runListeners rest data'
    | (data', some e) => (data', some e)

namespace Transaction

/-- The initial value of `events` in `Transaction.start`. -/
def initialEvents : JsObject (List Listener) :=
  [("commit", []), ("rollback", []), ("timeout", []), ("change", [])]

/-- The function `Transaction.start(data)` on a record whose prototype is
`dataProto`: `let delta = {}` is a new object. -/
def startOn (data : Obj) (dataProto : Proto) : Transaction :=
  { data := data
    delta := []
    events := initialEvents
    dataProto := dataProto
    deltaProto := Proto.objectPrototype }

/-- The function `Transaction.start(data)` on a record written as an object
literal (its prototype is `Object.prototype`). -/
def start (data : Obj) : Transaction :=
  startOn data Proto.objectPrototype

/-- The closure `emit(name)`. -/
def emit (t : Transaction) (name : String) : Transaction × Option Thrown :=
  match JsObject.getOwn? t.events name with
  | none => (t, some (Thrown.typeError "event is not iterable"))
  | some event =>
    let r := runListeners event t.data
    ({ t with data := r.1 }, r.2)

/-- The method `methods.commit`. -/
def commit (t : Transaction) : Transaction × Option Thrown :=
  let r := Obj.assignInto t.data t.dataProto t.delta
  emit
    { t with data := r.1, dataProto := r.2, delta := [], deltaProto := Proto.objectPrototype }
    "commit"

/-- The method `methods.rollback`. -/
def rollback (t : Transaction) : Transaction × Option Thrown :=
  emit { t with delta := [], deltaProto := Proto.objectPrototype } "rollback"

/-- The method `methods.clone`: the state of the new transaction. -/
def clone (t : Transaction) : Transaction :=
  let cloned := startOn t.data t.dataProto
  let r := Obj.assignInto cloned.delta cloned.deltaProto t.delta
  { cloned with delta := r.1, deltaProto := r.2 }

/-- The method `methods.on` (`on` is a reserved word here). -/
def on_ (t : Transaction) (name : String) (callback : Listener) : Transaction :=
  match JsObject.getOwn? t.events name with
  | some event => { t with events := JsObject.set t.events name (event ++ [callback]) }
  | none => t

/-- The `get` trap of the proxy.  `delta.hasOwnProperty(key)` is a method
call on the delta and can throw; `delta[key]` is then an own property. -/
def get (t : Transaction) (key : String) : Except Thrown Got :=
  if key = "delta" then Except.ok (Got.delta t.delta)
  else if JsObject.hasOwnProperty (methodNames.map fun m => (m, ())) key then
    Except.ok (Got.method key)
  else
    match Obj.callHasOwnProperty t.delta t.deltaProto key with
    | Except.error e => Except.error e
    | Except.ok true => Except.ok (Got.value (Obj.get t.delta key))
    | Except.ok false => Except.ok (Got.ofRead (Obj.read t.data t.dataProto key))

/-- The `getOwnPropertyDescriptor` trap of the proxy. -/
def getOwnPropertyDescriptor (t : Transaction) (key : String) :
    Except Thrown (Option Descriptor) :=
  match Obj.callHasOwnProperty t.delta t.deltaProto key with
  | Except.error e => Except.error e
  | Except.ok b => Except.ok (Obj.getOwnPropertyDescriptor (if b then t.delta else t.data) key)

/-- The `ownKeys` trap of the proxy: `keys.filter((x, i, a) => a.indexOf(x) === i)`. -/
def ownKeys (t : Transaction) : List String :=
  let changes := JsObject.keys t.delta
  let keys := JsObject.keys t.data ++ changes
  (keys.enum.filter fun p => keys.indexOf p.2 == p.1).map Prod.snd

/-- The `set` trap of the proxy. -/
def set (t : Transaction) (key : String) (val : Val) : Transaction :=
  if (Obj.read t.data t.dataProto key).identical val then
    { t with delta := JsObject.delete t.delta key }
  else
    let r := Obj.put t.delta t.deltaProto key val
    { t with delta := r.1, deltaProto := r.2 }

/-- The statement `delete proxy[key]`: the proxy has no `deleteProperty` trap,
so the property is deleted from the record. -/
def deleteProperty (t : Transaction) (key : String) : Transaction :=
  { t with data := JsObject.delete t.data key }

/-- The test `key in proxy`: the proxy has no `has` trap, so the record
answers, from its own properties and its prototype chain. -/
def has (t : Transaction) (key : String) : Bool :=
  Obj.hasProperty t.data t.dataProto key

/-- Of the keys in `keys`, those whose descriptor, as the trap reports it, is
enumerable; the first query that throws ends the enumeration. -/
def enumerable (t : Transaction) : List String → Except Thrown (List String)
  | [] => Except.ok []
  | key :: rest =>
    match getOwnPropertyDescriptor t key with
    | Except.error e => Except.error e
    | Except.ok desc =>
      match enumerable t rest with
      | Except.error e => Except.error e
      | Except.ok ks =>
        Except.ok
          (match desc with
           | some d => if d.enumerable then key :: ks else ks
           | none => ks)

/-- The call `Object.keys(proxy)`: the keys of `ownKeys` whose descriptor, as
the trap reports it, is enumerable. -/
def keys (t : Transaction) : Except Thrown (List String) :=
  enumerable t (ownKeys t)

end Transaction

/-- How `JSON.stringify` writes a field value; `none` when the property is
left out. -/
def Val.toJson? : Val → Option Json
  | .undefined => none
  | .null => some Json.null
  | .bool b => some (Json.bool b)
  | .num n => some (Json.num n)
  | .nan => some Json.null
  | .str s => some (Json.str s)
  | .obj _ content => some (Json.obj content)

/-- How `JSON.stringify` writes a record. -/
def Obj.toJson (o : Obj) : List (String × Json) :=
  (JsObject.keys o).filterMap fun key => (Val.toJson? (Obj.get o key)).map fun j => (key, j)

/-- How `JSON.stringify` writes what the `get` trap returned for a key; `none`
when the property is left out (a function is). -/
def Got.toJson? : Got → Option Json
  | .value v => Val.toJson? v
  | .delta d => some (Json.obj (Obj.toJson d))
  | .method _ => none
  | .builtin name => if name = "__proto__" then some (Json.obj []) else none

/-- The members `JSON.stringify` writes for the keys in `keys` of a proxy, each
read through the `get` trap; the first read that throws ends the call. -/
def Transaction.members (t : Transaction) : List String → Except Thrown (List (String × Json))
  | [] => Except.ok []
  | key :: rest =>
    match t.get key with
    | Except.error e => Except.error e
    | Except.ok got =>
      match Transaction.members t rest with
      | Except.error e => Except.error e
      | Except.ok ms =>
        Except.ok
          (match got.toJson? with
           | some j => (key, j) :: ms
           | none => ms)

/-- How `JSON.stringify` writes a proxy: it reads `toJSON` through the `get`
trap (what it gets is no function of the proxy's own, so it is not called),
then takes `Object.keys(proxy)` and reads every key through the `get` trap. -/
def Transaction.toJson (t : Transaction) : Except Thrown (List (String × Json)) :=
  match t.get "toJSON" with
  | Except.error e => Except.error e
  | Except.ok _ =>
    match t.keys with
    | Except.error e => Except.error e
    | Except.ok keys => t.members keys

/-- The value `JSON.parse` builds for the member `key` of member `member` of
the array parsed for log record number `entry`. -/
def Json.toVal (entry member : Nat) (key : String) : Json → Val
  | .null => Val.null
  | .bool b => Val.bool b
  | .num n => Val.num n
  | .str s => Val.str s
  | .obj props => Val.obj (ObjId.parsed entry member key) props

/-- The object `JSON.parse` builds from the members written for one proxy
(each member becomes an own property, also `__proto__`). -/
def parseObject (entry member : Nat) (props : List (String × Json)) : Obj :=
  props.foldl (fun o p => JsObject.set o p.1 (Json.toVal entry member p.1 p.2)) []

/-- A record of `this.log`: `{ id, time, operation, delta }`. -/
structure LogRecord where
  id : Nat
  operation : String
  delta : List Obj
  deriving DecidableEq

/-- An instance of `class DatasetTransaction`. -/
structure DatasetTransaction where
  dataset : List Transaction
  log : List LogRecord
  id : Nat

/-- The loop `dataset.forEach((t, idx) => f(t, idx))`, from index `idx` on: it
stops at the first call that throws. -/
def forEach (f : Transaction → Nat → Transaction × Option Thrown) :
    List Transaction → Nat → List Transaction × Option Thrown
  | [], _ => ([], none)
  | t :: rest, idx =>
    match f t idx with
    | (t', none) =>
      let r := forEach f rest (idx + 1)
      (t' :: r.1, r.2)
    | (t', some e) => (t' :: rest, some e)

/-- The first loop of the body of `rollback(id)`: every key of the proxy that
`prevTransaction` does not have is deleted.  `prevTransaction.hasOwnProperty`
is a method call on the parsed object. -/
def deleteMissing (prevTransaction : Obj) :
    Transaction → List String → Transaction × Option Thrown
  | t, [] => (t, none)
  | t, currTransactionKey :: rest =>
    match Obj.callHasOwnProperty prevTransaction Proto.objectPrototype currTransactionKey with
    | Except.error e => (t, some e)
    | Except.ok true => deleteMissing prevTransaction t rest
    | Except.ok false =>
      deleteMissing prevTransaction (t.deleteProperty currTransactionKey) rest

/-- The body of the loop of `rollback(id)` for one member, `prevTransaction`
being `delta[idx]`. -/
def rollbackMember (prevTransaction : Obj) (currTransaction : Transaction) :
    Transaction × Option Thrown :=
  let prevTransactionKeys := JsObject.keys prevTransaction
  match currTransaction.keys with
  | Except.error e => (currTransaction, some e)
  | Except.ok currTransactionKeys =>
    andThen (deleteMissing prevTransaction currTransaction currTransactionKeys) fun t1 =>
    let t2 := prevTransactionKeys.foldl
      (fun t prevTransactionKey =>
        t.set prevTransactionKey (Obj.get prevTransaction prevTransactionKey))
      t1
    t2.commit

/-- The array `JSON.parse(JSON.stringify(dataset))` for the members from index
`idx` on; a member whose serialisation throws ends the call. -/
def copyWithoutProxy (entry : Nat) : List Transaction → Nat → Except Thrown (List Obj)
  | [], _ => Except.ok []
  | t :: rest, idx =>
    match t.toJson with
    | Except.error e => Except.error e
    | Except.ok props =>
      match copyWithoutProxy entry rest (idx + 1) with
      | Except.error e => Except.error e
      | Except.ok os => Except.ok (parseObject entry idx props :: os)

namespace DatasetTransaction

/-- The method `getDelta()`: `JSON.parse(JSON.stringify(this.dataset))`, the
copy being the one made for the log record at position `this.log.length`. -/
def getDelta (d : DatasetTransaction) : Except Thrown (List Obj) :=
  copyWithoutProxy d.log.length d.dataset 0

/-- The method `writeLog(operation)`: when `getDelta()` throws, nothing is
pushed. -/
def writeLog (d : DatasetTransaction) (operation : String) :
    DatasetTransaction × Option Thrown :=
  match getDelta d with
  | Except.error e => (d, some e)
  | Except.ok delta =>
    let id := d.id
    let log : LogRecord := { id := id, operation := operation, delta := delta }
    ({ d with log := d.log ++ [log] }, none)

/-- The constructor `new DatasetTransaction(dataset)`. -/
def new (dataset : List Transaction) : DatasetTransaction × Option Thrown :=
  writeLog { dataset := dataset, log := [], id := 0 } "start"

/-- The static method `DatasetTransaction.start(dataset)`, on records written
as object literals: the constructor returns normally on new proxies. -/
def start (dataset : List Obj) : DatasetTransaction :=
  (new (dataset.map Transaction.start)).1

/-- The method `commit()`. -/
def commit (d : DatasetTransaction) : DatasetTransaction × Option Thrown :=
  andThen (writeLog d "commit") fun d1 =>
  let r := forEach (fun t _ => t.commit) d1.dataset 0
  ({ d1 with dataset := r.1 }, r.2)

/-- The method `rollback(id)`; a call without argument passes `undefined`. -/
def rollback (d : DatasetTransaction) (id : Val) : DatasetTransaction × Option Thrown :=
  andThen (writeLog d "rollback") fun d1 =>
  match d1.log.find? fun r => strictEq (Val.num r.id) id with
  | none => (d1, none)
  | some rollback =>
    let delta := rollback.delta
    let r := forEach
      (fun currTransaction idx =>
        match delta[idx]? with
        | some prevTransaction => rollbackMember prevTransaction currTransaction
        | none =>
          (currTransaction, some (Thrown.typeError "Cannot convert undefined to object")))
      d1.dataset 0
    ({ d1 with dataset := r.1 }, r.2)

/-- The callback that `timeout(msec, commit, listener)` passes to `setTimeout`. -/
def timeoutCallback (d : DatasetTransaction) (commit : Bool) :
    DatasetTransaction × Option Thrown :=
  if commit then d.commit else d.rollback Val.undefined

end DatasetTransaction

/-- The assignment `dataset[idx][key] = val` through the proxy of member `idx`. -/
def setMember (d : DatasetTransaction) (idx : Nat) (key : String) (val : Val) :
    DatasetTransaction :=
  { d with dataset := d.dataset.modify (fun t => t.set key val) idx }

/-- One element of the array `data` of the usage section. -/
def usagePerson : Obj :=
  [("name", Val.str "Marcus Aurelius"), ("born", Val.num 121)]

/-- The array `data` of the usage section. -/
def usageData : List Obj :=
  [usagePerson, usagePerson, usagePerson]

/-- The usage section up to the first `commit()`: the transaction started over
`data`, with `city = "Shaoshan"` written through every member. -/
def usagePending : DatasetTransaction :=
  setMember
    (setMember
      (setMember (DatasetTransaction.start usageData) 0 "city" (Val.str "Shaoshan"))
      1 "city" (Val.str "Shaoshan"))
    2 "city" (Val.str "Shaoshan")

/-- Every entry of the delta differs, by `===`, from what the record gives at
that key. -/
def DeltaMinimal (t : Transaction) : Prop :=
  ∀ k v, JsObject.getOwn? t.delta k = some v →
    (Obj.read t.data t.dataProto k).identical v = false

/-- A call on a single-record transaction. -/
inductive Op where
  | set (key : String) (val : Val)
  | commit
  | rollback

/-- Performs one call on a single-record transaction. -/
def Op.run (t : Transaction) : Op → Transaction × Option Thrown
  | .set key val => (t.set key val, none)
  | .commit => t.commit
  | .rollback => t.rollback

/-- Performs a sequence of calls, stopping at the first that throws. -/
def runOps : Transaction → List Op → Transaction × Option Thrown
  | t, [] => (t, none)
  | t, op :: rest => andThen (op.run t) fun t1 => runOps t1 rest

/-- A step of a program that uses a dataset transaction: a write through the
proxy of a member, `commit()`, or `rollback(id)`. -/
inductive DatasetOp where
  | write (idx : Nat) (key : String) (val : Val)
  | commit
  | rollback (id : Val)

/-- Performs one step on a dataset transaction; a write to a member that the
dataset does not have throws. -/
def DatasetOp.run (d : DatasetTransaction) : DatasetOp → DatasetTransaction × Option Thrown
  | .write idx key val =>
    if idx < d.dataset.length then (setMember d idx key val, none)
    else (d, some (Thrown.typeError "Cannot set properties of undefined"))
  | .commit => d.commit
  | .rollback id => d.rollback id

/-- Performs a sequence of steps, stopping at the first that throws. -/
def runDatasetOps : DatasetTransaction → List DatasetOp → DatasetTransaction × Option Thrown
  | d, [] => (d, none)
  | d, op :: rest => andThen (op.run d) fun d1 => runDatasetOps d1 rest

/-! ### Proxies over shared objects

Two proxies can wrap one record: `clone` makes them do so, and so does a
dataset that lists a record twice.  Here the objects of a run are objects of a
heap, and a proxy holds the addresses of its record, of the object its
variable `delta` is bound to, and of its `methods` object; what a trap or
method does to the objects it reaches is what it does in `Transaction`
above. -/

/-- What a read through a proxy gives when objects are told apart: a field
value, the object bound to `delta`, the function `name` of the `methods`
object at address `owner`, or a member of `Object.prototype`. -/
inductive Ref where
  | value (v : Val)
  | deltaObject (address : Nat)
  | method (owner : Nat) (name : String)
  | builtin (name : String)
  deriving DecidableEq

/-- A proxy built by `Transaction.start`: the address of the record, the
address of the object bound to `delta`, the address of `methods`, and
`events`. -/
structure View where
  target : Nat
  delta : Nat
  methods : Nat
  events : JsObject (List Listener)

namespace View

/-- The record, delta and listeners the proxy works on. -/
def state (h : Heap) (v : View) : Transaction :=
  ⟨(h.read v.target).props, (h.read v.delta).props, v.events,
    (h.read v.target).proto, (h.read v.delta).proto⟩

/-- The function `Transaction.start(data)` for the record at `target`:
`let delta = {}` and `const methods = {...}` make two new objects (the
properties of `methods` are functions, not field values: the object is listed
without them, and `Ref.method` names them). -/
def start (h : Heap) (target : Nat) : View × Heap :=
  (⟨target, h.length, h.length + 1, Transaction.initialEvents⟩,
    h ++ [⟨[], Proto.objectPrototype⟩, ⟨[], Proto.objectPrototype⟩])

/-- The `get` trap. -/
def get (h : Heap) (v : View) (key : String) : Except Thrown Ref :=
  match (v.state h).get key with
  | Except.error e => Except.error e
  | Except.ok (Got.value x) => Except.ok (Ref.value x)
  | Except.ok (Got.delta _) => Except.ok (Ref.deltaObject v.delta)
  | Except.ok (Got.method name) => Except.ok (Ref.method v.methods name)
  | Except.ok (Got.builtin name) => Except.ok (Ref.builtin name)

/-- The `set` trap: `delete delta[key]` and `delta[key] = val` change the
object bound to `delta`. -/
def set (h : Heap) (v : View) (key : String) (val : Val) : Heap :=
  List.set h v.delta
    ⟨((v.state h).set key val).delta, ((v.state h).set key val).deltaProto⟩

/-- The method `methods.commit`: `Object.assign(data, delta)` changes the
record, `delta = {}` binds `delta` to a new object, then `emit("commit")`. -/
def commit (h : Heap) (v : View) : (View × Heap) × Option Thrown :=
  let r := Obj.assignInto (h.read v.target).props (h.read v.target).proto
    (h.read v.delta).props
  let h1 := List.set h v.target ⟨r.1, r.2⟩
  let v1 : View := { v with delta := h1.length }
  let h2 := h1 ++ [⟨[], Proto.objectPrototype⟩]
  let e := (v1.state h2).emit "commit"
  ((v1, List.set h2 v1.target ⟨e.1.data, (h2.read v1.target).proto⟩), e.2)

/-- The method `methods.rollback`: `delta = {}` binds `delta` to a new object,
then `emit("rollback")`. -/
def rollback (h : Heap) (v : View) : (View × Heap) × Option Thrown :=
  let v1 : View := { v with delta := h.length }
  let h1 := h ++ [⟨[], Proto.objectPrototype⟩]
  let e := (v1.state h1).emit "rollback"
  ((v1, List.set h1 v1.target ⟨e.1.data, (h1.read v1.target).proto⟩), e.2)

/-- The method `methods.clone`: a new proxy on the same record, then
`Object.assign(cloned.delta, delta)` on the new proxy's delta object. -/
def clone (h : Heap) (v : View) : View × Heap :=
  let cloned := start h v.target
  let r := Obj.assignInto (Heap.read cloned.2 cloned.1.delta).props
    (Heap.read cloned.2 cloned.1.delta).proto (Heap.read cloned.2 v.delta).props
  (cloned.1, List.set cloned.2 cloned.1.delta ⟨r.1, r.2⟩)

end View

/-- An instance of `class DatasetTransaction` whose members are proxies over
objects of a heap. -/
structure DatasetView where
  dataset : List View
  log : List LogRecord
  id : Nat

namespace DatasetView

/-- The records, deltas and listeners the members work on. -/
def state (h : Heap) (d : DatasetView) : DatasetTransaction :=
  ⟨d.dataset.map (View.state h), d.log, d.id⟩

/-- The method `writeLog(operation)`. -/
def writeLog (h : Heap) (d : DatasetView) (operation : String) :
    DatasetView × Option Thrown :=
  match (d.state h).getDelta with
  | Except.error e => (d, some e)
  | Except.ok delta =>
    let id := d.id
    let log : LogRecord := { id := id, operation := operation, delta := delta }
    ({ d with log := d.log ++ [log] }, none)

/-- The call `dataset.map(Transaction.start)` on the records at `targets`. -/
def startEach : Heap → List Nat → List View × Heap
  | h, [] => ([], h)
  | h, target :: rest =>
    let v := View.start h target
    let r := startEach v.2 rest
    (v.1 :: r.1, r.2)

/-- The static method `DatasetTransaction.start(dataset)`, `dataset` listing
the records at `targets`. -/
def start (h : Heap) (targets : List Nat) : (DatasetView × Heap) × Option Thrown :=
  let r := startEach h targets
  let w := writeLog r.2 { dataset := r.1, log := [], id := 0 } "start"
  ((w.1, r.2), w.2)

/-- The loop `this.dataset.forEach((t) => t.commit())`: it stops at the first
call that throws. -/
def commitEach : Heap → List View → (List View × Heap) × Option Thrown
  | h, [] => (([], h), none)
  | h, v :: rest =>
    match v.commit h with
    | (r, none) =>
      let rs := commitEach r.2 rest
      ((r.1 :: rs.1.1, rs.1.2), rs.2)
    | (r, some e) => ((r.1 :: rest, r.2), some e)

/-- The method `commit()`. -/
def commit (h : Heap) (d : DatasetView) : (DatasetView × Heap) × Option Thrown :=
  match writeLog h d "commit" with
  | (d1, some e) => ((d1, h), some e)
  | (d1, none) =>
    let r := commitEach h d1.dataset
    (({ d1 with dataset := r.1.1 }, r.1.2), r.2)

/-- The assignment `dataset[idx][key] = val` through the proxy of member
`idx`. -/
def setMember (h : Heap) (d : DatasetView) (idx : Nat) (key : String) (val : Val) : Heap :=
  match d.dataset[idx]? with
  | some v => v.set h key val
  | none => h

end DatasetView

/-- The usage record as the only object of a run. -/
def usageHeap : Heap :=
  [⟨usagePerson, Proto.objectPrototype⟩]

/-- The proxy that `Transaction.start` returns for the usage record. -/
def usageView : View :=
  (View.start usageHeap 0).1

/-- The objects after `city = "Shaoshan"` has been written through
`usageView`. -/
def usageCity : Heap :=
  usageView.set (View.start usageHeap 0).2 "city" (Val.str "Shaoshan")

/-- The objects after `__proto__ = null` has been written through
`usageView`. -/
def usageNoProto : Heap :=
  usageView.set (View.start usageHeap 0).2 "__proto__" Val.null

/-- `DatasetTransaction.start([person, person])`, one usage record listed
twice, then `a = 1` written through member `0` and `b = 2` through member
`1`. -/
def sharedRecord : DatasetView × Heap :=
  let s := (DatasetView.start usageHeap [0, 0]).1
  (s.1, s.1.setMember (s.1.setMember s.2 0 "a" (Val.num 1)) 1 "b" (Val.num 2))

/-- The three records of the usage section as the objects of a run. -/
def usageRecords : Heap :=
  [⟨usagePerson, Proto.objectPrototype⟩, ⟨usagePerson, Proto.objectPrototype⟩,
   ⟨usagePerson, Proto.objectPrototype⟩]

/-- The usage section up to the first `commit()`, over `usageRecords`. -/
def usagePendingViews : DatasetView × Heap :=
  let s := (DatasetView.start usageRecords [0, 1, 2]).1
  (s.1,
    s.1.setMember
      (s.1.setMember (s.1.setMember s.2 0 "city" (Val.str "Shaoshan"))
        1 "city" (Val.str "Shaoshan"))
      2 "city" (Val.str "Shaoshan"))

end Dataset

/-! ## Lemmas on dictionaries -/

namespace JsObject

variable {α : Type}

theorem getOwn?_replace (o : JsObject α) (k : String) (v : α) (k' : String) :
    getOwn? (replace o k v) k' =
      if k' = k ∧ hasOwnProperty o k = true then some v else getOwn? o k' := by
  induction o with
  | nil => simp [replace, getOwn?, hasOwnProperty]
  | cons p rest ih =>
    obtain ⟨a, b⟩ := p
    by_cases hak : a = k
    · subst hak
      by_cases hk : a = k'
      · subst hk; simp [replace, getOwn?, hasOwnProperty]
      · have hk2 : ¬ k' = a := fun h => hk h.symm
        simp [replace, getOwn?, hasOwnProperty, hk, hk2]
    · by_cases hk : a = k'
      · subst hk
        simp [replace, getOwn?, hasOwnProperty, hak]
      · simp [replace, getOwn?, hasOwnProperty, hak, hk, ih]

theorem getOwn?_insertIndex (n : Nat) (o : JsObject α) (k : String) (v : α)
    (k' : String) (h : hasOwnProperty o k = false) :
    getOwn? (insertIndex n k v o) k' = if k' = k then some v else getOwn? o k' := by
  induction o with
  | nil =>
    by_cases hk : k = k'
    · subst hk; simp [insertIndex, getOwn?]
    · have hk2 : ¬ k' = k := fun h => hk h.symm
      simp [insertIndex, getOwn?, hk, hk2]
  | cons p rest ih =>
    obtain ⟨a, b⟩ := p
    have hak : ¬ a = k := by
      intro hak
      simp [hasOwnProperty, getOwn?, hak] at h
    have hrest : hasOwnProperty rest k = false := by
      simpa [hasOwnProperty, getOwn?, hak] using h
    have key : getOwn? ((k, v) :: (a, b) :: rest) k' =
        if k' = k then some v else getOwn? ((a, b) :: rest) k' := by
      by_cases hk : k = k'
      · subst hk; simp [getOwn?]
      · have hk2 : ¬ k' = k := fun h => hk h.symm
        simp [getOwn?, hk, hk2]
    unfold insertIndex
    split
    · split
      · by_cases hk : a = k'
        · subst hk
          simp [getOwn?, hak]
        · simp [getOwn?, hk, ih hrest]
      · exact key
    · exact key

theorem getOwn?_append_single (o : JsObject α) (k : String) (v : α) (k' : String)
    (h : hasOwnProperty o k = false) :
    getOwn? (o ++ [(k, v)]) k' = if k' = k then some v else getOwn? o k' := by
  induction o with
  | nil =>
    by_cases hk : k = k'
    · subst hk; simp [getOwn?]
    · have hk2 : ¬ k' = k := fun h => hk h.symm
      simp [getOwn?, hk, hk2]
  | cons p rest ih =>
    obtain ⟨a, b⟩ := p
    have hak : ¬ a = k := by
      intro hak
      simp [hasOwnProperty, getOwn?, hak] at h
    have hrest : hasOwnProperty rest k = false := by
      simpa [hasOwnProperty, getOwn?, hak] using h
    by_cases hk : a = k'
    · subst hk
      simp [getOwn?, hak]
    · simp [getOwn?, hk, ih hrest]

/-- Reading after `o[k] = v`. -/
theorem getOwn?_set (o : JsObject α) (k : String) (v : α) (k' : String) :
    getOwn? (set o k v) k' = if k' = k then some v else getOwn? o k' := by
  unfold set
  by_cases h : hasOwnProperty o k = true
  · simp only [h, if_true, getOwn?_replace]
    by_cases hk : k' = k <;> simp [hk]
  · have h' : hasOwnProperty o k = false := by simpa using h
    simp only [h', Bool.false_eq_true, if_false]
    split
    · exact getOwn?_insertIndex _ o k v k' h'
    · exact getOwn?_append_single o k v k' h'

/-- Reading after `delete o[k]`. -/
theorem getOwn?_delete (o : JsObject α) (k : String) (k' : String) :
    getOwn? (delete o k) k' = if k' = k then none else getOwn? o k' := by
  induction o with
  | nil => simp [delete, getOwn?]
  | cons p rest ih =>
    obtain ⟨a, b⟩ := p
    unfold delete at ih ⊢
    by_cases hak : a = k
    · subst hak
      by_cases hk : a = k'
      · subst hk; simpa [List.filter, getOwn?] using ih
      · simpa [List.filter, getOwn?, hk] using ih
    · by_cases hk : a = k'
      · subst hk
        simp [List.filter, getOwn?, hak]
      · simpa [List.filter, getOwn?, hak, hk] using ih

theorem hasOwnProperty_iff_mem_keys (o : JsObject α) (k : String) :
    hasOwnProperty o k = true ↔ k ∈ keys o := by
  induction o with
  | nil => simp [hasOwnProperty, getOwn?, keys]
  | cons p rest ih =>
    obtain ⟨a, b⟩ := p
    by_cases hak : a = k
    · subst hak; simp [hasOwnProperty, getOwn?, keys]
    · have hka : ¬ k = a := fun h => hak h.symm
      have ih' : (getOwn? rest k).isSome = true ↔ k ∈ List.map Prod.fst rest := by
        simpa [hasOwnProperty, keys] using ih
      simp [hasOwnProperty, getOwn?, keys, hak, hka, ih']

/-- Reading after the loop `ks.forEach((key) => (d[key] = source[key]))`. -/
theorem getOwn?_foldl_set (source : Obj) (ks : List String) (d : Obj) (k : String) :
    getOwn? (ks.foldl (fun d key => set d key (Obj.get source key)) d) k =
      if k ∈ ks then some (Obj.get source k) else getOwn? d k := by
  induction ks generalizing d with
  | nil => simp
  | cons a rest ih =>
    rw [List.foldl_cons, ih, getOwn?_set]
    by_cases hk : k ∈ rest
    · simp [hk]
    · by_cases ha : k = a
      · subst ha; simp
      · simp [hk, ha]

end JsObject

/-- Reading after `Object.assign(target, source)`. -/
theorem Obj.getOwn?_assign (target source : Obj) (k : String) :
    JsObject.getOwn? (Obj.assign target source) k =
      if JsObject.hasOwnProperty source k then JsObject.getOwn? source k
      else JsObject.getOwn? target k := by
  unfold Obj.assign
  rw [JsObject.getOwn?_foldl_set]
  by_cases h : JsObject.hasOwnProperty source k = true
  · have hm := (JsObject.hasOwnProperty_iff_mem_keys source k).1 h
    simp only [hm, h, if_true]
    unfold JsObject.hasOwnProperty at h
    unfold Obj.get
    cases hg : JsObject.getOwn? source k with
    | none => simp [hg] at h
    | some v => simp
  · have hm : k ∉ JsObject.keys source := fun hm =>
      h ((JsObject.hasOwnProperty_iff_mem_keys source k).2 hm)
    simp [hm, h]

/-- An assignment to a key other than `__proto__` stores the value as an own
property, whatever the prototype. -/
theorem Obj.put_of_ne_proto (o : Obj) (p : Proto) (key : String) (v : Val)
    (hkey : key ≠ "__proto__") : Obj.put o p key v = (JsObject.set o key v, p) := by
  unfold Obj.put
  split
  · rfl
  · cases p with
    | null => rfl
    | objectPrototype => simp [hkey]
    | object id content => simp only [if_neg hkey]; split <;> rfl

/-! ## `9-separate.js`: lemmas -/

namespace Separate

variable {ω : Type}

theorem noListeners_of_initialEvents (t : Transaction ω)
    (h : t.events = Transaction.initialEvents) : NoListeners t := by
  intro name hooks hg
  rw [h] at hg
  simp only [Transaction.initialEvents, JsObject.getOwn?] at hg
  repeat' split at hg
  all_goals first
    | (cases hg; exact ⟨rfl, rfl⟩)
    | exact absurd hg (by simp)

theorem runBefore_noListeners (t : Transaction ω) (h : NoListeners t)
    (name : String) (args : List Val) : t.runBefore name args = (t, none) := by
  unfold Transaction.runBefore
  cases hg : JsObject.getOwn? t.events name with
  | none => rfl
  | some hooks =>
    obtain ⟨hb, _⟩ := h name hooks hg
    simp [hb, runListeners]

theorem runAfter_noListeners (t : Transaction ω) (h : NoListeners t)
    (name : String) (args : List Val) : t.runAfter name args = (t, none) := by
  unfold Transaction.runAfter
  cases hg : JsObject.getOwn? t.events name with
  | none => rfl
  | some hooks =>
    obtain ⟨_, ha⟩ := h name hooks hg
    simp [ha, runListeners]

theorem commit_noListeners (t : Transaction ω) (h : NoListeners t) :
    t.commit = (((t.writeLog "commit").merge).clearDelta, none) := by
  have h1 : NoListeners (t.writeLog "commit") := h
  have h2 : NoListeners (t.writeLog "commit").merge := h
  simp [Transaction.commit, runBefore_noListeners _ h1, runAfter_noListeners _ h2, andThen]

theorem rollback_noListeners (t : Transaction ω) (h : NoListeners t) :
    t.rollback = ((t.writeLog "rollback").clearDelta, none) := by
  have h1 : NoListeners (t.writeLog "rollback") := h
  have h2 : NoListeners (t.writeLog "rollback").clearDelta := h
  simp [Transaction.rollback, runBefore_noListeners _ h1, runAfter_noListeners _ h2, andThen]

theorem revoke_noListeners (t : Transaction ω) (h : NoListeners t) :
    t.revoke = (t.writeLog "revoke", none) := by
  have h1 : NoListeners (t.writeLog "revoke") := h
  simp [Transaction.revoke, runBefore_noListeners _ h1, runAfter_noListeners _ h1, andThen]

theorem timeout_noListeners (t : Transaction ω) (h : NoListeners t) (msec : Val) :
    t.timeout msec = (t.writeLog "timeout", none) := by
  have h1 : NoListeners (t.writeLog "timeout") := h
  simp [Transaction.timeout, runBefore_noListeners _ h1, runAfter_noListeners _ h1, andThen]

/-- Field by field, what the merge loop of `commit` leaves in the record. -/
theorem getOwn?_merge_data (t : Transaction ω) (k : String) :
    JsObject.getOwn? t.merge.store.data k =
      if JsObject.hasOwnProperty t.store.delta k then JsObject.getOwn? t.store.delta k
      else JsObject.getOwn? t.store.data k :=
  Obj.getOwn?_assign t.store.data t.store.delta k

/-- C1. `commit()` of `9-separate.js` with no listener registered: the call
completes normally; afterwards the record holds, at every field of the pending
delta, the delta's value, every other field of the record is as before (also
in being absent), and the delta is empty. -/
theorem commit_merges_delta_and_clears (data delta : Obj) (logs : List LogEntry)
    (env : ω) (id : Nat) :
    (Transaction.commit
        ⟨⟨data, delta, logs, env⟩, Transaction.initialEvents, id⟩).2 = none ∧
    (∀ k, JsObject.getOwn?
        (Transaction.commit
          ⟨⟨data, delta, logs, env⟩, Transaction.initialEvents, id⟩).1.store.data k =
        if JsObject.hasOwnProperty delta k then JsObject.getOwn? delta k
        else JsObject.getOwn? data k) ∧
    (Transaction.commit
        ⟨⟨data, delta, logs, env⟩, Transaction.initialEvents, id⟩).1.store.delta = [] := by
  have h := commit_noListeners
    (⟨⟨data, delta, logs, env⟩, Transaction.initialEvents, id⟩ : Transaction ω)
    (noListeners_of_initialEvents _ rfl)
  rw [h]
  refine ⟨rfl, ?_, rfl⟩
  intro k
  exact getOwn?_merge_data
    ((⟨⟨data, delta, logs, env⟩, Transaction.initialEvents, id⟩ :
      Transaction ω).writeLog "commit") k

/-- C2. `rollback()` of `9-separate.js` with no listener registered: the call
completes normally; afterwards the delta is empty, the record is the record as
it was, and reading any field through the view gives the field of the record. -/
theorem rollback_clears_delta_keeps_record (data delta : Obj) (logs : List LogEntry)
    (env : ω) (id : Nat) :
    (Transaction.rollback
        ⟨⟨data, delta, logs, env⟩, Transaction.initialEvents, id⟩).2 = none ∧
    (Transaction.rollback
        ⟨⟨data, delta, logs, env⟩, Transaction.initialEvents, id⟩).1.store.delta = [] ∧
    (Transaction.rollback
        ⟨⟨data, delta, logs, env⟩, Transaction.initialEvents, id⟩).1.store.data = data ∧
    (∀ k, Proxy.get
        (Transaction.rollback
          ⟨⟨data, delta, logs, env⟩, Transaction.initialEvents, id⟩).1 k =
        Obj.get data k) := by
  have h := rollback_noListeners
    (⟨⟨data, delta, logs, env⟩, Transaction.initialEvents, id⟩ : Transaction ω)
    (noListeners_of_initialEvents _ rfl)
  rw [h]
  refine ⟨rfl, rfl, rfl, ?_⟩
  intro k
  simp [Proxy.get, Transaction.clearDelta, Transaction.writeLog, JsObject.hasOwnProperty,
    JsObject.getOwn?]

/-- C7, as the claim states it, fails, in both halves: with the record
`born: 121`, writing `121` to `born` through the view of `9-separate.js` leaves
the delta with the entry `born: 121`, although the record holds that very
value; and writing `1` to `__proto__` leaves the delta without any entry. -/
theorem set_same_value_keeps_entry :
    Obj.get (Transaction.start [("born", Val.num 121)] ()).store.data "born" = Val.num 121 ∧
    JsObject.getOwn?
      (Proxy.set (Transaction.start [("born", Val.num 121)] ()) "born"
        (Val.num 121)).store.delta "born" = some (Val.num 121) ∧
    (Proxy.set (Transaction.start [("born", Val.num 121)] ()) "__proto__"
        (Val.num 1)).store.delta = [] := by
  decide

/-- C7, amended. Writing `value` to a `key` other than `__proto__` through the
view of `9-separate.js` leaves the delta with `key` holding `value`, whatever
the record holds; the other entries of the delta and the record are as
before. -/
theorem set_stores_value (t : Transaction ω) (key : String) (value : Val)
    (hkey : key ≠ "__proto__") :
    JsObject.getOwn? (Proxy.set t key value).store.delta key = some value ∧
    (∀ k, k ≠ key →
      JsObject.getOwn? (Proxy.set t key value).store.delta k =
        JsObject.getOwn? t.store.delta k) ∧
    (Proxy.set t key value).store.data = t.store.data := by
  refine ⟨?_, ?_, rfl⟩
  · simp [Proxy.set, Obj.put_of_ne_proto _ _ _ _ hkey, JsObject.getOwn?_set]
  · intro k hk
    simp [Proxy.set, Obj.put_of_ne_proto _ _ _ _ hkey, JsObject.getOwn?_set, hk]

/-- C7, amended, at the write of the counterexample: `born = 121` over the
record `born: 121` leaves the delta entry `born: 121`. -/
theorem set_stores_value_witness :
    "born" ≠ "__proto__" ∧
    JsObject.getOwn?
      (Proxy.set (Transaction.start [("born", Val.num 121)] ()) "born"
        (Val.num 121)).store.delta "born" = some (Val.num 121) :=
  ⟨by decide,
    (set_stores_value (Transaction.start [("born", Val.num 121)] ()) "born" (Val.num 121)
      (by decide)).1⟩

/-- One lifecycle call without listeners: it completes normally, keeps the
registry, and appends one log record carrying the current `#id`. -/
theorem Op.run_noListeners (t : Transaction ω) (h : NoListeners t) (op : Op) :
    (op.run t).2 = none ∧ (op.run t).1.events = t.events ∧
    (op.run t).1.id = t.id + 1 ∧
    (op.run t).1.store.logs.map LogEntry.id = t.store.logs.map LogEntry.id ++ [t.id] ∧
    (op.run t).1.store.logs.map LogEntry.operation =
      t.store.logs.map LogEntry.operation ++ [op.name] := by
  cases op with
  | commit =>
    simp [Op.run, Op.name, commit_noListeners t h, Transaction.clearDelta, Transaction.merge,
      Transaction.writeLog]
  | rollback =>
    simp [Op.run, Op.name, rollback_noListeners t h, Transaction.clearDelta,
      Transaction.writeLog]
  | revoke => simp [Op.run, Op.name, revoke_noListeners t h, Transaction.writeLog]
  | timeout msec =>
    simp [Op.run, Op.name, timeout_noListeners t h, Transaction.writeLog]

/-- A sequence of lifecycle calls without listeners: every call appends one
log record whose id is the number of records before it. -/
theorem runOps_noListeners (ops : List Op) (t : Transaction ω) (h : NoListeners t) :
    (runOps t ops).2 = none ∧
    (runOps t ops).1.store.logs.map LogEntry.id =
      t.store.logs.map LogEntry.id ++ (List.range ops.length).map (fun i => t.id + i) ∧
    (runOps t ops).1.store.logs.map LogEntry.operation =
      t.store.logs.map LogEntry.operation ++ ops.map Op.name := by
  induction ops generalizing t with
  | nil => simp [runOps]
  | cons op rest ih =>
    obtain ⟨h1, h2, h3, h4, h5⟩ := Op.run_noListeners t h op
    have hn : NoListeners (op.run t).1 := by
      intro name hooks hg
      rw [h2] at hg
      exact h name hooks hg
    obtain ⟨i1, i2, i3⟩ := ih (op.run t).1 hn
    have hrun : runOps t (op :: rest) = runOps (op.run t).1 rest := by
      rcases hr : op.run t with ⟨t1, e⟩
      rw [hr] at h1
      simp only at h1
      subst h1
      simp [runOps, andThen, hr]
    rw [hrun]
    refine ⟨i1, ?_, ?_⟩
    · rw [i2, h4, h3, List.length_cons, List.range_succ_eq_map]
      simp [List.map_map, Function.comp_def, Nat.add_assoc, Nat.add_comm 1]
    · rw [i3, h5]; simp

/-- C9. Log ids of `9-separate.js`: after `Transaction.start` and any sequence
of `commit`, `rollback`, `revoke` and `timeout` calls, every call has completed
normally, the log holds the `started` record followed by one record per call
(in call order, under the name of the call), and the record at position `i`
has id `i`. -/
theorem log_ids_count_from_zero (data : Obj) (env : ω) (ops : List Op) :
    (runOps (Transaction.start data env) ops).2 = none ∧
    (runOps (Transaction.start data env) ops).1.store.logs.length = ops.length + 1 ∧
    (runOps (Transaction.start data env) ops).1.store.logs.map LogEntry.operation =
      "started" :: ops.map Op.name ∧
    (runOps (Transaction.start data env) ops).1.store.logs.map LogEntry.id =
      List.range (ops.length + 1) := by
  have hn : NoListeners (Transaction.start data env) :=
    noListeners_of_initialEvents _ rfl
  obtain ⟨h1, h2, h3⟩ := runOps_noListeners ops (Transaction.start data env) hn
  have hid : (runOps (Transaction.start data env) ops).1.store.logs.map LogEntry.id =
      List.range (ops.length + 1) := by
    rw [h2, List.range_succ_eq_map]
    simp [Transaction.start, Transaction.new, Transaction.writeLog, Function.comp_def,
      Nat.add_comm]
  refine ⟨h1, ?_, ?_, hid⟩
  · have := congrArg List.length hid
    simpa using this
  · rw [h3]
    simp [Transaction.start, Transaction.new, Transaction.writeLog]

end Separate

/-! ## `9-separate.js`: the log -/

/-- The copy `Object.assign({}, delta)` has the fields of `delta`. -/
theorem Obj.getOwn?_assign_empty (delta : Obj) (k : String) :
    JsObject.getOwn? (Obj.assign [] delta) k = JsObject.getOwn? delta k := by
  rw [Obj.getOwn?_assign]
  cases h : JsObject.getOwn? delta k with
  | none => simp [JsObject.hasOwnProperty, h, JsObject.getOwn?]
  | some v => simp [JsObject.hasOwnProperty, h]

namespace Separate

variable {ω : Type}

/-- C11. The log record of `commit()` and of `rollback()` in `9-separate.js`
(no listener registered): the call appends one record that carries the name of
the operation and a copy of the delta as it was when the call was made, equal
to it field for field, although the call leaves the delta empty. -/
theorem log_record_holds_pending_delta (data delta : Obj) (logs : List LogEntry)
    (env : ω) (id : Nat) :
    (Transaction.commit
        ⟨⟨data, delta, logs, env⟩, Transaction.initialEvents, id⟩).1.store.logs =
      logs ++ [⟨id, "commit", Obj.assign [] delta⟩] ∧
    (Transaction.commit
        ⟨⟨data, delta, logs, env⟩, Transaction.initialEvents, id⟩).1.store.delta = [] ∧
    (Transaction.rollback
        ⟨⟨data, delta, logs, env⟩, Transaction.initialEvents, id⟩).1.store.logs =
      logs ++ [⟨id, "rollback", Obj.assign [] delta⟩] ∧
    (Transaction.rollback
        ⟨⟨data, delta, logs, env⟩, Transaction.initialEvents, id⟩).1.store.delta = [] ∧
    (∀ k, JsObject.getOwn? (Obj.assign [] delta) k = JsObject.getOwn? delta k) := by
  have hn : NoListeners
      (⟨⟨data, delta, logs, env⟩, Transaction.initialEvents, id⟩ : Transaction ω) :=
    noListeners_of_initialEvents _ rfl
  rw [commit_noListeners _ hn, rollback_noListeners _ hn]
  exact ⟨rfl, rfl, rfl, rfl, Obj.getOwn?_assign_empty delta⟩

/-- C20. Two `commit()` calls in a row in `9-separate.js` (no listener
registered, no write in between): both complete normally, two `commit`
records are appended (the first with the pending delta, the second with an
empty one), and the record after the second call is the record after the
first. -/
theorem commit_twice_keeps_record (data delta : Obj) (logs : List LogEntry) (env : ω)
    (id : Nat) :
    (Transaction.commit
        ⟨⟨data, delta, logs, env⟩, Transaction.initialEvents, id⟩).2 = none ∧
    (Transaction.commit
      (Transaction.commit
        ⟨⟨data, delta, logs, env⟩, Transaction.initialEvents, id⟩).1).2 = none ∧
    (Transaction.commit
      (Transaction.commit
        ⟨⟨data, delta, logs, env⟩, Transaction.initialEvents, id⟩).1).1.store.data =
      (Transaction.commit
        ⟨⟨data, delta, logs, env⟩, Transaction.initialEvents, id⟩).1.store.data ∧
    (Transaction.commit
      (Transaction.commit
        ⟨⟨data, delta, logs, env⟩, Transaction.initialEvents, id⟩).1).1.store.logs =
      logs ++ [⟨id, "commit", Obj.assign [] delta⟩, ⟨id + 1, "commit", []⟩] := by
  have hn : NoListeners
      (⟨⟨data, delta, logs, env⟩, Transaction.initialEvents, id⟩ : Transaction ω) :=
    noListeners_of_initialEvents _ rfl
  rw [commit_noListeners _ hn]
  have hn2 : NoListeners
      ((((⟨⟨data, delta, logs, env⟩, Transaction.initialEvents, id⟩ :
        Transaction ω).writeLog "commit").merge).clearDelta) := hn
  rw [commit_noListeners _ hn2]
  refine ⟨rfl, rfl, ?_, ?_⟩
  · simp [Transaction.clearDelta, Transaction.merge, Transaction.writeLog, JsObject.keys]
  · simp [Transaction.clearDelta, Transaction.merge, Transaction.writeLog, Obj.assign,
      JsObject.keys]

end Separate

/-! ## `9-separate.js`: the hooks -/

namespace Separate

variable {ω : Type}

/-- Registering `before` listeners for a known operation completes normally,
touches only the registry and appends them to the operation's `before` list. -/
theorem registerBefore_known (ls : List (Listener ω)) (t : Transaction ω) (event : String)
    (hooks : Hooks ω) (hev : JsObject.getOwn? t.events event = some hooks) :
    (registerBefore t event ls).2 = none ∧
    (registerBefore t event ls).1.store = t.store ∧
    (registerBefore t event ls).1.id = t.id ∧
    JsObject.getOwn? (registerBefore t event ls).1.events event =
      some ⟨hooks.before ++ ls, hooks.after⟩ := by
  induction ls generalizing t hooks with
  | nil => simp [registerBefore, hev]
  | cons l rest ih =>
    have hstep : t.before event l =
        (⟨t.store, JsObject.set t.events event ⟨hooks.before ++ [l], hooks.after⟩, t.id⟩,
          none) := by
      simp [Transaction.before, hev]
    have hev1 : JsObject.getOwn?
        (JsObject.set t.events event ⟨hooks.before ++ [l], hooks.after⟩) event =
        some ⟨hooks.before ++ [l], hooks.after⟩ := by
      rw [JsObject.getOwn?_set]; simp
    obtain ⟨h1, h2, h3, h4⟩ :=
      ih ⟨t.store, JsObject.set t.events event ⟨hooks.before ++ [l], hooks.after⟩, t.id⟩
        ⟨hooks.before ++ [l], hooks.after⟩ hev1
    simp only [registerBefore, hstep, andThen]
    refine ⟨h1, h2, h3, ?_⟩
    rw [h4]; simp

/-- Registering `after` listeners for a known operation completes normally,
touches only the registry and appends them to the operation's `after` list. -/
theorem registerAfter_known (ls : List (Listener ω)) (t : Transaction ω) (event : String)
    (hooks : Hooks ω) (hev : JsObject.getOwn? t.events event = some hooks) :
    (registerAfter t event ls).2 = none ∧
    (registerAfter t event ls).1.store = t.store ∧
    (registerAfter t event ls).1.id = t.id ∧
    JsObject.getOwn? (registerAfter t event ls).1.events event =
      some ⟨hooks.before, hooks.after ++ ls⟩ := by
  induction ls generalizing t hooks with
  | nil => simp [registerAfter, hev]
  | cons l rest ih =>
    have hstep : t.after event l =
        (⟨t.store, JsObject.set t.events event ⟨hooks.before, hooks.after ++ [l]⟩, t.id⟩,
          none) := by
      simp [Transaction.after, hev]
    have hev1 : JsObject.getOwn?
        (JsObject.set t.events event ⟨hooks.before, hooks.after ++ [l]⟩) event =
        some ⟨hooks.before, hooks.after ++ [l]⟩ := by
      rw [JsObject.getOwn?_set]; simp
    obtain ⟨h1, h2, h3, h4⟩ :=
      ih ⟨t.store, JsObject.set t.events event ⟨hooks.before, hooks.after ++ [l]⟩, t.id⟩
        ⟨hooks.before, hooks.after ++ [l]⟩ hev1
    simp only [registerAfter, hstep, andThen]
    refine ⟨h1, h2, h3, ?_⟩
    rw [h4]; simp

/-- What `withListeners` builds from a transaction whose registry has an
empty entry for the operation. -/
theorem withListeners_known (t : Transaction ω) (event : String)
    (hev : JsObject.getOwn? t.events event = some ⟨[], []⟩)
    (befores afters : List (Listener ω)) :
    (registerBefore t event befores).2 = none ∧
    (registerAfter (registerBefore t event befores).1 event afters).2 = none ∧
    (withListeners t event befores afters).store = t.store ∧
    (withListeners t event befores afters).id = t.id ∧
    JsObject.getOwn? (withListeners t event befores afters).events event =
      some ⟨befores, afters⟩ := by
  obtain ⟨b1, b2, b3, b4⟩ := registerBefore_known befores t event ⟨[], []⟩ hev
  obtain ⟨a1, a2, a3, a4⟩ := registerAfter_known afters _ event _ b4
  refine ⟨b1, a1, ?_, ?_, ?_⟩
  · rw [withListeners, a2, b2]
  · rw [withListeners, a3, b3]
  · rw [withListeners, a4]; simp

/-- A run of observers: each notes, in list order, the arguments and the
record and delta it finds; nothing else changes. -/
theorem runListeners_observers (tags : List Nat) (args : List Val) (s : Store (List Seen)) :
    runListeners (tags.map observer) args s =
      ({ s with env := s.env ++ tags.map fun tag => ⟨tag, args, s.data, s.delta⟩ }, none) := by
  induction tags generalizing s with
  | nil => simp [runListeners]
  | cons tag rest ih =>
    simp [runListeners, observer, ih]

/-- A run of observers with a throwing listener among them stops at the
throw: the observers after it are not called. -/
theorem runListeners_observers_thrower (pre post : List Nat) (e : Thrown) (args : List Val)
    (s : Store (List Seen)) :
    runListeners (pre.map observer ++ thrower e :: post.map observer) args s =
      ({ s with env := s.env ++ pre.map fun tag => ⟨tag, args, s.data, s.delta⟩ },
        some e) := by
  induction pre generalizing s with
  | nil => simp [runListeners, thrower]
  | cons tag rest ih =>
    simp [runListeners, observer, ih]

/-- The `before` phase of an operation whose hooks are known. -/
theorem runBefore_of_hooks (t : Transaction ω) (name : String) (args : List Val)
    (hooks : Hooks ω) (hev : JsObject.getOwn? t.events name = some hooks) :
    t.runBefore name args =
      (⟨(runListeners hooks.before args t.store).1, t.events, t.id⟩,
        (runListeners hooks.before args t.store).2) := by
  unfold Transaction.runBefore
  rw [hev]

/-- `commit()` with observers as `before` listeners and any `after`
listeners: the observers note the record and the delta of the call, then the
`after` listeners run on the merged record and the delta still pending, and
only if none throws is the delta cleared. -/
theorem commit_of_observers (t : Transaction (List Seen)) (bs : List Nat)
    (afters : List (Listener (List Seen)))
    (hev : JsObject.getOwn? t.events "commit" = some ⟨bs.map observer, afters⟩) :
    t.commit =
      andThen
        ((⟨(runListeners afters []
              ⟨Obj.assign t.store.data t.store.delta, t.store.delta,
                t.store.logs ++ [⟨t.id, "commit", Obj.assign [] t.store.delta⟩],
                t.store.env ++ bs.map fun b => ⟨b, [], t.store.data, t.store.delta⟩⟩).1,
            t.events, t.id + 1⟩,
          (runListeners afters []
              ⟨Obj.assign t.store.data t.store.delta, t.store.delta,
                t.store.logs ++ [⟨t.id, "commit", Obj.assign [] t.store.delta⟩],
                t.store.env ++ bs.map fun b => ⟨b, [], t.store.data, t.store.delta⟩⟩).2) :
            Transaction (List Seen) × Option Thrown)
        fun t2 => (t2.clearDelta, none) := by
  unfold Transaction.commit
  rw [runBefore_of_hooks (t.writeLog "commit") "commit" [] _ hev, runListeners_observers]
  simp only [andThen, Transaction.runAfter, Transaction.merge, Transaction.writeLog, hev]
  rfl

/-- `rollback()` with observers as `before` listeners and any `after`
listeners: the observers note the record and the delta of the call, then the
`after` listeners run on the unchanged record and the emptied delta. -/
theorem rollback_of_observers (t : Transaction (List Seen)) (bs : List Nat)
    (afters : List (Listener (List Seen)))
    (hev : JsObject.getOwn? t.events "rollback" = some ⟨bs.map observer, afters⟩) :
    t.rollback =
      (⟨(runListeners afters []
            ⟨t.store.data, [],
              t.store.logs ++ [⟨t.id, "rollback", Obj.assign [] t.store.delta⟩],
              t.store.env ++ bs.map fun b => ⟨b, [], t.store.data, t.store.delta⟩⟩).1,
          t.events, t.id + 1⟩,
        (runListeners afters []
            ⟨t.store.data, [],
              t.store.logs ++ [⟨t.id, "rollback", Obj.assign [] t.store.delta⟩],
              t.store.env ++ bs.map fun b => ⟨b, [], t.store.data, t.store.delta⟩⟩).2) := by
  unfold Transaction.rollback
  rw [runBefore_of_hooks (t.writeLog "rollback") "rollback" [] _ hev, runListeners_observers]
  simp only [andThen, Transaction.runAfter, Transaction.clearDelta, Transaction.writeLog,
    hev]

/-- C14. Hook order in `9-separate.js`. With observers `bs` registered through
`before` and observers `cs` registered through `after`, in list order, one
`commit()` completes normally and the journal grows by one note per listener:
first those of `bs` in order, each having seen the record and the delta as
they were at the call, then those of `cs` in order, each having seen the
record `merged` (and the delta not yet cleared), where `merged` holds the
delta's value at every field of the delta and the value of the record of the
call at every other field (fields other than `__proto__`, whose assignment
reaches the inherited setter); the call ends with the record `merged` and an
empty delta.  Likewise one `rollback()`: the notes of `bs`, then those of `cs`,
which have seen the unchanged record and the delta already cleared. -/
theorem hooks_run_in_registration_order (data delta : Obj) (logs : List LogEntry)
    (env : List Seen) (id : Nat) (bs cs : List Nat) :
    (∃ merged : Obj,
      (∀ k, k ≠ "__proto__" →
        JsObject.getOwn? merged k =
          if JsObject.hasOwnProperty delta k then JsObject.getOwn? delta k
          else JsObject.getOwn? data k) ∧
      (Transaction.commit
        (withListeners ⟨⟨data, delta, logs, env⟩, Transaction.initialEvents, id⟩ "commit"
          (bs.map observer) (cs.map observer))).2 = none ∧
      (Transaction.commit
        (withListeners ⟨⟨data, delta, logs, env⟩, Transaction.initialEvents, id⟩ "commit"
          (bs.map observer) (cs.map observer))).1.store.env =
        env ++ (bs.map fun b => ⟨b, [], data, delta⟩) ++
          (cs.map fun c => ⟨c, [], merged, delta⟩) ∧
      (Transaction.commit
        (withListeners ⟨⟨data, delta, logs, env⟩, Transaction.initialEvents, id⟩ "commit"
          (bs.map observer) (cs.map observer))).1.store.data = merged ∧
      (Transaction.commit
        (withListeners ⟨⟨data, delta, logs, env⟩, Transaction.initialEvents, id⟩ "commit"
          (bs.map observer) (cs.map observer))).1.store.delta = []) ∧
    (Transaction.rollback
      (withListeners ⟨⟨data, delta, logs, env⟩, Transaction.initialEvents, id⟩ "rollback"
        (bs.map observer) (cs.map observer))).2 = none ∧
    (Transaction.rollback
      (withListeners ⟨⟨data, delta, logs, env⟩, Transaction.initialEvents, id⟩ "rollback"
        (bs.map observer) (cs.map observer))).1.store.env =
      env ++ (bs.map fun b => ⟨b, [], data, delta⟩) ++
        (cs.map fun c => ⟨c, [], data, []⟩) ∧
    (Transaction.rollback
      (withListeners ⟨⟨data, delta, logs, env⟩, Transaction.initialEvents, id⟩ "rollback"
        (bs.map observer) (cs.map observer))).1.store.data = data ∧
    (Transaction.rollback
      (withListeners ⟨⟨data, delta, logs, env⟩, Transaction.initialEvents, id⟩ "rollback"
        (bs.map observer) (cs.map observer))).1.store.delta = [] := by
  obtain ⟨_, _, c3, c4, c5⟩ := withListeners_known
    (⟨⟨data, delta, logs, env⟩, Transaction.initialEvents, id⟩ : Transaction (List Seen))
    "commit" rfl (bs.map observer) (cs.map observer)
  obtain ⟨_, _, r3, r4, r5⟩ := withListeners_known
    (⟨⟨data, delta, logs, env⟩, Transaction.initialEvents, id⟩ : Transaction (List Seen))
    "rollback" rfl (bs.map observer) (cs.map observer)
  refine ⟨⟨Obj.assign data delta, fun k _ => Obj.getOwn?_assign data delta k, ?_⟩, ?_⟩
  · rw [commit_of_observers _ bs _ c5, c3, c4]
    simp [runListeners_observers, andThen, Transaction.clearDelta]
  · rw [rollback_of_observers _ bs _ r5, r3, r4]
    simp [runListeners_observers]

/-- C15. Where `before` and `after` depart from the claim: called with the
operation name `update`, which the registry does not have, each of them throws
a `TypeError` (reading `before` or `after` of `undefined`) instead of
returning; the transaction, its registry included, is left as it was. -/
theorem register_unknown_operation_throws :
    Transaction.before (Transaction.start [("name", Val.str "Marcus Aurelius")] ())
        "update" (fun _ s => (s, none)) =
      (Transaction.start [("name", Val.str "Marcus Aurelius")] (),
        some (Thrown.typeError "Cannot read properties of undefined")) ∧
    Transaction.after (Transaction.start [("name", Val.str "Marcus Aurelius")] ())
        "update" (fun _ s => (s, none)) =
      (Transaction.start [("name", Val.str "Marcus Aurelius")] (),
        some (Thrown.typeError "Cannot read properties of undefined")) := by
  constructor <;> rfl

/-- C16, as the claim states it, fails for `commit()`: with `city` pending and
an `after` listener of `commit` that throws, `commit()` throws, the record has
received `city` and the `commit` record is in the log, but the delta still
holds `city`: it has not been cleared. -/
theorem commit_after_throw_keeps_delta :
    (Transaction.commit
      (withListeners
        (Proxy.set (Transaction.start [("name", Val.str "Marcus Aurelius")] ()) "city"
          (Val.str "Shaoshan"))
        "commit" [] [thrower (Thrown.error (Val.str "stop"))])).2 =
      some (Thrown.error (Val.str "stop")) ∧
    (Transaction.commit
      (withListeners
        (Proxy.set (Transaction.start [("name", Val.str "Marcus Aurelius")] ()) "city"
          (Val.str "Shaoshan"))
        "commit" [] [thrower (Thrown.error (Val.str "stop"))])).1.store.delta =
      [("city", Val.str "Shaoshan")] ∧
    (Transaction.commit
      (withListeners
        (Proxy.set (Transaction.start [("name", Val.str "Marcus Aurelius")] ()) "city"
          (Val.str "Shaoshan"))
        "commit" [] [thrower (Thrown.error (Val.str "stop"))])).1.store.data =
      [("name", Val.str "Marcus Aurelius"), ("city", Val.str "Shaoshan")] ∧
    (Transaction.commit
      (withListeners
        (Proxy.set (Transaction.start [("name", Val.str "Marcus Aurelius")] ()) "city"
          (Val.str "Shaoshan"))
        "commit" [] [thrower (Thrown.error (Val.str "stop"))])).1.store.logs.map
        (fun r => r.operation) = ["started", "commit"] := by
  decide

/-- C16, amended. With observers `bs` registered through `before`, and through
`after` the observers `pre`, then a listener that throws `e`, then the
observers `post`: `commit()` throws `e`, the journal holds the notes of `bs`
and of `pre` only (no listener of `post` is called), the `commit` record is in
the log and the record is merged, but the delta is as it was at the call, not
cleared.  `rollback()` throws `e` as well, with the notes of `bs` and `pre`
only and the `rollback` record in the log; there the delta has been cleared
and the record is unchanged. -/
theorem after_listener_throw_ends_operation (data delta : Obj) (logs : List LogEntry)
    (env : List Seen) (id : Nat) (bs pre post : List Nat) (e : Thrown) :
    Transaction.commit
      (withListeners ⟨⟨data, delta, logs, env⟩, Transaction.initialEvents, id⟩ "commit"
        (bs.map observer) (pre.map observer ++ thrower e :: post.map observer)) =
      (⟨⟨(Transaction.merge
            ⟨⟨data, delta, logs, env⟩, Transaction.initialEvents, id⟩).store.data,
          delta,
          logs ++ [⟨id, "commit", Obj.assign [] delta⟩],
          env ++ (bs.map fun b => ⟨b, [], data, delta⟩) ++
            (pre.map fun c => ⟨c, [],
              (Transaction.merge
                ⟨⟨data, delta, logs, env⟩, Transaction.initialEvents, id⟩).store.data,
              delta⟩)⟩,
        (withListeners ⟨⟨data, delta, logs, env⟩, Transaction.initialEvents, id⟩ "commit"
          (bs.map observer) (pre.map observer ++ thrower e :: post.map observer)).events,
        id + 1⟩, some e) ∧
    Transaction.rollback
      (withListeners ⟨⟨data, delta, logs, env⟩, Transaction.initialEvents, id⟩ "rollback"
        (bs.map observer) (pre.map observer ++ thrower e :: post.map observer)) =
      (⟨⟨data, [],
          logs ++ [⟨id, "rollback", Obj.assign [] delta⟩],
          env ++ (bs.map fun b => ⟨b, [], data, delta⟩) ++
            (pre.map fun c => ⟨c, [], data, []⟩)⟩,
        (withListeners ⟨⟨data, delta, logs, env⟩, Transaction.initialEvents, id⟩ "rollback"
          (bs.map observer) (pre.map observer ++ thrower e :: post.map observer)).events,
        id + 1⟩, some e) := by
  obtain ⟨_, _, c3, c4, c5⟩ := withListeners_known
    (⟨⟨data, delta, logs, env⟩, Transaction.initialEvents, id⟩ : Transaction (List Seen))
    "commit" rfl (bs.map observer) (pre.map observer ++ thrower e :: post.map observer)
  obtain ⟨_, _, r3, r4, r5⟩ := withListeners_known
    (⟨⟨data, delta, logs, env⟩, Transaction.initialEvents, id⟩ : Transaction (List Seen))
    "rollback" rfl (bs.map observer) (pre.map observer ++ thrower e :: post.map observer)
  rw [commit_of_observers _ bs _ c5, rollback_of_observers _ bs _ r5, c3, c4, r3, r4]
  rw [runListeners_observers_thrower, runListeners_observers_thrower]
  exact ⟨rfl, rfl⟩

end Separate

/-! ## Lemmas on the heap -/

/-- Reading after another object has been changed in place. -/
theorem Heap.read_set_of_ne (h : Heap) (a b : Nat) (o : HeapObject) (hab : a ≠ b) :
    Heap.read (List.set h a o) b = Heap.read h b := by
  simp [Heap.read, List.getElem?_set, hab]

/-- Reading the object that has been changed in place. -/
theorem Heap.read_set_self (h : Heap) (a : Nat) (o : HeapObject) (ha : a < h.length) :
    Heap.read (List.set h a o) a = o := by
  simp [Heap.read, List.getElem?_set, ha]

/-- Reading an old object after a new one has been made. -/
theorem Heap.read_append_of_lt (h : Heap) (os : List HeapObject) (b : Nat)
    (hb : b < h.length) : Heap.read (h ++ os) b = Heap.read h b := by
  simp [Heap.read, List.getElem?_append_left hb]

/-- Reading the object that has just been made. -/
theorem Heap.read_append_length (h : Heap) (o : HeapObject) (os : List HeapObject) :
    Heap.read (h ++ o :: os) h.length = o := by
  unfold Heap.read
  rw [List.getElem?_append_right (Nat.le_refl _)]
  simp

/-! ## `9-separate.js`: the log over shared objects -/

namespace Separate

namespace Shared

variable {ω : Type}

theorem Keeps.refl (t : Transaction ω) : Keeps t t :=
  ⟨List.prefix_refl _, fun _ _ => rfl⟩

theorem Keeps.trans {t1 t2 t3 : Transaction ω} (h12 : Keeps t1 t2) (h23 : Keeps t2 t3) :
    Keeps t1 t3 :=
  ⟨h12.1.trans h23.1, fun e he => by
    rw [h23.2 e (h12.1.subset he), h12.2 e he]⟩

/-- The phases of an operation of the initial registry call no listener. -/
theorem runBefore_initialEvents (t : Transaction ω) (he : t.events = Transaction.initialEvents)
    (name : String) (args : List Val)
    (hname : name ∈ ["commit", "rollback", "revoke", "timeout"]) :
    t.runBefore name args = (t, none) ∧ t.runAfter name args = (t, none) := by
  obtain ⟨store, events, id⟩ := t
  simp only at he
  subst he
  simp only [List.mem_cons, List.mem_singleton, List.not_mem_nil, or_false] at hname
  rcases hname with rfl | rfl | rfl | rfl <;> exact ⟨rfl, rfl⟩

/-- The merge loop changes the record only and makes no object. -/
theorem foldl_assignField_frame (data delta : Nat) (keys : List String) (h : Heap) :
    (keys.foldl (Transaction.assignField data delta) h).length = h.length ∧
    ∀ a, a ≠ data →
      Heap.read (keys.foldl (Transaction.assignField data delta) h) a = h.read a := by
  induction keys generalizing h with
  | nil => exact ⟨rfl, fun _ _ => rfl⟩
  | cons key rest ih =>
    simp only [List.foldl_cons]
    obtain ⟨i1, i2⟩ := ih (Transaction.assignField data delta h key)
    refine ⟨by rw [i1]; simp [Transaction.assignField], fun a ha => ?_⟩
    rw [i2 a ha]
    exact Heap.read_set_of_ne _ _ _ _ (Ne.symm ha)

/-- `#writeLog` keeps the objects apart and the log records as they are. -/
theorem writeLog_separated (t : Transaction ω) (hs : Separated t) (operation : String) :
    Separated (t.writeLog operation) ∧ Keeps t (t.writeLog operation) ∧
      (t.writeLog operation).events = t.events := by
  obtain ⟨h1, h2, h3, h4⟩ := hs
  refine ⟨⟨?_, ?_, h3, ?_⟩, ⟨?_, ?_⟩, rfl⟩
  · simp only [Transaction.writeLog, List.length_append, List.length_singleton]; omega
  · simp only [Transaction.writeLog, List.length_append, List.length_singleton]; omega
  · intro e he
    simp only [Transaction.writeLog, List.mem_append, List.mem_singleton] at he
    simp only [Transaction.writeLog, List.length_append, List.length_singleton]
    rcases he with he | he
    · obtain ⟨a, b, c⟩ := h4 e he
      exact ⟨by omega, b, c⟩
    · subst he
      exact ⟨by simp, by simp; omega, by simp; omega⟩
  · exact List.prefix_append _ _
  · intro e he
    exact Heap.read_append_of_lt _ _ _ (h4 e he).1

/-- The merge loop keeps the objects apart and the log records as they are. -/
theorem merge_separated (t : Transaction ω) (hs : Separated t) :
    Separated t.merge ∧ Keeps t t.merge ∧ t.merge.events = t.events := by
  obtain ⟨h1, h2, h3, h4⟩ := hs
  obtain ⟨f1, f2⟩ := foldl_assignField_frame t.store.data t.store.delta
    (JsObject.keys (t.store.heap.read t.store.delta).props) t.store.heap
  refine ⟨⟨?_, ?_, h3, ?_⟩, ⟨List.prefix_refl _, ?_⟩, rfl⟩
  · simp only [Transaction.merge]
    rw [f1]; exact h1
  · simp only [Transaction.merge]
    rw [f1]; exact h2
  · intro e he
    obtain ⟨a, b, c⟩ := h4 e he
    refine ⟨?_, b, c⟩
    simp only [Transaction.merge]
    rw [f1]; exact a
  · intro e he
    exact f2 e.delta (h4 e he).2.1

/-- `this.delta = {}` keeps the objects apart and the log records as they
are. -/
theorem clearDelta_separated (t : Transaction ω) (hs : Separated t) :
    Separated t.clearDelta ∧ Keeps t t.clearDelta ∧ t.clearDelta.events = t.events := by
  obtain ⟨h1, h2, h3, h4⟩ := hs
  refine ⟨⟨?_, ?_, ?_, ?_⟩, ⟨List.prefix_refl _, ?_⟩, rfl⟩
  · simp only [Transaction.clearDelta, List.length_append, List.length_singleton]; omega
  · simp only [Transaction.clearDelta, List.length_append, List.length_singleton]; omega
  · simp only [Transaction.clearDelta]; omega
  · intro e he
    obtain ⟨a, b, c⟩ := h4 e he
    simp only [Transaction.clearDelta, List.length_append, List.length_singleton]
    exact ⟨by omega, b, by omega⟩
  · intro e he
    exact Heap.read_append_of_lt _ _ _ (h4 e he).1

/-- A write through the view keeps the objects apart and the log records as
they are. -/
theorem set_separated (t : Transaction ω) (hs : Separated t) (key : String) (value : Val) :
    Separated (Proxy.set t key value) ∧ Keeps t (Proxy.set t key value) ∧
      (Proxy.set t key value).events = t.events := by
  obtain ⟨h1, h2, h3, h4⟩ := hs
  refine ⟨⟨?_, ?_, h3, ?_⟩, ⟨List.prefix_refl _, ?_⟩, rfl⟩
  · simp only [Proxy.set, List.length_set]; exact h1
  · simp only [Proxy.set, List.length_set]; exact h2
  · intro e he
    obtain ⟨a, b, c⟩ := h4 e he
    simp only [Proxy.set, List.length_set]
    exact ⟨a, b, c⟩
  · intro e he
    exact Heap.read_set_of_ne _ _ _ _ (Ne.symm (h4 e he).2.2)

/-- One step without listeners completes normally, keeps the objects apart
and the log records as they are. -/
theorem Step.run_separated (t : Transaction ω) (he : t.events = Transaction.initialEvents)
    (hs : Separated t) (step : Step) :
    (step.run t).2 = none ∧ (step.run t).1.events = Transaction.initialEvents ∧
      Separated (step.run t).1 ∧ Keeps t (step.run t).1 := by
  cases step with
  | write key value =>
    obtain ⟨a, b, c⟩ := set_separated t hs key value
    exact ⟨rfl, c.trans he, a, b⟩
  | call op =>
    cases op with
    | commit =>
      obtain ⟨a1, b1, c1⟩ := writeLog_separated t hs "commit"
      obtain ⟨a2, b2, c2⟩ := merge_separated _ a1
      obtain ⟨a3, b3, c3⟩ := clearDelta_separated _ a2
      have e1 := c1.trans he
      have e2 := c2.trans e1
      have hrun : Step.run t (Step.call Op.commit) =
          (((t.writeLog "commit").merge).clearDelta, none) := by
        simp only [Step.run, Transaction.commit,
          (runBefore_initialEvents _ e1 "commit" [] (by simp)).1,
          (runBefore_initialEvents _ e2 "commit" [] (by simp)).2, andThen]
      rw [hrun]
      exact ⟨rfl, c3.trans e2, a3, (b1.trans b2).trans b3⟩
    | rollback =>
      obtain ⟨a1, b1, c1⟩ := writeLog_separated t hs "rollback"
      obtain ⟨a3, b3, c3⟩ := clearDelta_separated _ a1
      have e1 := c1.trans he
      have e3 := c3.trans e1
      have hrun : Step.run t (Step.call Op.rollback) =
          ((t.writeLog "rollback").clearDelta, none) := by
        simp only [Step.run, Transaction.rollback,
          (runBefore_initialEvents _ e1 "rollback" [] (by simp)).1,
          (runBefore_initialEvents _ e3 "rollback" [] (by simp)).2, andThen]
      rw [hrun]
      exact ⟨rfl, e3, a3, b1.trans b3⟩
    | revoke =>
      obtain ⟨a1, b1, c1⟩ := writeLog_separated t hs "revoke"
      have e1 := c1.trans he
      have hrun : Step.run t (Step.call Op.revoke) = (t.writeLog "revoke", none) := by
        simp only [Step.run, Transaction.revoke,
          (runBefore_initialEvents _ e1 "revoke" [] (by simp)).1,
          (runBefore_initialEvents _ e1 "revoke" [] (by simp)).2, andThen]
      rw [hrun]
      exact ⟨rfl, e1, a1, b1⟩
    | timeout msec =>
      obtain ⟨a1, b1, c1⟩ := writeLog_separated t hs "timeout"
      have e1 := c1.trans he
      have hrun : Step.run t (Step.call (Op.timeout msec)) = (t.writeLog "timeout", none) := by
        simp only [Step.run, Transaction.timeout,
          (runBefore_initialEvents _ e1 "timeout" [msec] (by simp)).1,
          (runBefore_initialEvents _ e1 "timeout" [msec] (by simp)).2, andThen]
      rw [hrun]
      exact ⟨rfl, e1, a1, b1⟩

/-- A sequence of steps without listeners completes normally, keeps the
objects apart and the log records as they are. -/
theorem runSteps_separated (steps : List Step) (t : Transaction ω)
    (he : t.events = Transaction.initialEvents) (hs : Separated t) :
    (runSteps t steps).2 = none ∧ (runSteps t steps).1.events = Transaction.initialEvents ∧
      Separated (runSteps t steps).1 ∧ Keeps t (runSteps t steps).1 := by
  induction steps generalizing t with
  | nil => exact ⟨rfl, he, hs, Keeps.refl t⟩
  | cons step rest ih =>
    obtain ⟨h1, h2, h3, h4⟩ := Step.run_separated t he hs step
    obtain ⟨i1, i2, i3, i4⟩ := ih (step.run t).1 h2 h3
    have hrun : runSteps t (step :: rest) = runSteps (step.run t).1 rest := by
      rcases hr : step.run t with ⟨t1, e⟩
      rw [hr] at h1
      simp only at h1
      subst h1
      simp [runSteps, andThen, hr]
    rw [hrun]
    exact ⟨i1, i2, i3, h4.trans i4⟩

/-- The transaction that `Transaction.start` builds keeps its objects apart. -/
theorem start_separated (data : HeapObject) (env : ω) :
    Separated (Transaction.start data env) := by
  refine ⟨?_, ?_, ?_, ?_⟩
  · simp [Transaction.start, Transaction.new, Transaction.writeLog]
  · simp [Transaction.start, Transaction.new, Transaction.writeLog]
  · simp [Transaction.start, Transaction.new, Transaction.writeLog]
  · intro e he
    simp only [Transaction.start, Transaction.new, Transaction.writeLog, List.nil_append,
      List.mem_singleton] at he
    subst he
    simp [Transaction.start, Transaction.new, Transaction.writeLog]

/-- C12, as the claim states it, fails. After `Transaction.start` on the record
`name` the log holds the `started` record, whose delta is an empty object.
With the listener `() => { transaction.logs.length = 0 }` registered before
`commit`, one `commit()` returns normally and leaves the log empty: the
`started` record is gone.  With a listener registered after `rollback` that
assigns `born = 121` on the delta of the first log record, one `rollback()`
returns normally and the `started` record, still first in the log, holds a
delta with the field `born`. -/
theorem listener_changes_logged_records :
    (Transaction.start ⟨[("name", Val.str "Marcus Aurelius")], Proto.objectPrototype⟩
        ()).store.logs = [⟨0, "started", 2⟩] ∧
    (Transaction.start ⟨[("name", Val.str "Marcus Aurelius")], Proto.objectPrototype⟩
        ()).store.heap.read 2 = ⟨[], Proto.objectPrototype⟩ ∧
    (Transaction.commit
      (Transaction.before
        (Transaction.start ⟨[("name", Val.str "Marcus Aurelius")], Proto.objectPrototype⟩ ())
        "commit" truncateLogs).1).2 = none ∧
    (Transaction.commit
      (Transaction.before
        (Transaction.start ⟨[("name", Val.str "Marcus Aurelius")], Proto.objectPrototype⟩ ())
        "commit" truncateLogs).1).1.store.logs = [] ∧
    (Transaction.rollback
      (Transaction.after
        (Transaction.start ⟨[("name", Val.str "Marcus Aurelius")], Proto.objectPrototype⟩ ())
        "rollback" (writeFirstLogged "born" (Val.num 121))).1).2 = none ∧
    (Transaction.rollback
      (Transaction.after
        (Transaction.start ⟨[("name", Val.str "Marcus Aurelius")], Proto.objectPrototype⟩ ())
        "rollback" (writeFirstLogged "born" (Val.num 121))).1).1.store.logs =
      [⟨0, "started", 2⟩, ⟨1, "rollback", 3⟩] ∧
    (Transaction.rollback
      (Transaction.after
        (Transaction.start ⟨[("name", Val.str "Marcus Aurelius")], Proto.objectPrototype⟩ ())
        "rollback" (writeFirstLogged "born" (Val.num 121))).1).1.store.heap.read 2 =
      ⟨[("born", Val.num 121)], Proto.objectPrototype⟩ := by
  decide

/-- C12, amended. The log of `9-separate.js` when no listener is registered.
From `Transaction.start` on any record, every sequence `steps` of writes
through the view and of `commit`, `rollback`, `revoke` and `timeout` calls
completes normally, and so does every further sequence `later`; the log after
`later` starts with the log after `steps` (every record keeps its position,
id, operation and the object it holds), and every object held by a record of
the log after `steps` has, after `later`, the own properties and the prototype
it had: it is neither the record nor the object that `this.delta` is bound to,
which are the objects that the steps of `later` change. -/
theorem log_is_append_only (data : HeapObject) (env : ω) (steps later : List Step) :
    (runSteps (Transaction.start data env) steps).2 = none ∧
    (runSteps (runSteps (Transaction.start data env) steps).1 later).2 = none ∧
    (runSteps (Transaction.start data env) steps).1.store.logs <+:
      (runSteps (runSteps (Transaction.start data env) steps).1 later).1.store.logs ∧
    (∀ e ∈ (runSteps (Transaction.start data env) steps).1.store.logs,
      (runSteps (runSteps (Transaction.start data env) steps).1 later).1.store.heap.read
          e.delta =
        (runSteps (Transaction.start data env) steps).1.store.heap.read e.delta) ∧
    (∀ e ∈ (runSteps (Transaction.start data env) steps).1.store.logs,
      e.delta ≠ (runSteps (Transaction.start data env) steps).1.store.data ∧
      e.delta ≠ (runSteps (Transaction.start data env) steps).1.store.delta) := by
  obtain ⟨h1, h2, h3, _⟩ :=
    runSteps_separated steps (Transaction.start data env) rfl (start_separated data env)
  obtain ⟨i1, _, _, i4⟩ :=
    runSteps_separated later (runSteps (Transaction.start data env) steps).1 h2 h3
  exact ⟨h1, i1, i4.1, i4.2, fun e he => (h3.2.2.2 e he).2⟩

end Shared

end Separate

/-! ## `8-dataset.js`: the single-record transaction -/

/-- Operands that `===` accepts are equal. -/
theorem eq_of_strictEq (a b : Val) (h : strictEq a b = true) : a = b := by
  unfold strictEq at h
  split at h
  · exact absurd h (by simp)
  · exact of_decide_eq_true h

/-- Operands that `===` rejects are different, unless the right one is `NaN`. -/
theorem ne_of_strictEq_false (a b : Val) (h : strictEq a b = false) (hb : b ≠ Val.nan) :
    a ≠ b := by
  unfold strictEq at h
  split at h
  · exact fun e => hb e.symm
  · exact of_decide_eq_false h

/-- An assignment of a source without the key `__proto__` creates or overwrites
own properties only: it is `Object.assign` on the own properties and leaves
the prototype. -/
theorem Obj.foldl_put_of_no_proto (source : Obj) (ks : List String)
    (hks : ∀ k ∈ ks, k ≠ "__proto__") (target : Obj) (p : Proto) :
    ks.foldl (fun t k => Obj.put t.1 t.2 k (Obj.get source k)) (target, p) =
      (ks.foldl (fun t k => JsObject.set t k (Obj.get source k)) target, p) := by
  induction ks generalizing target with
  | nil => rfl
  | cons k rest ih =>
    simp only [List.foldl_cons]
    rw [Obj.put_of_ne_proto _ _ _ _ (hks k (List.mem_cons_self _ _))]
    exact ih (fun x hx => hks x (List.mem_cons_of_mem _ hx)) _

/-- `Object.assign(target, source)` for a source without the key `__proto__`. -/
theorem Obj.assignInto_of_no_proto (target : Obj) (p : Proto) (source : Obj)
    (h : JsObject.hasOwnProperty source "__proto__" = false) :
    Obj.assignInto target p source = (Obj.assign target source, p) := by
  unfold Obj.assignInto Obj.assign
  apply Obj.foldl_put_of_no_proto
  intro k hk hkp
  rw [hkp, ← JsObject.hasOwnProperty_iff_mem_keys, h] at hk
  exact absurd hk (by simp)

/-- The call `o.hasOwnProperty(key)` when the lookup finds the function. -/
theorem Obj.callHasOwnProperty_of_inherits (o : Obj) (p : Proto) (key : String)
    (h : Obj.inheritsHasOwnProperty o p = true) :
    Obj.callHasOwnProperty o p key = Except.ok (JsObject.hasOwnProperty o key) := by
  simp [Obj.callHasOwnProperty, h]

/-- The call `o.hasOwnProperty(key)` when the lookup does not find the
function. -/
theorem Obj.callHasOwnProperty_of_not_inherits (o : Obj) (p : Proto) (key : String)
    (h : Obj.inheritsHasOwnProperty o p = false) :
    Obj.callHasOwnProperty o p key =
      Except.error (Thrown.typeError "hasOwnProperty is not a function") := by
  simp [Obj.callHasOwnProperty, h]

/-- A change of another property than `hasOwnProperty` does not change what
the lookup of `hasOwnProperty` finds. -/
theorem Obj.inheritsHasOwnProperty_congr (o o' : Obj) (p : Proto)
    (h : JsObject.getOwn? o' "hasOwnProperty" = JsObject.getOwn? o "hasOwnProperty") :
    Obj.inheritsHasOwnProperty o' p = Obj.inheritsHasOwnProperty o p := by
  simp [Obj.inheritsHasOwnProperty, JsObject.hasOwnProperty, h]

namespace Dataset

theorem emit_initialEvents_commit (t : Transaction)
    (h : t.events = Transaction.initialEvents) : t.emit "commit" = (t, none) := by
  obtain ⟨data, delta, events, dataProto, deltaProto⟩ := t
  simp only at h
  subst h
  rfl

theorem emit_initialEvents_rollback (t : Transaction)
    (h : t.events = Transaction.initialEvents) : t.emit "rollback" = (t, none) := by
  obtain ⟨data, delta, events, dataProto, deltaProto⟩ := t
  simp only at h
  subst h
  rfl

theorem commit_initialEvents (t : Transaction) (h : t.events = Transaction.initialEvents) :
    t.commit =
      (⟨(Obj.assignInto t.data t.dataProto t.delta).1, [], Transaction.initialEvents,
          (Obj.assignInto t.data t.dataProto t.delta).2, Proto.objectPrototype⟩, none) := by
  obtain ⟨data, delta, events, dataProto, deltaProto⟩ := t
  simp only at h
  subst h
  unfold Transaction.commit
  rw [emit_initialEvents_commit _ rfl]

theorem rollback_initialEvents (t : Transaction) (h : t.events = Transaction.initialEvents) :
    t.rollback =
      (⟨t.data, [], Transaction.initialEvents, t.dataProto, Proto.objectPrototype⟩, none) := by
  obtain ⟨data, delta, events, dataProto, deltaProto⟩ := t
  simp only at h
  subst h
  unfold Transaction.rollback
  rw [emit_initialEvents_rollback _ rfl]

/-- The `methods` object has the property `key`. -/
theorem hasOwnProperty_methods (key : String) :
    JsObject.hasOwnProperty (methodNames.map fun m => (m, ())) key = true ↔
      key ∈ methodNames := by
  rw [JsObject.hasOwnProperty_iff_mem_keys]
  simp [JsObject.keys, List.map_map, Function.comp_def]

/-- The `get` trap at a key that is neither `delta` nor a name of `methods`. -/
theorem get_of_field (t : Transaction) (key : String) (hdelta : key ≠ "delta")
    (hmethod : key ∉ methodNames) :
    t.get key =
      match Obj.callHasOwnProperty t.delta t.deltaProto key with
      | Except.error e => Except.error e
      | Except.ok true => Except.ok (Got.value (Obj.get t.delta key))
      | Except.ok false => Except.ok (Got.ofRead (Obj.read t.data t.dataProto key)) := by
  have hm : JsObject.hasOwnProperty (methodNames.map fun m => (m, ())) key = false := by
    cases h : JsObject.hasOwnProperty (methodNames.map fun m => (m, ())) key with
    | false => rfl
    | true => exact absurd ((hasOwnProperty_methods key).1 h) hmethod
  unfold Transaction.get
  rw [if_neg hdelta, hm]
  rfl

/-- A read of a field through the view returns only if the lookup of
`hasOwnProperty` on the delta finds the function. -/
theorem inherits_of_get_ok (t : Transaction) (key : String) (got : Got)
    (hdelta : key ≠ "delta") (hmethod : key ∉ methodNames)
    (hget : t.get key = Except.ok got) :
    Obj.inheritsHasOwnProperty t.delta t.deltaProto = true := by
  cases h : Obj.inheritsHasOwnProperty t.delta t.deltaProto with
  | true => rfl
  | false =>
    rw [get_of_field t key hdelta hmethod,
      Obj.callHasOwnProperty_of_not_inherits _ _ _ h] at hget
    exact absurd hget (by simp)

/-- C6, as the claim states it, fails, on the record `name`: after writing `1`
to `commit` through the view of `8-dataset.js`, reading `commit` gives the
function `methods.commit`; after writing `1` to `hasOwnProperty`, reading
`hasOwnProperty` throws a `TypeError`; and writing `1` to `__proto__` leaves
the delta without an entry, reading `__proto__` gives `Object.prototype`. -/
theorem get_after_set_reserved_name :
    ((Transaction.start [("name", Val.str "Marcus Aurelius")]).set "commit"
        (Val.num 1)).get "commit" = Except.ok (Got.method "commit") ∧
    ((Transaction.start [("name", Val.str "Marcus Aurelius")]).set "hasOwnProperty"
        (Val.num 1)).get "hasOwnProperty" =
      Except.error (Thrown.typeError "hasOwnProperty is not a function") ∧
    ((Transaction.start [("name", Val.str "Marcus Aurelius")]).set "__proto__"
        (Val.num 1)).delta = [] ∧
    ((Transaction.start [("name", Val.str "Marcus Aurelius")]).set "__proto__"
        (Val.num 1)).get "__proto__" = Except.ok (Got.builtin "__proto__") := by
  decide

/-- C6, amended. For every record, every pending delta, every value `val` and
every field name `key` other than `delta`, the names of `methods` (`commit`,
`rollback`, `clone`, `on`), `hasOwnProperty` and `__proto__`: if reading `key`
through the view returns (it throws when the delta has lost the method
`hasOwnProperty`), then after writing `val` to `key` through the view, reading
`key` through the view returns `val`. -/
theorem get_after_set (t : Transaction) (key : String) (val : Val) (before : Got)
    (hdelta : key ≠ "delta") (hmethod : key ∉ methodNames)
    (hhas : key ≠ "hasOwnProperty") (hproto : key ≠ "__proto__")
    (hread : t.get key = Except.ok before) :
    (t.set key val).get key = Except.ok (Got.value val) := by
  have hinh := inherits_of_get_ok t key before hdelta hmethod hread
  rw [get_of_field _ key hdelta hmethod]
  by_cases hs : (Obj.read t.data t.dataProto key).identical val = true
  · have hset : t.set key val = { t with delta := JsObject.delete t.delta key } := by
      simp [Transaction.set, hs]
    have hinh' : Obj.inheritsHasOwnProperty (JsObject.delete t.delta key) t.deltaProto = true := by
      rw [Obj.inheritsHasOwnProperty_congr t.delta _ _
        (by rw [JsObject.getOwn?_delete, if_neg (Ne.symm hhas)])]
      exact hinh
    rw [hset]
    simp only
    rw [Obj.callHasOwnProperty_of_inherits _ _ _ hinh']
    have hno : JsObject.hasOwnProperty (JsObject.delete t.delta key) key = false := by
      simp [JsObject.hasOwnProperty, JsObject.getOwn?_delete]
    rw [hno]
    simp only
    cases hr : Obj.read t.data t.dataProto key with
    | value v =>
      rw [hr] at hs
      simp only [Read.identical] at hs
      rw [eq_of_strictEq _ _ hs]
      rfl
    | builtin name =>
      rw [hr] at hs
      simp [Read.identical] at hs
  · have hset : t.set key val =
        { t with delta := JsObject.set t.delta key val } := by
      simp [Transaction.set, hs, Obj.put_of_ne_proto _ _ _ _ hproto]
    have hinh' : Obj.inheritsHasOwnProperty (JsObject.set t.delta key val) t.deltaProto =
        true := by
      rw [Obj.inheritsHasOwnProperty_congr t.delta _ _
        (by rw [JsObject.getOwn?_set, if_neg (Ne.symm hhas)])]
      exact hinh
    rw [hset]
    simp only
    rw [Obj.callHasOwnProperty_of_inherits _ _ _ hinh']
    have hyes : JsObject.hasOwnProperty (JsObject.set t.delta key val) key = true := by
      simp [JsObject.hasOwnProperty, JsObject.getOwn?_set]
    rw [hyes]
    simp [Obj.get, JsObject.getOwn?_set]

/-- C6, amended, at the field `city` of the usage scenario. -/
theorem get_after_set_witness :
    (Transaction.start [("name", Val.str "Marcus Aurelius"), ("born", Val.num 121)]).get
        "city" = Except.ok (Got.value Val.undefined) ∧
    ((Transaction.start [("name", Val.str "Marcus Aurelius"), ("born", Val.num 121)]).set
        "city" (Val.str "Shaoshan")).get "city" = Except.ok (Got.value (Val.str "Shaoshan")) :=
  ⟨by decide,
    get_after_set _ "city" (Val.str "Shaoshan") (Got.value Val.undefined) (by decide)
      (by decide) (by decide) (by decide) (by decide)⟩

/-- One call on a single-record transaction without listeners completes
normally and keeps the delta minimal. -/
theorem Op.run_deltaMinimal (t : Transaction) (he : t.events = Transaction.initialEvents)
    (hm : DeltaMinimal t) (op : Op) :
    (op.run t).2 = none ∧ (op.run t).1.events = Transaction.initialEvents ∧
      DeltaMinimal (op.run t).1 := by
  cases op with
  | set key val =>
    refine ⟨rfl, ?_, ?_⟩
    · simp only [Op.run, Transaction.set]
      split <;> exact he
    · intro k v hg
      simp only [Op.run] at hg ⊢
      by_cases hs : (Obj.read t.data t.dataProto key).identical val = true
      · have hset : t.set key val = { t with delta := JsObject.delete t.delta key } := by
          simp [Transaction.set, hs]
        rw [hset] at hg ⊢
        simp only [JsObject.getOwn?_delete] at hg
        by_cases hk : k = key
        · simp [hk] at hg
        · rw [if_neg hk] at hg
          exact hm k v hg
      · have hset : t.set key val =
            { t with delta := (Obj.put t.delta t.deltaProto key val).1,
                     deltaProto := (Obj.put t.delta t.deltaProto key val).2 } := by
          simp [Transaction.set, hs]
        rw [hset] at hg ⊢
        simp only at hg ⊢
        have hput : (Obj.put t.delta t.deltaProto key val).1 = JsObject.set t.delta key val ∨
            (Obj.put t.delta t.deltaProto key val).1 = t.delta := by
          unfold Obj.put
          split
          · exact Or.inl rfl
          · cases t.deltaProto with
            | null => exact Or.inl rfl
            | objectPrototype =>
              simp only
              split
              · exact Or.inr rfl
              · exact Or.inl rfl
            | object id content =>
              simp only
              split
              · exact Or.inl rfl
              · split
                · exact Or.inr rfl
                · exact Or.inl rfl
        rcases hput with hput | hput
        · rw [hput, JsObject.getOwn?_set] at hg
          by_cases hk : k = key
          · rw [if_pos hk] at hg
            cases hg
            subst hk
            simpa using hs
          · rw [if_neg hk] at hg
            exact hm k v hg
        · rw [hput] at hg
          exact hm k v hg
  | commit =>
    rw [Op.run, commit_initialEvents t he]
    exact ⟨rfl, rfl, fun k v hg => by simp [JsObject.getOwn?] at hg⟩
  | rollback =>
    rw [Op.run, rollback_initialEvents t he]
    exact ⟨rfl, rfl, fun k v hg => by simp [JsObject.getOwn?] at hg⟩

/-- A sequence of calls on a single-record transaction without listeners
completes normally and keeps the delta minimal. -/
theorem runOps_deltaMinimal (ops : List Op) (t : Transaction)
    (he : t.events = Transaction.initialEvents) (hm : DeltaMinimal t) :
    (runOps t ops).2 = none ∧ (runOps t ops).1.events = Transaction.initialEvents ∧
      DeltaMinimal (runOps t ops).1 := by
  induction ops generalizing t with
  | nil => exact ⟨rfl, he, hm⟩
  | cons op rest ih =>
    obtain ⟨h1, h2, h3⟩ := Op.run_deltaMinimal t he hm op
    have hrun : runOps t (op :: rest) = runOps (op.run t).1 rest := by
      rcases hr : op.run t with ⟨t1, e⟩
      rw [hr] at h1
      simp only at h1
      subst h1
      simp [runOps, andThen, hr]
    rw [hrun]
    exact ih (op.run t).1 h2 h3

/-- C8, as the claim states it, fails: on the record `x: NaN`, the write of
`NaN` to `x` through the view stores an entry (`NaN === NaN` is false), so the
delta holds at `x` the very value that the record holds at `x`. -/
theorem delta_entry_equals_record_at_nan :
    JsObject.getOwn? ((Transaction.start [("x", Val.nan)]).set "x" Val.nan).delta "x" =
      some Val.nan ∧
    JsObject.getOwn? ((Transaction.start [("x", Val.nan)]).set "x" Val.nan).data "x" =
      some Val.nan := by
  decide

/-- C8, amended. Delta-minimality of the single-record transaction of
`8-dataset.js`: after `Transaction.start(data)` and any sequence of writes
through the view, `commit()` and `rollback()`, every call has completed
normally and every field present in the delta holds a value that is not
`===` to what the record gives at that field (so, unless the value is `NaN`,
the record does not give that value); and the delta is empty right after a
further `commit()` and right after a further `rollback()`. -/
theorem delta_minimal_in_every_reachable_state (data : Obj) (dataProto : Proto)
    (ops : List Op) :
    (runOps (Transaction.startOn data dataProto) ops).2 = none ∧
    (∀ k v, JsObject.getOwn? (runOps (Transaction.startOn data dataProto) ops).1.delta k =
        some v →
      (Obj.read (runOps (Transaction.startOn data dataProto) ops).1.data
        (runOps (Transaction.startOn data dataProto) ops).1.dataProto k).identical v =
        false) ∧
    (∀ k v, JsObject.getOwn? (runOps (Transaction.startOn data dataProto) ops).1.delta k =
        some v →
      v ≠ Val.nan →
      Obj.read (runOps (Transaction.startOn data dataProto) ops).1.data
        (runOps (Transaction.startOn data dataProto) ops).1.dataProto k ≠ Read.value v) ∧
    ((runOps (Transaction.startOn data dataProto) ops).1.commit).1.delta = [] ∧
    ((runOps (Transaction.startOn data dataProto) ops).1.rollback).1.delta = [] := by
  have hstart : DeltaMinimal (Transaction.startOn data dataProto) := by
    intro k v hg
    simp [Transaction.startOn, JsObject.getOwn?] at hg
  obtain ⟨h1, h2, h3⟩ := runOps_deltaMinimal ops (Transaction.startOn data dataProto) rfl hstart
  refine ⟨h1, h3, ?_, ?_, ?_⟩
  · intro k v hg hv hr
    have := h3 k v hg
    rw [hr] at this
    simp only [Read.identical] at this
    exact ne_of_strictEq_false _ _ this hv rfl
  · rw [commit_initialEvents _ h2]
  · rw [rollback_initialEvents _ h2]

end Dataset

/-! ## `8-dataset.js`: the dataset transaction -/

namespace Dataset

/-- The loop over the members stops at the first call that throws: the members
before it have been processed, the members after it are untouched. -/
theorem forEach_of_throw (f : Transaction → Transaction × Option Thrown)
    (pre post : List Transaction) (t : Transaction) (e : Thrown) (idx : Nat)
    (hpre : ∀ m ∈ pre, (f m).2 = none) (ht : (f t).2 = some e) :
    forEach (fun t _ => f t) (pre ++ t :: post) idx =
      ((pre.map fun m => (f m).1) ++ (f t).1 :: post, some e) := by
  induction pre generalizing idx with
  | nil =>
    rcases hf : f t with ⟨t1, e1⟩
    rw [hf] at ht
    simp only at ht
    subst ht
    simp [forEach, hf]
  | cons m rest ih =>
    have hm : (f m).2 = none := hpre m (List.mem_cons_self _ _)
    have hrest := ih (idx + 1) fun x hmem => hpre x (List.mem_cons_of_mem _ hmem)
    rcases hf : f m with ⟨m1, e1⟩
    rw [hf] at hm
    simp only at hm
    subst hm
    simp [forEach, hf, hrest]

/-- A read through the view returns when the lookup of `hasOwnProperty` on
the delta finds the function. -/
theorem get_ok_of_inherits (t : Transaction) (key : String)
    (h : Obj.inheritsHasOwnProperty t.delta t.deltaProto = true) :
    ∃ got, t.get key = Except.ok got := by
  unfold Transaction.get
  rw [Obj.callHasOwnProperty_of_inherits _ _ _ h]
  split
  · exact ⟨_, rfl⟩
  · split
    · exact ⟨_, rfl⟩
    · cases JsObject.hasOwnProperty t.delta key <;> exact ⟨_, rfl⟩

/-- The descriptor query when the lookup of `hasOwnProperty` on the delta
finds the function. -/
theorem getOwnPropertyDescriptor_of_inherits (t : Transaction) (key : String)
    (h : Obj.inheritsHasOwnProperty t.delta t.deltaProto = true) :
    t.getOwnPropertyDescriptor key =
      Except.ok (Obj.getOwnPropertyDescriptor
        (if JsObject.hasOwnProperty t.delta key then t.delta else t.data) key) := by
  unfold Transaction.getOwnPropertyDescriptor
  rw [Obj.callHasOwnProperty_of_inherits _ _ _ h]

/-- The descriptor query when the lookup of `hasOwnProperty` on the delta does
not find the function. -/
theorem getOwnPropertyDescriptor_of_not_inherits (t : Transaction) (key : String)
    (h : Obj.inheritsHasOwnProperty t.delta t.deltaProto = false) :
    t.getOwnPropertyDescriptor key =
      Except.error (Thrown.typeError "hasOwnProperty is not a function") := by
  unfold Transaction.getOwnPropertyDescriptor
  rw [Obj.callHasOwnProperty_of_not_inherits _ _ _ h]

theorem enumerable_ok_of_inherits (t : Transaction)
    (h : Obj.inheritsHasOwnProperty t.delta t.deltaProto = true) (ks : List String) :
    ∃ r, Transaction.enumerable t ks = Except.ok r := by
  induction ks with
  | nil => exact ⟨_, rfl⟩
  | cons k rest ih =>
    obtain ⟨r, hr⟩ := ih
    unfold Transaction.enumerable
    rw [getOwnPropertyDescriptor_of_inherits t k h, hr]
    exact ⟨_, rfl⟩

theorem members_ok_of_inherits (t : Transaction)
    (h : Obj.inheritsHasOwnProperty t.delta t.deltaProto = true) (ks : List String) :
    ∃ r, Transaction.members t ks = Except.ok r := by
  induction ks with
  | nil => exact ⟨_, rfl⟩
  | cons k rest ih =>
    obtain ⟨r, hr⟩ := ih
    obtain ⟨got, hg⟩ := get_ok_of_inherits t k h
    unfold Transaction.members
    rw [hg, hr]
    exact ⟨_, rfl⟩

/-- `JSON.stringify` of a proxy returns when the lookup of `hasOwnProperty` on
its delta finds the function. -/
theorem toJson_ok_of_inherits (t : Transaction)
    (h : Obj.inheritsHasOwnProperty t.delta t.deltaProto = true) :
    ∃ props, t.toJson = Except.ok props := by
  obtain ⟨got, hg⟩ := get_ok_of_inherits t "toJSON" h
  obtain ⟨ks, hk⟩ := enumerable_ok_of_inherits t h t.ownKeys
  obtain ⟨r, hr⟩ := members_ok_of_inherits t h ks
  unfold Transaction.toJson Transaction.keys
  rw [hg, hk]
  exact ⟨r, hr⟩

/-- `JSON.stringify` of a proxy throws when the lookup of `hasOwnProperty` on
its delta does not find the function: the read of `toJSON` throws. -/
theorem toJson_error_of_not_inherits (t : Transaction)
    (h : Obj.inheritsHasOwnProperty t.delta t.deltaProto = false) :
    t.toJson = Except.error (Thrown.typeError "hasOwnProperty is not a function") := by
  unfold Transaction.toJson
  rw [get_of_field t "toJSON" (by decide) (by decide),
    Obj.callHasOwnProperty_of_not_inherits _ _ _ h]

/-- The snapshot of the members can be taken when every delta has the method
`hasOwnProperty`. -/
theorem copyWithoutProxy_ok (entry : Nat) (ts : List Transaction) (idx : Nat)
    (h : ∀ t ∈ ts, Obj.inheritsHasOwnProperty t.delta t.deltaProto = true) :
    ∃ os, copyWithoutProxy entry ts idx = Except.ok os := by
  induction ts generalizing idx with
  | nil => exact ⟨_, rfl⟩
  | cons t rest ih =>
    obtain ⟨props, hp⟩ := toJson_ok_of_inherits t (h t (List.mem_cons_self _ _))
    obtain ⟨os, ho⟩ := ih (idx + 1) fun m hm => h m (List.mem_cons_of_mem _ hm)
    unfold copyWithoutProxy
    rw [hp, ho]
    exact ⟨_, rfl⟩

/-- The snapshot of the members throws a `TypeError` when a delta has lost
the method `hasOwnProperty`. -/
theorem copyWithoutProxy_error (entry : Nat) (ts : List Transaction) (idx : Nat)
    (h : ∃ t ∈ ts, Obj.inheritsHasOwnProperty t.delta t.deltaProto = false) :
    copyWithoutProxy entry ts idx =
      Except.error (Thrown.typeError "hasOwnProperty is not a function") := by
  induction ts generalizing idx with
  | nil =>
    obtain ⟨t, ht, _⟩ := h
    exact absurd ht (List.not_mem_nil _)
  | cons t rest ih =>
    unfold copyWithoutProxy
    cases hi : Obj.inheritsHasOwnProperty t.delta t.deltaProto with
    | false => rw [toJson_error_of_not_inherits t hi]
    | true =>
      obtain ⟨props, hp⟩ := toJson_ok_of_inherits t hi
      rw [hp]
      obtain ⟨m, hm, hmi⟩ := h
      rcases List.mem_cons.1 hm with rfl | hm
      · rw [hi] at hmi
        exact absurd hmi (by simp)
      · rw [ih (idx + 1) ⟨m, hm, hmi⟩]

/-- What `writeLog` does: it throws the error of `getDelta()` and pushes
nothing, or it pushes one record with the current `this.id`. -/
theorem writeLog_cases (d : DatasetTransaction) (operation : String) :
    (∃ e, DatasetTransaction.getDelta d = Except.error e ∧
      DatasetTransaction.writeLog d operation = (d, some e)) ∨
    (∃ delta, DatasetTransaction.getDelta d = Except.ok delta ∧
      DatasetTransaction.writeLog d operation =
        (⟨d.dataset, d.log ++ [⟨d.id, operation, delta⟩], d.id⟩, none)) := by
  unfold DatasetTransaction.writeLog
  cases h : DatasetTransaction.getDelta d with
  | error e => exact Or.inl ⟨e, rfl, rfl⟩
  | ok delta => exact Or.inr ⟨delta, rfl, rfl⟩

/-- The constructor returns normally on new proxies, with the `start` record
as the only record of the log. -/
theorem start_returns (dataset : List Obj) :
    ∃ delta, DatasetTransaction.new (dataset.map Transaction.start) =
      (⟨dataset.map Transaction.start, [⟨0, "start", delta⟩], 0⟩, none) := by
  obtain ⟨os, ho⟩ := copyWithoutProxy_ok 0 (dataset.map Transaction.start) 0 (by
    intro t ht
    obtain ⟨o, _, rfl⟩ := List.mem_map.1 ht
    rfl)
  refine ⟨os, ?_⟩
  unfold DatasetTransaction.new DatasetTransaction.writeLog DatasetTransaction.getDelta
  simp only [List.length_nil]
  rw [ho]
  rfl

/-- C3. Where `rollback(id)` departs from the claim: one record `name, born`,
`city` written through the member view and not committed, then `rollback(0)`.
The log record found for id `0` holds `name, born` for the member, the call
completes normally and empties the member delta, yet the base record ends with
the field `city`: the pending write is committed instead of being dropped.
(When `city` has been committed first, as in the usage section, `rollback(0)`
does remove it from the three records.) -/
theorem rollback_id_commits_pending_new_field :
    (setMember (DatasetTransaction.start [usagePerson]) 0 "city"
        (Val.str "Shaoshan")).log.map (fun r => (r.id, r.delta)) = [(0, [usagePerson])] ∧
    (DatasetTransaction.rollback
        (setMember (DatasetTransaction.start [usagePerson]) 0 "city" (Val.str "Shaoshan"))
        (Val.num 0)).2 = none ∧
    (DatasetTransaction.rollback
        (setMember (DatasetTransaction.start [usagePerson]) 0 "city" (Val.str "Shaoshan"))
        (Val.num 0)).1.dataset.map (fun t => (t.data, t.delta)) =
      [([("name", Val.str "Marcus Aurelius"), ("born", Val.num 121),
         ("city", Val.str "Shaoshan")], [])] ∧
    (DatasetTransaction.rollback (DatasetTransaction.commit usagePending).1
        (Val.num 0)).1.dataset.map (fun t => (t.data, t.delta)) =
      [(usagePerson, []), (usagePerson, []), (usagePerson, [])] := by
  decide

/-- C4. Where `rollback()` without argument departs from the claim: in the
usage scenario with `city` pending on the three members, the timer callback
with `commit = false` completes normally, appends a `rollback` log record and
leaves the three records as they were, but every member still holds its
pending delta `city`. -/
theorem rollback_without_id_keeps_pending_deltas :
    (DatasetTransaction.timeoutCallback usagePending false).2 = none ∧
    (DatasetTransaction.timeoutCallback usagePending false).1.log.map
        (fun r => r.operation) = ["start", "rollback"] ∧
    (DatasetTransaction.timeoutCallback usagePending false).1.dataset.map
        (fun t => (t.data, t.delta)) =
      [(usagePerson, [("city", Val.str "Shaoshan")]),
       (usagePerson, [("city", Val.str "Shaoshan")]),
       (usagePerson, [("city", Val.str "Shaoshan")])] := by
  decide

/-- C10. Where the log ids of `DatasetTransaction` depart from the claim: in
the usage scenario, after `commit()` and `rollback(0)` the log holds three
records, `start`, `commit` and `rollback`, and each of them has id `0`. -/
theorem dataset_log_ids_all_zero :
    (DatasetTransaction.rollback (DatasetTransaction.commit usagePending).1
        (Val.num 0)).1.log.map (fun r => (r.id, r.operation)) =
      [(0, "start"), (0, "commit"), (0, "rollback")] := by
  decide


end Dataset

/-! ## `8-dataset.js`: `rollback(id)` with an unknown id -/

namespace Dataset

/-- A step on a dataset transaction keeps `this.id` and every record the log
already holds. -/
theorem DatasetOp.run_keeps_log (d : DatasetTransaction) (op : DatasetOp) :
    (op.run d).1.id = d.id ∧ ∀ r ∈ d.log, r ∈ (op.run d).1.log := by
  cases op with
  | write idx key val =>
    simp only [DatasetOp.run]
    split <;> exact ⟨rfl, fun r hr => hr⟩
  | commit =>
    simp only [DatasetOp.run, DatasetTransaction.commit]
    rcases writeLog_cases d "commit" with ⟨e, _, hw⟩ | ⟨delta, _, hw⟩
    · rw [hw]
      exact ⟨rfl, fun r hr => hr⟩
    · rw [hw]
      exact ⟨rfl, fun r hr => List.mem_append_left _ hr⟩
  | rollback id =>
    simp only [DatasetOp.run, DatasetTransaction.rollback]
    rcases writeLog_cases d "rollback" with ⟨e, _, hw⟩ | ⟨delta, _, hw⟩
    · rw [hw]
      exact ⟨rfl, fun r hr => hr⟩
    · rw [hw]
      simp only [andThen]
      split
      · exact ⟨rfl, fun r hr => List.mem_append_left _ hr⟩
      · exact ⟨rfl, fun r hr => List.mem_append_left _ hr⟩

/-- In every state reached from `DatasetTransaction.start`, some record of the
log carries the current `this.id`. -/
theorem runDatasetOps_log_has_id (ops : List DatasetOp) (d : DatasetTransaction)
    (h : ∃ r ∈ d.log, r.id = d.id) :
    ∃ r ∈ (runDatasetOps d ops).1.log, r.id = (runDatasetOps d ops).1.id := by
  induction ops generalizing d with
  | nil => exact h
  | cons op rest ih =>
    obtain ⟨hid, hlog⟩ := DatasetOp.run_keeps_log d op
    obtain ⟨r, hr, hrid⟩ := h
    have h1 : ∃ r ∈ (op.run d).1.log, r.id = (op.run d).1.id :=
      ⟨r, hlog r hr, by rw [hid, hrid]⟩
    rcases hrun : op.run d with ⟨d1, e⟩
    rw [hrun] at h1
    cases e with
    | none =>
      simp only [runDatasetOps, andThen, hrun]
      exact ih d1 h1
    | some e =>
      simp only [runDatasetOps, andThen, hrun]
      exact h1

/-- `rollback(id)` with an id that no record of the log has, the current
`this.id` included. -/
theorem rollback_of_unknown_id (d : DatasetTransaction) (id : Val)
    (hid : ∀ r ∈ d.log, strictEq (Val.num r.id) id = false)
    (hcur : strictEq (Val.num d.id) id = false) :
    (∃ e, DatasetTransaction.getDelta d = Except.error e ∧
      DatasetTransaction.rollback d id = (d, some e)) ∨
    (∃ delta, DatasetTransaction.getDelta d = Except.ok delta ∧
      DatasetTransaction.rollback d id =
        (⟨d.dataset, d.log ++ [⟨d.id, "rollback", delta⟩], d.id⟩, none)) := by
  unfold DatasetTransaction.rollback
  rcases writeLog_cases d "rollback" with ⟨e, hg, hw⟩ | ⟨delta, hg, hw⟩
  · exact Or.inl ⟨e, hg, by rw [hw]; rfl⟩
  · refine Or.inr ⟨delta, hg, ?_⟩
    rw [hw]
    simp only [andThen]
    have hnone : (d.log ++ [(⟨d.id, "rollback", delta⟩ : LogRecord)]).find?
        (fun r => strictEq (Val.num r.id) id) = none := by
      rw [List.find?_eq_none]
      intro r hr
      rcases List.mem_append.1 hr with h | h
      · simp [hid r h]
      · rw [List.mem_singleton.1 h]
        simp [hcur]
    rw [hnone]

/-- C13, as the claim states it, fails: on one record, after the write
`hasOwnProperty = 1` through the member proxy, no log record has id `7`, and
`rollback(7)` throws a `TypeError` (from `JSON.stringify` in `writeLog`)
instead of returning; the dataset and the log are as before. -/
theorem rollback_unknown_id_throws :
    (setMember (DatasetTransaction.start [usagePerson]) 0 "hasOwnProperty"
        (Val.num 1)).log.map (fun r => r.id) = [0] ∧
    (DatasetTransaction.rollback
      (setMember (DatasetTransaction.start [usagePerson]) 0 "hasOwnProperty" (Val.num 1))
      (Val.num 7)).2 = some (Thrown.typeError "hasOwnProperty is not a function") ∧
    (DatasetTransaction.rollback
      (setMember (DatasetTransaction.start [usagePerson]) 0 "hasOwnProperty" (Val.num 1))
      (Val.num 7)).1.log.map (fun r => r.operation) = ["start"] ∧
    (DatasetTransaction.rollback
      (setMember (DatasetTransaction.start [usagePerson]) 0 "hasOwnProperty" (Val.num 1))
      (Val.num 7)).1.dataset.map (fun t => (t.data, t.delta)) =
      [(usagePerson, [("hasOwnProperty", Val.num 1)])] := by
  decide

/-- C13, amended. `rollback(id)` of `DatasetTransaction` with an id that no
log record has, in any state reached from `DatasetTransaction.start` by writes
through the member proxies, `commit()` and `rollback(id)` calls: the call
leaves the members, their records and their pending deltas, exactly as they
were.  It returns normally exactly when the delta of every member has the
method `hasOwnProperty`, and then it has appended its `rollback` record to the
log; otherwise it throws a `TypeError` and has changed nothing at all. -/
theorem rollback_unknown_id_changes_no_member (dataset : List Obj) (ops : List DatasetOp)
    (id : Val)
    (hid : ∀ r ∈ (runDatasetOps (DatasetTransaction.start dataset) ops).1.log,
      strictEq (Val.num r.id) id = false) :
    (DatasetTransaction.rollback
      (runDatasetOps (DatasetTransaction.start dataset) ops).1 id).1.dataset =
      (runDatasetOps (DatasetTransaction.start dataset) ops).1.dataset ∧
    ((DatasetTransaction.rollback
        (runDatasetOps (DatasetTransaction.start dataset) ops).1 id).2 = none ↔
      ∀ t ∈ (runDatasetOps (DatasetTransaction.start dataset) ops).1.dataset,
        Obj.inheritsHasOwnProperty t.delta t.deltaProto = true) ∧
    ((DatasetTransaction.rollback
        (runDatasetOps (DatasetTransaction.start dataset) ops).1 id).2 = none →
      (DatasetTransaction.rollback
        (runDatasetOps (DatasetTransaction.start dataset) ops).1 id).1.log.map
          (fun r => r.operation) =
        (runDatasetOps (DatasetTransaction.start dataset) ops).1.log.map
          (fun r => r.operation) ++ ["rollback"]) ∧
    ((DatasetTransaction.rollback
        (runDatasetOps (DatasetTransaction.start dataset) ops).1 id).2 ≠ none →
      DatasetTransaction.rollback
          (runDatasetOps (DatasetTransaction.start dataset) ops).1 id =
        ((runDatasetOps (DatasetTransaction.start dataset) ops).1,
          some (Thrown.typeError "hasOwnProperty is not a function"))) := by
  have hstart : ∃ r ∈ (DatasetTransaction.start dataset).log,
      r.id = (DatasetTransaction.start dataset).id := by
    obtain ⟨delta, hd⟩ := start_returns dataset
    unfold DatasetTransaction.start
    rw [hd]
    exact ⟨_, List.mem_singleton.2 rfl, rfl⟩
  obtain ⟨r0, hr0, hr0id⟩ := runDatasetOps_log_has_id ops _ hstart
  generalize (runDatasetOps (DatasetTransaction.start dataset) ops).1 = d at hid hr0 hr0id ⊢
  have hcur : strictEq (Val.num d.id) id = false := by
    rw [← hr0id]
    exact hid r0 hr0
  by_cases hall : ∀ t ∈ d.dataset, Obj.inheritsHasOwnProperty t.delta t.deltaProto = true
  · obtain ⟨os, ho⟩ := copyWithoutProxy_ok d.log.length d.dataset 0 hall
    rcases rollback_of_unknown_id d id hid hcur with ⟨e, hg, _⟩ | ⟨delta, _, hrb⟩
    · rw [DatasetTransaction.getDelta, ho] at hg
      exact absurd hg (by simp)
    · rw [hrb]
      exact ⟨rfl, ⟨fun _ => hall, fun _ => rfl⟩, fun _ => by simp, fun h => absurd rfl h⟩
  · have hex : ∃ t ∈ d.dataset, Obj.inheritsHasOwnProperty t.delta t.deltaProto = false := by
      by_contra hno
      apply hall
      intro t ht
      cases hi : Obj.inheritsHasOwnProperty t.delta t.deltaProto with
      | true => rfl
      | false => exact absurd ⟨t, ht, hi⟩ hno
    have herr := copyWithoutProxy_error d.log.length d.dataset 0 hex
    rcases rollback_of_unknown_id d id hid hcur with ⟨e, hg, hrb⟩ | ⟨delta, hg, _⟩
    · rw [DatasetTransaction.getDelta, herr] at hg
      cases hg
      rw [hrb]
      exact ⟨rfl, ⟨fun h => absurd h (by simp), fun h => absurd h hall⟩,
        fun h => absurd h (by simp), fun _ => rfl⟩
    · rw [DatasetTransaction.getDelta, herr] at hg
      exact absurd hg (by simp)

/-- C13, amended, in the usage scenario after `commit()`: no log record has id
`7`, and `rollback(7)` changes no member and returns normally. -/
theorem rollback_unknown_id_witness :
    (∀ r ∈ (runDatasetOps (DatasetTransaction.start usageData)
        [DatasetOp.write 0 "city" (Val.str "Shaoshan"), DatasetOp.commit]).1.log,
      strictEq (Val.num r.id) (Val.num 7) = false) ∧
    (DatasetTransaction.rollback
      (runDatasetOps (DatasetTransaction.start usageData)
        [DatasetOp.write 0 "city" (Val.str "Shaoshan"), DatasetOp.commit]).1
      (Val.num 7)).1.dataset =
      (runDatasetOps (DatasetTransaction.start usageData)
        [DatasetOp.write 0 "city" (Val.str "Shaoshan"), DatasetOp.commit]).1.dataset ∧
    (DatasetTransaction.rollback
      (runDatasetOps (DatasetTransaction.start usageData)
        [DatasetOp.write 0 "city" (Val.str "Shaoshan"), DatasetOp.commit]).1
      (Val.num 7)).2 = none :=
  ⟨by decide,
    (rollback_unknown_id_changes_no_member usageData
      [DatasetOp.write 0 "city" (Val.str "Shaoshan"), DatasetOp.commit] (Val.num 7)
      (by decide)).1,
    (rollback_unknown_id_changes_no_member usageData
      [DatasetOp.write 0 "city" (Val.str "Shaoshan"), DatasetOp.commit] (Val.num 7)
      (by decide)).2.1.2 (by decide)⟩

end Dataset

/-! ## `8-dataset.js`: enumeration and the other queries -/

/-- Keeping the entries of a numbered list whose number is the one `g` gives
to their element. -/
theorem filter_enumFrom_eq (l : List String) (n : Nat) (g : String → Nat)
    (keep : String → Bool)
    (h : ∀ (j : Nat) (x : String), l[j]? = some x → (g x == n + j) = keep x) :
    ((l.enumFrom n).filter fun p => g p.2 == p.1).map Prod.snd = l.filter keep := by
  induction l generalizing n with
  | nil => rfl
  | cons x rest ih =>
    have h0 : (g x == n) = keep x := by simpa using h 0 x (by simp)
    have hrest : ∀ (j : Nat) (y : String), rest[j]? = some y →
        (g y == n + 1 + j) = keep y := by
      intro j y hy
      have := h (j + 1) y (by simpa using hy)
      rwa [show n + (j + 1) = n + 1 + j by omega] at this
    simp only [List.enumFrom_cons, List.filter_cons, h0]
    cases keep x <;> simp [ih (n + 1) hrest]

namespace JsObject

variable {α : Type}

/-- Overwriting an existing property keeps the order of the keys. -/
theorem keys_replace (o : JsObject α) (k : String) (v : α) :
    keys (replace o k v) = keys o := by
  induction o with
  | nil => rfl
  | cons p rest ih =>
    obtain ⟨a, b⟩ := p
    unfold keys at ih ⊢
    by_cases hak : a = k
    · simp [replace, hak]
    · simp [replace, hak, ih]

/-- A new array-index key goes after the array-index keys below it and before
every other key. -/
theorem keys_insertIndex (n : Nat) (o : JsObject α) (k : String) (v : α) :
    keys (insertIndex n k v o) =
      (keys o).takeWhile (fun k' => match arrayIndex? k' with
        | some m => decide (m < n)
        | none => false) ++
      k :: (keys o).dropWhile (fun k' => match arrayIndex? k' with
        | some m => decide (m < n)
        | none => false) := by
  induction o with
  | nil => rfl
  | cons p rest ih =>
    obtain ⟨a, b⟩ := p
    unfold keys at ih ⊢
    unfold insertIndex
    cases ha : arrayIndex? a with
    | none => simp [List.takeWhile, List.dropWhile, ha]
    | some m =>
      by_cases hm : m < n
      · simp [List.takeWhile, List.dropWhile, ha, hm, ih]
      · simp [List.takeWhile, List.dropWhile, ha, hm]

end JsObject

namespace Dataset

/-- The `ownKeys` trap on objects that have each key once: the keys of the
record, then the keys of the delta that the record does not have. -/
theorem ownKeys_eq (t : Transaction) (hdata : (JsObject.keys t.data).Nodup)
    (hdelta : (JsObject.keys t.delta).Nodup) :
    t.ownKeys = JsObject.keys t.data ++
      (JsObject.keys t.delta).filter fun k => !JsObject.hasOwnProperty t.data k := by
  have hA : ∀ (j : Nat) (x : String), (JsObject.keys t.data)[j]? = some x →
      ((JsObject.keys t.data ++ JsObject.keys t.delta).indexOf x == 0 + j) = true := by
    intro j x hx
    obtain ⟨hj, hjx⟩ := List.getElem?_eq_some.1 hx
    have hmem : x ∈ JsObject.keys t.data := hjx ▸ List.getElem_mem hj
    rw [List.indexOf_append_of_mem hmem, ← hjx, List.indexOf_getElem hdata j hj]
    simp
  have hB : ∀ (j : Nat) (x : String), (JsObject.keys t.delta)[j]? = some x →
      ((JsObject.keys t.data ++ JsObject.keys t.delta).indexOf x ==
          (JsObject.keys t.data).length + j) =
        !JsObject.hasOwnProperty t.data x := by
    intro j x hx
    obtain ⟨hj, hjx⟩ := List.getElem?_eq_some.1 hx
    by_cases hmem : x ∈ JsObject.keys t.data
    · have hlt := List.indexOf_lt_length.2 hmem
      rw [List.indexOf_append_of_mem hmem,
        (JsObject.hasOwnProperty_iff_mem_keys t.data x).2 hmem]
      simp only [Bool.not_true, beq_eq_false_iff_ne, ne_eq]
      omega
    · have hno : JsObject.hasOwnProperty t.data x = false := by
        cases hh : JsObject.hasOwnProperty t.data x with
        | false => rfl
        | true => exact absurd ((JsObject.hasOwnProperty_iff_mem_keys t.data x).1 hh) hmem
      rw [List.indexOf_append_of_not_mem hmem, hno, ← hjx,
        List.indexOf_getElem hdelta j hj]
      simp
  unfold Transaction.ownKeys
  simp only [List.enum, List.enumFrom_append, List.filter_append, List.map_append]
  rw [filter_enumFrom_eq _ 0 _ (fun _ => true) hA]
  have hB' := filter_enumFrom_eq (JsObject.keys t.delta) (JsObject.keys t.data).length
    (fun x => (JsObject.keys t.data ++ JsObject.keys t.delta).indexOf x) _ hB
  simp only [Nat.zero_add] at hB' ⊢
  rw [hB']
  simp

/-- C17, as the claim states it, fails: on an empty record, after the writes
`b = 1` and then `1 = 2` through the view, the enumerated keys are `1, b`,
although `b` entered the delta first. -/
theorem ownKeys_not_in_insertion_order :
    ((Transaction.start []).set "b" (Val.num 1)).ownKeys = ["b"] ∧
    (((Transaction.start []).set "b" (Val.num 1)).set "1" (Val.num 2)).ownKeys =
      ["1", "b"] := by
  decide

/-- C17, amended. For a record and a delta that have each key once, the list
of `ownKeys` is the keys of the record in the order of `Object.keys`, followed
by the keys of the delta that the record does not have, in the order of
`Object.keys` on the delta; it has no key twice, and it holds exactly the keys
of the record and of the delta.  The order of `Object.keys` on the delta is
that of the writes: a new key that is not an array index goes last, a new
array-index key goes after the smaller array-index keys and before all other
keys, and a key that is overwritten keeps its place. -/
theorem ownKeys_record_then_delta (t : Transaction)
    (hdata : (JsObject.keys t.data).Nodup) (hdelta : (JsObject.keys t.delta).Nodup) :
    t.ownKeys = JsObject.keys t.data ++
      ((JsObject.keys t.delta).filter fun k => !JsObject.hasOwnProperty t.data k) ∧
    t.ownKeys.Nodup ∧
    (∀ k, k ∈ t.ownKeys ↔
      (JsObject.hasOwnProperty t.data k = true ∨ JsObject.hasOwnProperty t.delta k = true)) ∧
    (∀ k v, JsObject.hasOwnProperty t.delta k = false → arrayIndex? k = none →
      JsObject.keys (JsObject.set t.delta k v) = JsObject.keys t.delta ++ [k]) ∧
    (∀ k v n, JsObject.hasOwnProperty t.delta k = false → arrayIndex? k = some n →
      JsObject.keys (JsObject.set t.delta k v) =
        (JsObject.keys t.delta).takeWhile (fun k' => match arrayIndex? k' with
          | some m => decide (m < n)
          | none => false) ++
        k :: (JsObject.keys t.delta).dropWhile (fun k' => match arrayIndex? k' with
          | some m => decide (m < n)
          | none => false)) ∧
    (∀ k v, JsObject.hasOwnProperty t.delta k = true →
      JsObject.keys (JsObject.set t.delta k v) = JsObject.keys t.delta) := by
  have heq := ownKeys_eq t hdata hdelta
  refine ⟨heq, ?_, ?_, ?_, ?_, ?_⟩
  · rw [heq]
    refine List.Nodup.append hdata (hdelta.filter _) ?_
    intro k hk1 hk2
    have h1 := (JsObject.hasOwnProperty_iff_mem_keys t.data k).2 hk1
    have h2 := (List.mem_filter.1 hk2).2
    simp [h1] at h2
  · intro k
    rw [heq, List.mem_append, List.mem_filter, JsObject.hasOwnProperty_iff_mem_keys,
      JsObject.hasOwnProperty_iff_mem_keys]
    constructor
    · rintro (h | ⟨h, _⟩)
      · exact Or.inl h
      · exact Or.inr h
    · rintro (h | h)
      · exact Or.inl h
      · by_cases hm : k ∈ JsObject.keys t.data
        · exact Or.inl hm
        · refine Or.inr ⟨h, ?_⟩
          cases hh : JsObject.hasOwnProperty t.data k with
          | false => rfl
          | true => exact absurd ((JsObject.hasOwnProperty_iff_mem_keys t.data k).1 hh) hm
  · intro k v hk hidx
    simp [JsObject.set, hk, hidx, JsObject.keys]
  · intro k v n hk hidx
    simp only [JsObject.set, hk, hidx, Bool.false_eq_true, if_false]
    exact JsObject.keys_insertIndex n t.delta k v
  · intro k v hk
    simp only [JsObject.set, hk, if_true]
    exact JsObject.keys_replace t.delta k v

/-- C17, amended, in the usage scenario: the record `name, born` with `city`
pending enumerates `name, born, city`. -/
theorem ownKeys_record_then_delta_witness :
    (JsObject.keys ((Transaction.start usagePerson).set "city"
      (Val.str "Shaoshan")).data).Nodup ∧
    (JsObject.keys ((Transaction.start usagePerson).set "city"
      (Val.str "Shaoshan")).delta).Nodup ∧
    ((Transaction.start usagePerson).set "city" (Val.str "Shaoshan")).ownKeys =
      JsObject.keys ((Transaction.start usagePerson).set "city" (Val.str "Shaoshan")).data ++
      ((JsObject.keys ((Transaction.start usagePerson).set "city"
          (Val.str "Shaoshan")).delta).filter fun k =>
        !JsObject.hasOwnProperty
          ((Transaction.start usagePerson).set "city" (Val.str "Shaoshan")).data k) :=
  ⟨by decide, by decide,
    (ownKeys_record_then_delta
      ((Transaction.start usagePerson).set "city" (Val.str "Shaoshan"))
      (by decide) (by decide)).1⟩

/-- The `ownKeys` trap lists exactly the keys of the record and of the delta. -/
theorem mem_ownKeys (t : Transaction) (k : String) :
    k ∈ t.ownKeys ↔
      (JsObject.hasOwnProperty t.data k = true ∨ JsObject.hasOwnProperty t.delta k = true) := by
  rw [JsObject.hasOwnProperty_iff_mem_keys, JsObject.hasOwnProperty_iff_mem_keys,
    ← List.mem_append]
  unfold Transaction.ownKeys
  simp only [List.mem_map, List.mem_filter]
  constructor
  · rintro ⟨⟨i, x⟩, ⟨hmem, _⟩, rfl⟩
    have hx := (List.mem_enum hmem).2
    simp only at hx ⊢
    rw [hx]
    exact List.getElem_mem _
  · intro hk
    refine ⟨(List.indexOf k (JsObject.keys t.data ++ JsObject.keys t.delta), k), ⟨?_, ?_⟩, rfl⟩
    · rw [List.mk_mem_enum_iff_getElem?]
      exact List.getElem?_indexOf hk
    · simp

/-- C18, as the claim states it, fails: for the record `commit: 1` with `city`
written through the view, `city` is in the enumerated keys and has a
descriptor but `"city" in view` is false; the descriptor of `commit` has the
value `1` while reading `commit` through the view gives the method; and once
`hasOwnProperty = 1` has been written through the view, the descriptor query
for `commit`, a key of the record, throws a `TypeError`, as does reading
`city`. -/
theorem queries_disagree :
    "city" ∈ ((Transaction.start [("commit", Val.num 1)]).set "city"
      (Val.str "Shaoshan")).ownKeys ∧
    ((Transaction.start [("commit", Val.num 1)]).set "city"
      (Val.str "Shaoshan")).getOwnPropertyDescriptor "city" =
      Except.ok (some ⟨Val.str "Shaoshan", true, true, true⟩) ∧
    ((Transaction.start [("commit", Val.num 1)]).set "city"
      (Val.str "Shaoshan")).has "city" = false ∧
    ((Transaction.start [("commit", Val.num 1)]).set "city"
      (Val.str "Shaoshan")).getOwnPropertyDescriptor "commit" =
      Except.ok (some ⟨Val.num 1, true, true, true⟩) ∧
    ((Transaction.start [("commit", Val.num 1)]).set "city"
      (Val.str "Shaoshan")).get "commit" = Except.ok (Got.method "commit") ∧
    "commit" ∈ ((Transaction.start [("commit", Val.num 1)]).set "hasOwnProperty"
      (Val.num 1)).ownKeys ∧
    ((Transaction.start [("commit", Val.num 1)]).set "hasOwnProperty"
      (Val.num 1)).getOwnPropertyDescriptor "commit" =
      Except.error (Thrown.typeError "hasOwnProperty is not a function") ∧
    (((Transaction.start [("commit", Val.num 1)]).set "city"
      (Val.str "Shaoshan")).set "hasOwnProperty" (Val.num 1)).get "city" =
      Except.error (Thrown.typeError "hasOwnProperty is not a function") := by
  decide

/-- C18, amended. For every record, every pending delta and every field name
`k`: `k` is in the enumerated keys exactly when `k` is a key of the record or
of the delta.  When the delta has the method `hasOwnProperty` (no own
property of that name, and a prototype chain that gives the function), the
descriptor query for `k` returns, it is defined exactly when `k` is a key of
the record or of the delta, and when it is defined and `k` is neither `delta`
nor a name of `methods`, its value is what reading `k` through the view
returns.  When the delta has lost the method, the descriptor query throws a
`TypeError` for every `k`, and so does reading `k` unless `k` is `delta` or a
name of `methods`. -/
theorem enumeration_and_descriptor_agree (t : Transaction) (k : String) :
    (k ∈ t.ownKeys ↔
      (JsObject.hasOwnProperty t.data k = true ∨ JsObject.hasOwnProperty t.delta k = true)) ∧
    (Obj.inheritsHasOwnProperty t.delta t.deltaProto = true →
      ∃ d, t.getOwnPropertyDescriptor k = Except.ok d ∧
        (d.isSome = true ↔
          (JsObject.hasOwnProperty t.data k = true ∨
            JsObject.hasOwnProperty t.delta k = true)) ∧
        (k ≠ "delta" → k ∉ methodNames →
          ∀ desc, d = some desc → t.get k = Except.ok (Got.value desc.value))) ∧
    (Obj.inheritsHasOwnProperty t.delta t.deltaProto = false →
      t.getOwnPropertyDescriptor k =
        Except.error (Thrown.typeError "hasOwnProperty is not a function") ∧
      (k ≠ "delta" → k ∉ methodNames →
        t.get k = Except.error (Thrown.typeError "hasOwnProperty is not a function"))) := by
  refine ⟨mem_ownKeys t k, ?_, ?_⟩
  · intro hinh
    refine ⟨_, getOwnPropertyDescriptor_of_inherits t k hinh, ?_, ?_⟩
    · unfold Obj.getOwnPropertyDescriptor
      by_cases hd : JsObject.hasOwnProperty t.delta k = true
      · simp only [hd, if_true, Option.isSome_map', or_true, iff_true]
        exact hd
      · simp only [hd, Bool.false_eq_true, if_false, Option.isSome_map', or_false]
        rfl
    · intro hdelta hmethod desc hdesc
      rw [get_of_field t k hdelta hmethod, Obj.callHasOwnProperty_of_inherits _ _ _ hinh]
      unfold Obj.getOwnPropertyDescriptor at hdesc
      by_cases hd : JsObject.hasOwnProperty t.delta k = true
      · simp only [hd, if_true] at hdesc ⊢
        cases hg : JsObject.getOwn? t.delta k with
        | none => simp [hg] at hdesc
        | some v =>
          simp only [hg, Option.map_some', Option.some.injEq] at hdesc
          subst hdesc
          simp [Obj.get, hg]
      · have hd' : JsObject.hasOwnProperty t.delta k = false := by
          simpa using hd
        simp only [hd', Bool.false_eq_true, if_false] at hdesc ⊢
        cases hg : JsObject.getOwn? t.data k with
        | none => simp [hg] at hdesc
        | some v =>
          simp only [hg, Option.map_some', Option.some.injEq] at hdesc
          subst hdesc
          simp [Obj.read, hg, Got.ofRead]
  · intro hinh
    refine ⟨getOwnPropertyDescriptor_of_not_inherits t k hinh, ?_⟩
    intro hdelta hmethod
    rw [get_of_field t k hdelta hmethod, Obj.callHasOwnProperty_of_not_inherits _ _ _ hinh]

end Dataset

/-! ## `8-dataset.js`: `clone` -/

/-- What an assignment leaves as own properties: the value stored at the key,
or, when the key is `__proto__` and the setter took it, the properties as they
were. -/
theorem Obj.put_cases (o : Obj) (p : Proto) (key : String) (v : Val) :
    (Obj.put o p key v).1 = JsObject.set o key v ∨
      ((Obj.put o p key v).1 = o ∧ key = "__proto__") := by
  unfold Obj.put
  split
  · exact Or.inl rfl
  · cases p with
    | null => exact Or.inl rfl
    | objectPrototype =>
      simp only
      split
      · exact Or.inr ⟨rfl, by assumption⟩
      · exact Or.inl rfl
    | object id content =>
      simp only
      split
      · exact Or.inl rfl
      · split
        · exact Or.inr ⟨rfl, by assumption⟩
        · exact Or.inl rfl

/-- Reading, at another key than `__proto__`, after an assignment. -/
theorem Obj.getOwn?_put (o : Obj) (p : Proto) (key : String) (v : Val) (k : String)
    (hk : k ≠ "__proto__") :
    JsObject.getOwn? (Obj.put o p key v).1 k =
      if k = key then some v else JsObject.getOwn? o k := by
  rcases Obj.put_cases o p key v with h | ⟨h, hkey⟩
  · rw [h, JsObject.getOwn?_set]
  · rw [h, if_neg (by rw [hkey]; exact hk)]

/-- Reading, at another key than `__proto__`, after the assignments of
`Object.assign`. -/
theorem Obj.getOwn?_foldl_put (source : Obj) (ks : List String) (t : Obj) (p : Proto)
    (k : String) (hk : k ≠ "__proto__") :
    JsObject.getOwn?
        (ks.foldl (fun t key => Obj.put t.1 t.2 key (Obj.get source key)) (t, p)).1 k =
      if k ∈ ks then some (Obj.get source k) else JsObject.getOwn? t k := by
  induction ks generalizing t p with
  | nil => simp
  | cons a rest ih =>
    rw [List.foldl_cons, ih, Obj.getOwn?_put _ _ _ _ _ hk]
    by_cases hm : k ∈ rest
    · simp [hm]
    · by_cases ha : k = a
      · subst ha; simp
      · simp [hm, ha]

/-- Reading, at another key than `__proto__`, after `Object.assign(target,
source)`: the source's value where the source has the key, the target's own
property otherwise. -/
theorem Obj.getOwn?_assignInto (target : Obj) (p : Proto) (source : Obj) (k : String)
    (hk : k ≠ "__proto__") :
    JsObject.getOwn? (Obj.assignInto target p source).1 k =
      if JsObject.hasOwnProperty source k then JsObject.getOwn? source k
      else JsObject.getOwn? target k := by
  unfold Obj.assignInto
  rw [Obj.getOwn?_foldl_put _ _ _ _ _ hk]
  by_cases h : JsObject.hasOwnProperty source k = true
  · have hm := (JsObject.hasOwnProperty_iff_mem_keys source k).1 h
    simp only [hm, h, if_true]
    unfold JsObject.hasOwnProperty at h
    unfold Obj.get
    cases hg : JsObject.getOwn? source k with
    | none => simp [hg] at h
    | some v => simp
  · have hm : k ∉ JsObject.keys source := fun hm =>
      h ((JsObject.hasOwnProperty_iff_mem_keys source k).2 hm)
    simp [hm, h]

namespace Dataset

/-- The `get` trap at a key that is neither `delta` nor a name of `methods`
throws, or gives a field value or a member of `Object.prototype`. -/
theorem get_of_field_cases (t : Transaction) (key : String) (hdelta : key ≠ "delta")
    (hmethod : key ∉ methodNames) :
    (∃ e, t.get key = Except.error e) ∨ (∃ x, t.get key = Except.ok (Got.value x)) ∨
      (∃ name, t.get key = Except.ok (Got.builtin name)) := by
  rw [get_of_field t key hdelta hmethod]
  cases Obj.callHasOwnProperty t.delta t.deltaProto key with
  | error e => exact Or.inl ⟨e, rfl⟩
  | ok b =>
    cases b with
    | true => exact Or.inr (Or.inl ⟨_, rfl⟩)
    | false =>
      cases Obj.read t.data t.dataProto key with
      | value x => exact Or.inr (Or.inl ⟨x, rfl⟩)
      | builtin name => exact Or.inr (Or.inr ⟨name, rfl⟩)

/-- What `clone` builds: a proxy on the same record with a new `methods`
object, whose `delta` is a new object that `Object.assign` has filled from the
original's delta. -/
theorem View.clone_eq (h : Heap) (v : View) (hdelta : v.delta < h.length) :
    View.clone h v =
      (⟨v.target, h.length, h.length + 1, Transaction.initialEvents⟩,
        List.set (h ++ [⟨[], Proto.objectPrototype⟩, ⟨[], Proto.objectPrototype⟩]) h.length
          ⟨(Obj.assignInto [] Proto.objectPrototype (h.read v.delta).props).1,
            (Obj.assignInto [] Proto.objectPrototype (h.read v.delta).props).2⟩) := by
  simp only [View.clone, View.start, Heap.read_append_length,
    Heap.read_append_of_lt _ _ _ hdelta]

/-- C19, as the claim states it, fails.  The usage record with `city` written
through its proxy, then `clone()`: reading `delta` gives, through the clone,
the clone's delta object and, through the original, the original's; reading
`commit` gives each proxy its own function.  And when `__proto__ = null` has
been written through the proxy before `clone()`, reading `name` through the
original throws a `TypeError`, while through the clone it gives the name. -/
theorem clone_reads_differ :
    (View.clone usageCity usageView).1.get (View.clone usageCity usageView).2 "delta" =
      Except.ok (Ref.deltaObject 3) ∧
    usageView.get (View.clone usageCity usageView).2 "delta" =
      Except.ok (Ref.deltaObject 1) ∧
    (View.clone usageCity usageView).1.get (View.clone usageCity usageView).2 "commit" =
      Except.ok (Ref.method 4 "commit") ∧
    usageView.get (View.clone usageCity usageView).2 "commit" =
      Except.ok (Ref.method 2 "commit") ∧
    usageView.get (View.clone usageNoProto usageView).2 "name" =
      Except.error (Thrown.typeError "hasOwnProperty is not a function") ∧
    (View.clone usageNoProto usageView).1.get (View.clone usageNoProto usageView).2 "name" =
      Except.ok (Ref.value (Val.str "Marcus Aurelius")) := by
  decide

/-- C19, amended. `clone` of `8-dataset.js`, for a proxy whose record, delta
and `methods` are objects of the run, the record being another object than the
delta, and whose delta object has the prototype `Object.prototype` and no own
property `__proto__`.  The clone wraps the same record; its delta and its
`methods` are new objects, and the original is undisturbed.  The clone's delta
has the prototype `Object.prototype` and, field by field, the own properties of
the original's delta; the clone stands for the transaction that
`Transaction.clone` describes.  Every field other than `delta` and the names
of `methods` reads the same through both proxies (also in throwing); `delta`
and the names of `methods` give each proxy its own object.  Afterwards a write
or a `rollback()` through the clone leaves the original's delta object as it
was, and a write or a `rollback()` through the original leaves the clone's
delta object as it was. -/
theorem clone_copies_delta_and_shares_none (h : Heap) (v : View)
    (htarget : v.target < h.length) (hdelta : v.delta < h.length)
    (hmethods : v.methods < h.length) (hne : v.target ≠ v.delta)
    (hproto : (h.read v.delta).proto = Proto.objectPrototype)
    (hown : JsObject.hasOwnProperty (h.read v.delta).props "__proto__" = false) :
    (View.clone h v).1.target = v.target ∧
    (View.clone h v).1.delta ≠ v.delta ∧
    (View.clone h v).1.methods ≠ v.methods ∧
    v.state (View.clone h v).2 = v.state h ∧
    (View.clone h v).1.state (View.clone h v).2 = (v.state h).clone ∧
    ((View.clone h v).2.read (View.clone h v).1.delta).proto = Proto.objectPrototype ∧
    (∀ k, JsObject.getOwn? ((View.clone h v).2.read (View.clone h v).1.delta).props k =
      JsObject.getOwn? (h.read v.delta).props k) ∧
    (∀ k, k ≠ "delta" → k ∉ methodNames →
      (View.clone h v).1.get (View.clone h v).2 k = v.get (View.clone h v).2 k) ∧
    ((View.clone h v).1.get (View.clone h v).2 "delta" =
        Except.ok (Ref.deltaObject (View.clone h v).1.delta) ∧
      v.get (View.clone h v).2 "delta" = Except.ok (Ref.deltaObject v.delta)) ∧
    (∀ m, m ∈ methodNames →
      (View.clone h v).1.get (View.clone h v).2 m =
          Except.ok (Ref.method (View.clone h v).1.methods m) ∧
        v.get (View.clone h v).2 m = Except.ok (Ref.method v.methods m)) ∧
    (∀ key val,
      Heap.read ((View.clone h v).1.set (View.clone h v).2 key val) v.delta =
        (View.clone h v).2.read v.delta) ∧
    Heap.read ((View.clone h v).1.rollback (View.clone h v).2).1.2 v.delta =
      (View.clone h v).2.read v.delta ∧
    (∀ key val,
      Heap.read (v.set (View.clone h v).2 key val) (View.clone h v).1.delta =
        (View.clone h v).2.read (View.clone h v).1.delta) ∧
    Heap.read (v.rollback (View.clone h v).2).1.2 (View.clone h v).1.delta =
      (View.clone h v).2.read (View.clone h v).1.delta := by
  have hd1 : v.delta ≠ h.length := Nat.ne_of_lt hdelta
  have ht1 : v.target ≠ h.length := Nat.ne_of_lt htarget
  have hm1 : v.methods ≠ h.length + 1 := by omega
  have hlen2 : (h ++ [(⟨[], Proto.objectPrototype⟩ : HeapObject),
      ⟨[], Proto.objectPrototype⟩]).length = h.length + 2 := by simp
  have hc : (View.clone h v).1 = ⟨v.target, h.length, h.length + 1,  Transaction.initialEvents⟩ := by
    rw [View.clone_eq h v hdelta]
  have hlen : (View.clone h v).2.length = h.length + 2 := by
    rw [View.clone_eq h v hdelta]; simp
  -- the heap after `clone`, read at the original's objects and at the new delta
  have rold : ∀ a, a < h.length → Heap.read (View.clone h v).2 a = h.read a := by
    intro a ha
    rw [View.clone_eq h v hdelta, Heap.read_set_of_ne _ _ _ _ (Ne.symm (Nat.ne_of_lt ha)),
      Heap.read_append_of_lt _ _ _ ha]
  have rnew : Heap.read (View.clone h v).2 h.length =
      ⟨(Obj.assignInto [] Proto.objectPrototype (h.read v.delta).props).1,
        (Obj.assignInto [] Proto.objectPrototype (h.read v.delta).props).2⟩ := by
    rw [View.clone_eq h v hdelta, Heap.read_set_self _ _ _ (by omega)]
  have hassign : Obj.assignInto [] Proto.objectPrototype (h.read v.delta).props =
      (Obj.assign [] (h.read v.delta).props, Proto.objectPrototype) :=
    Obj.assignInto_of_no_proto _ _ _ hown
  have hstate : v.state (View.clone h v).2 = v.state h := by
    simp [View.state, rold _ htarget, rold _ hdelta]
  have hcstate : (View.clone h v).1.state (View.clone h v).2 = (v.state h).clone := by
    rw [hc]
    simp [View.state, rnew, rold _ htarget, Transaction.clone, Transaction.startOn]
  have hfields : ∀ k, JsObject.getOwn? (Obj.assign [] (h.read v.delta).props) k =
      JsObject.getOwn? (h.read v.delta).props k := Obj.getOwn?_assign_empty _
  have hinh : Obj.inheritsHasOwnProperty (Obj.assign [] (h.read v.delta).props)
      Proto.objectPrototype =
      Obj.inheritsHasOwnProperty (h.read v.delta).props Proto.objectPrototype :=
    Obj.inheritsHasOwnProperty_congr _ _ _ (hfields _)
  refine ⟨by rw [hc], by rw [hc]; exact Ne.symm hd1, by rw [hc]; exact Ne.symm hm1, hstate,
    hcstate, ?_, ?_, ?_, ⟨?_, ?_⟩, ?_, ?_, ?_, ?_, ?_⟩
  · rw [hc]
    simp only
    rw [rnew, hassign]
  · intro k
    rw [hc]
    simp only
    rw [rnew, hassign]
    exact hfields k
  · intro k hk hm
    have hget : ((View.clone h v).1.state (View.clone h v).2).get k =
        (v.state (View.clone h v).2).get k := by
      rw [get_of_field _ k hk hm, get_of_field _ k hk hm, hcstate, hstate]
      simp only [Transaction.clone, Transaction.startOn, View.state, hassign, hproto,
        Obj.callHasOwnProperty, hinh, JsObject.hasOwnProperty, hfields, Obj.get]
    unfold View.get
    rw [hget]
    rcases get_of_field_cases (v.state (View.clone h v).2) k hk hm with
      ⟨e, he⟩ | ⟨x, hx⟩ | ⟨n, hn⟩
    · rw [he]
    · rw [hx]
    · rw [hn]
  · simp [View.get, Transaction.get]
  · simp [View.get, Transaction.get]
  · intro m hm
    have hmeth : JsObject.hasOwnProperty (methodNames.map fun m => (m, ())) m = true :=
      (hasOwnProperty_methods m).2 hm
    have hmd : m ≠ "delta" := by
      intro e
      rw [e] at hm
      exact absurd hm (by decide)
    simp [View.get, Transaction.get, hmeth, hmd]
  · intro key val
    rw [hc]
    simp only [View.set]
    exact Heap.read_set_of_ne _ _ _ _ (Ne.symm hd1)
  · rw [hc]
    simp only [View.rollback]
    rw [Heap.read_set_of_ne _ _ _ _ hne, Heap.read_append_of_lt _ _ _ (by omega)]
  · intro key val
    rw [hc]
    simp only [View.set]
    exact Heap.read_set_of_ne _ _ _ _ hd1
  · rw [hc]
    simp only [View.rollback]
    rw [Heap.read_set_of_ne _ _ _ _ ht1, Heap.read_append_of_lt _ _ _ (by omega)]

/-- C19, amended, for the usage record with `city` pending: the clone wraps
the record at address `0`, its delta holds `city` as the original's does, and
`name` and `city` read the same through both proxies. -/
theorem clone_witness :
    (View.clone usageCity usageView).1.target = usageView.target ∧
    (JsObject.getOwn?
        ((View.clone usageCity usageView).2.read
          (View.clone usageCity usageView).1.delta).props "city" =
      JsObject.getOwn? (usageCity.read usageView.delta).props "city") ∧
    (View.clone usageCity usageView).1.get (View.clone usageCity usageView).2 "city" =
      usageView.get (View.clone usageCity usageView).2 "city" :=
  ⟨(clone_copies_delta_and_shares_none usageCity usageView (by decide) (by decide)
      (by decide) (by decide) (by decide) (by decide)).1,
    (clone_copies_delta_and_shares_none usageCity usageView (by decide) (by decide)
      (by decide) (by decide) (by decide) (by decide)).2.2.2.2.2.2.1 "city",
    (clone_copies_delta_and_shares_none usageCity usageView (by decide) (by decide)
      (by decide) (by decide) (by decide) (by decide)).2.2.2.2.2.2.2.1 "city"
      (by decide) (by decide)⟩

end Dataset

/-! ## `8-dataset.js`: `commit()` of the dataset -/

namespace Dataset

/-- `methods.commit` of a proxy without listeners, on the objects of a heap:
the record receives the fields of the delta, `delta` is bound to a new empty
object, and no other object changes. -/
theorem View.commit_without_listeners (g : Heap) (v : View)
    (hev : v.events = Transaction.initialEvents) (ht : v.target < g.length) :
    (v.commit g).2 = none ∧
    (v.commit g).1.1 = ⟨v.target, g.length, v.methods, v.events⟩ ∧
    (v.commit g).1.2.length = g.length + 1 ∧
    Heap.read (v.commit g).1.2 v.target =
      ⟨(Obj.assignInto (g.read v.target).props (g.read v.target).proto
          (g.read v.delta).props).1,
        (Obj.assignInto (g.read v.target).props (g.read v.target).proto
          (g.read v.delta).props).2⟩ ∧
    Heap.read (v.commit g).1.2 g.length = ⟨[], Proto.objectPrototype⟩ ∧
    (∀ a, a ≠ v.target → a < g.length → Heap.read (v.commit g).1.2 a = g.read a) := by
  have hemit : ∀ h2 : Heap,
      (View.state h2 ⟨v.target, g.length, v.methods, v.events⟩).emit "commit" =
        (View.state h2 ⟨v.target, g.length, v.methods, v.events⟩, none) :=
    fun h2 => emit_initialEvents_commit _ hev
  have hc : v.commit g =
      ((⟨v.target, g.length, v.methods, v.events⟩,
        List.set
          (List.set g v.target
            ⟨(Obj.assignInto (g.read v.target).props (g.read v.target).proto
                (g.read v.delta).props).1,
              (Obj.assignInto (g.read v.target).props (g.read v.target).proto
                (g.read v.delta).props).2⟩ ++ [⟨[], Proto.objectPrototype⟩])
          v.target
          ⟨(Obj.assignInto (g.read v.target).props (g.read v.target).proto
              (g.read v.delta).props).1,
            (Obj.assignInto (g.read v.target).props (g.read v.target).proto
              (g.read v.delta).props).2⟩), none) := by
    have ht' : v.target < (List.set g v.target
        (⟨(Obj.assignInto (g.read v.target).props (g.read v.target).proto
            (g.read v.delta).props).1,
          (Obj.assignInto (g.read v.target).props (g.read v.target).proto
            (g.read v.delta).props).2⟩ : HeapObject)).length := by
      rw [List.length_set]; exact ht
    simp only [View.commit, List.length_set, hemit]
    simp only [View.state, Heap.read_append_of_lt _ _ _ ht',
      Heap.read_set_self _ _ _ ht]
  rw [hc]
  refine ⟨rfl, rfl, by simp, ?_, ?_, ?_⟩
  · simp only
    rw [Heap.read_set_self _ _ _ (by simp; omega)]
  · simp only
    rw [Heap.read_set_of_ne _ _ _ _ (Nat.ne_of_lt ht)]
    have hl : g.length = (List.set g v.target
        (⟨(Obj.assignInto (g.read v.target).props (g.read v.target).proto
            (g.read v.delta).props).1,
          (Obj.assignInto (g.read v.target).props (g.read v.target).proto
            (g.read v.delta).props).2⟩ : HeapObject)).length := by
      rw [List.length_set]
    rw [hl]
    exact Heap.read_append_length _ _ _
  · intro a ha hlt
    simp only
    rw [Heap.read_set_of_ne _ _ _ _ (Ne.symm ha),
      Heap.read_append_of_lt _ _ _ (by rw [List.length_set]; exact hlt),
      Heap.read_set_of_ne _ _ _ _ (Ne.symm ha)]

/-- The loop of `commit()` over proxies without listeners whose records are
distinct objects, none of them the delta object of a member: it completes
normally, every record receives the fields of its member's delta, every
member's `delta` is bound to a new empty object, and no other object
changes. -/
theorem commitEach_of_distinct (vs : List View) (g : Heap)
    (hvalid : ∀ v ∈ vs, v.target < g.length ∧ v.delta < g.length)
    (hdistinct : (vs.map fun v => v.target).Nodup)
    (hapart : ∀ v ∈ vs, ∀ w ∈ vs, v.target ≠ w.delta)
    (hev : ∀ v ∈ vs, v.events = Transaction.initialEvents) :
    (DatasetView.commitEach g vs).2 = none ∧
    (DatasetView.commitEach g vs).1.1.map (fun v => v.target) = vs.map (fun v => v.target) ∧
    (DatasetView.commitEach g vs).1.2.length = g.length + vs.length ∧
    (∀ v ∈ vs, Heap.read (DatasetView.commitEach g vs).1.2 v.target =
      ⟨(Obj.assignInto (g.read v.target).props (g.read v.target).proto
          (g.read v.delta).props).1,
        (Obj.assignInto (g.read v.target).props (g.read v.target).proto
          (g.read v.delta).props).2⟩) ∧
    (∀ w ∈ (DatasetView.commitEach g vs).1.1,
      Heap.read (DatasetView.commitEach g vs).1.2 w.delta = ⟨[], Proto.objectPrototype⟩) ∧
    (∀ a, a < g.length → (∀ v ∈ vs, a ≠ v.target) →
      Heap.read (DatasetView.commitEach g vs).1.2 a = g.read a) := by
  induction vs generalizing g with
  | nil =>
    exact ⟨rfl, rfl, rfl, fun v hv => absurd hv (List.not_mem_nil _),
      fun w hw => absurd hw (List.not_mem_nil _), fun _ _ _ => rfl⟩
  | cons v rest ih =>
    obtain ⟨hvt, hvd⟩ := hvalid v (List.mem_cons_self _ _)
    obtain ⟨c1, c2, c3, c4, c5, c6⟩ :=
      View.commit_without_listeners g v (hev v (List.mem_cons_self _ _)) hvt
    have hnd : v.target ∉ rest.map (fun v => v.target) ∧
        (rest.map fun v => v.target).Nodup := List.nodup_cons.1 hdistinct
    have hvalid1 : ∀ w ∈ rest,
        w.target < (v.commit g).1.2.length ∧ w.delta < (v.commit g).1.2.length := by
      intro w hw
      obtain ⟨a, b⟩ := hvalid w (List.mem_cons_of_mem _ hw)
      rw [c3]
      exact ⟨by omega, by omega⟩
    obtain ⟨i1, i2, i3, i4, i5, i6⟩ := ih (v.commit g).1.2 hvalid1 hnd.2
      (fun a ha b hb => hapart a (List.mem_cons_of_mem _ ha) b (List.mem_cons_of_mem _ hb))
      (fun a ha => hev a (List.mem_cons_of_mem _ ha))
    have hrun : DatasetView.commitEach g (v :: rest) =
        (((v.commit g).1.1 :: (DatasetView.commitEach (v.commit g).1.2 rest).1.1,
          (DatasetView.commitEach (v.commit g).1.2 rest).1.2),
          (DatasetView.commitEach (v.commit g).1.2 rest).2) := by
      rcases hr : v.commit g with ⟨r, e⟩
      rw [hr] at c1
      simp only at c1
      subst c1
      simp [DatasetView.commitEach, hr]
    have hnotin : ∀ w ∈ rest, v.target ≠ w.target := by
      intro w hw e
      exact hnd.1 (List.mem_map.2 ⟨w, hw, e.symm⟩)
    rw [hrun]
    refine ⟨i1, ?_, ?_, ?_, ?_, ?_⟩
    · simp only [List.map_cons, i2, c2]
    · simp only [i3, c3, List.length_cons]; omega
    · intro w hw
      simp only
      rcases List.mem_cons.1 hw with rfl | hw
      · rw [i6 _ (by rw [c3]; omega) hnotin, c4]
      · obtain ⟨a, b⟩ := hvalid w (List.mem_cons_of_mem _ hw)
        rw [i4 w hw, c6 w.target (Ne.symm (hnotin w hw)) a,
          c6 w.delta (Ne.symm (hapart v (List.mem_cons_self _ _) w
            (List.mem_cons_of_mem _ hw))) b]
    · intro w hw
      simp only at hw ⊢
      rcases List.mem_cons.1 hw with rfl | hw
      · rw [c2]
        simp only
        rw [i6 _ (by rw [c3]; omega)
          (fun x hx => Nat.ne_of_gt (hvalid x (List.mem_cons_of_mem _ hx)).1), c5]
      · exact i5 w hw
    · intro a ha hne
      simp only
      rw [i6 a (by rw [c3]; omega) (fun x hx => hne x (List.mem_cons_of_mem _ hx)),
        c6 a (hne v (List.mem_cons_self _ _)) ha]

/-- What `writeLog` does on proxies over a heap: it throws a `TypeError` and
pushes nothing when a delta has lost the method `hasOwnProperty`, and
otherwise pushes one record with the current `this.id`. -/
theorem DatasetView.writeLog_outcome (h : Heap) (d : DatasetView) (operation : String) :
    ((∃ v ∈ d.dataset, Obj.inheritsHasOwnProperty (h.read v.delta).props
        (h.read v.delta).proto = false) ∧
      DatasetView.writeLog h d operation =
        (d, some (Thrown.typeError "hasOwnProperty is not a function"))) ∨
    ((∀ v ∈ d.dataset, Obj.inheritsHasOwnProperty (h.read v.delta).props
        (h.read v.delta).proto = true) ∧
      ∃ delta, DatasetTransaction.getDelta (d.state h) = Except.ok delta ∧
        DatasetView.writeLog h d operation =
          (⟨d.dataset, d.log ++ [⟨d.id, operation, delta⟩], d.id⟩, none)) := by
  by_cases hall : ∀ v ∈ d.dataset, Obj.inheritsHasOwnProperty (h.read v.delta).props
      (h.read v.delta).proto = true
  · right
    refine ⟨hall, ?_⟩
    obtain ⟨os, ho⟩ := copyWithoutProxy_ok d.log.length (d.dataset.map (View.state h)) 0 (by
      intro t ht
      obtain ⟨v, hv, rfl⟩ := List.mem_map.1 ht
      exact hall v hv)
    refine ⟨os, ho, ?_⟩
    unfold DatasetView.writeLog
    rw [show DatasetTransaction.getDelta (d.state h) = Except.ok os from ho]
  · left
    have hex : ∃ v ∈ d.dataset, Obj.inheritsHasOwnProperty (h.read v.delta).props
        (h.read v.delta).proto = false := by
      by_contra hno
      apply hall
      intro v hv
      cases hi : Obj.inheritsHasOwnProperty (h.read v.delta).props (h.read v.delta).proto with
      | true => rfl
      | false => exact absurd ⟨v, hv, hi⟩ hno
    refine ⟨hex, ?_⟩
    obtain ⟨v, hv, hi⟩ := hex
    have herr := copyWithoutProxy_error d.log.length (d.dataset.map (View.state h)) 0
      ⟨v.state h, List.mem_map.2 ⟨v, hv, rfl⟩, hi⟩
    unfold DatasetView.writeLog
    rw [show DatasetTransaction.getDelta (d.state h) = _ from herr]

/-- C5, as the claim states it, fails.  In the usage scenario with `city`
pending on the three members, after the further write `hasOwnProperty = 1`
through member `0`, `commit()` throws a `TypeError` (from `JSON.stringify` in
`writeLog`): no log record is appended and no record has received `city`.  And
for one record listed twice, with `a = 1` pending on member `0` and `b = 2`
pending on member `1`, `commit()` returns normally and the record of member
`0` holds `b` as well, which is not in the delta of member `0`. -/
theorem commit_throws_or_mixes_deltas :
    (DatasetTransaction.commit
      (setMember usagePending 0 "hasOwnProperty" (Val.num 1))).2 =
      some (Thrown.typeError "hasOwnProperty is not a function") ∧
    (DatasetTransaction.commit
      (setMember usagePending 0 "hasOwnProperty" (Val.num 1))).1.log.map
        (fun r => r.operation) = ["start"] ∧
    (DatasetTransaction.commit
      (setMember usagePending 0 "hasOwnProperty" (Val.num 1))).1.dataset.map
        (fun t => t.data) = [usagePerson, usagePerson, usagePerson] ∧
    sharedRecord.1.dataset.map (fun v => (v.target, (sharedRecord.2.read v.delta).props)) =
      [(0, [("a", Val.num 1)]), (0, [("b", Val.num 2)])] ∧
    (DatasetView.commit sharedRecord.2 sharedRecord.1).2 = none ∧
    ((DatasetView.commit sharedRecord.2 sharedRecord.1).1.2.read 0).props =
      [("name", Val.str "Marcus Aurelius"), ("born", Val.num 121), ("a", Val.num 1),
        ("b", Val.num 2)] := by
  decide

/-- C5, amended. `commit()` of `DatasetTransaction` on members without
listeners whose records are distinct objects of the run, none of them the
delta object of a member.  The call returns normally exactly when the delta of
every member has the method `hasOwnProperty`; otherwise it throws a
`TypeError` and has changed nothing.  When it returns, every member wraps the
record it wrapped; the record of each member holds, at every field other than
`__proto__`, the value of that member's delta where the delta has the field
and its own former field otherwise; the delta of every member is a new empty
object; and exactly one log record, named `commit`, has been appended.  The
members are committed in index order: if the commit of a member throws, the
members before it are committed and the members after it are untouched. -/
theorem commit_fans_out_in_index_order (h : Heap) (d : DatasetView)
    (hvalid : ∀ v ∈ d.dataset, v.target < h.length ∧ v.delta < h.length)
    (hdistinct : (d.dataset.map fun v => v.target).Nodup)
    (hapart : ∀ v ∈ d.dataset, ∀ w ∈ d.dataset, v.target ≠ w.delta)
    (hev : ∀ v ∈ d.dataset, v.events = Transaction.initialEvents) :
    ((DatasetView.commit h d).2 = none ↔
      ∀ v ∈ d.dataset,
        Obj.inheritsHasOwnProperty (h.read v.delta).props (h.read v.delta).proto = true) ∧
    ((DatasetView.commit h d).2 ≠ none →
      DatasetView.commit h d =
        ((d, h), some (Thrown.typeError "hasOwnProperty is not a function"))) ∧
    ((DatasetView.commit h d).2 = none →
      (DatasetView.commit h d).1.1.dataset.map (fun v => v.target) =
        d.dataset.map (fun v => v.target) ∧
      (∀ v ∈ d.dataset, ∀ k, k ≠ "__proto__" →
        JsObject.getOwn? ((DatasetView.commit h d).1.2.read v.target).props k =
          if JsObject.hasOwnProperty (h.read v.delta).props k then
            JsObject.getOwn? (h.read v.delta).props k
          else JsObject.getOwn? (h.read v.target).props k) ∧
      (∀ w ∈ (DatasetView.commit h d).1.1.dataset,
        (DatasetView.commit h d).1.2.read w.delta = ⟨[], Proto.objectPrototype⟩) ∧
      (DatasetView.commit h d).1.1.log.map (fun r => (r.id, r.operation)) =
        d.log.map (fun r => (r.id, r.operation)) ++ [(d.id, "commit")]) ∧
    (∀ (pre post : List Transaction) (t : Transaction) (e : Thrown) (log : List LogRecord)
        (id : Nat) (delta : List Obj),
      DatasetTransaction.getDelta ⟨pre ++ t :: post, log, id⟩ = Except.ok delta →
      (∀ m ∈ pre, (m.commit).2 = none) → (t.commit).2 = some e →
      (DatasetTransaction.commit ⟨pre ++ t :: post, log, id⟩).2 = some e ∧
      (DatasetTransaction.commit ⟨pre ++ t :: post, log, id⟩).1.dataset =
        (pre.map fun m => (m.commit).1) ++ (t.commit).1 :: post) := by
  have hlast : ∀ (pre post : List Transaction) (t : Transaction) (e : Thrown)
      (log : List LogRecord) (id : Nat) (delta : List Obj),
      DatasetTransaction.getDelta ⟨pre ++ t :: post, log, id⟩ = Except.ok delta →
      (∀ m ∈ pre, (m.commit).2 = none) → (t.commit).2 = some e →
      (DatasetTransaction.commit ⟨pre ++ t :: post, log, id⟩).2 = some e ∧
      (DatasetTransaction.commit ⟨pre ++ t :: post, log, id⟩).1.dataset =
        (pre.map fun m => (m.commit).1) ++ (t.commit).1 :: post := by
    intro pre post t e log id delta hg hpre ht
    have hstop := forEach_of_throw Transaction.commit pre post t e 0 hpre ht
    simp only [DatasetTransaction.commit, DatasetTransaction.writeLog, hg, andThen, hstop,
      and_self]
  rcases DatasetView.writeLog_outcome h d "commit" with ⟨hex, hw⟩ | ⟨hall, delta, _, hw⟩
  · have hc : DatasetView.commit h d =
        ((d, h), some (Thrown.typeError "hasOwnProperty is not a function")) := by
      simp only [DatasetView.commit, hw]
    rw [hc]
    refine ⟨⟨fun hn => absurd hn (by simp), fun hall => ?_⟩, fun _ => rfl,
      fun hn => absurd hn (by simp), hlast⟩
    obtain ⟨v, hv, hi⟩ := hex
    rw [hall v hv] at hi
    exact absurd hi (by simp)
  · obtain ⟨e1, e2, _, e4, e5, _⟩ := commitEach_of_distinct d.dataset h hvalid hdistinct hapart hev
    have hc : DatasetView.commit h d =
        ((⟨(DatasetView.commitEach h d.dataset).1.1, d.log ++ [⟨d.id, "commit", delta⟩], d.id⟩,
          (DatasetView.commitEach h d.dataset).1.2), (DatasetView.commitEach h d.dataset).2) := by
      simp only [DatasetView.commit, hw]
    rw [hc]
    refine ⟨⟨fun _ => hall, fun _ => e1⟩, fun hn => absurd e1 hn, fun _ => ⟨e2, ?_, e5, ?_⟩,
      hlast⟩
    · intro v hv k hk
      simp only
      rw [e4 v hv]
      exact Obj.getOwn?_assignInto _ _ _ k hk
    · simp

/-- C5, amended, in the usage scenario: three records, `city = "Shaoshan"`
pending on each member; `commit()` returns normally and every record holds
`city`. -/
theorem commit_fans_out_witness :
    (DatasetView.commit usagePendingViews.2 usagePendingViews.1).2 = none ∧
    ∀ v ∈ usagePendingViews.1.dataset,
      JsObject.getOwn?
          ((DatasetView.commit usagePendingViews.2 usagePendingViews.1).1.2.read
            v.target).props "city" =
        some (Val.str "Shaoshan") := by
  have hev : ∀ v ∈ usagePendingViews.1.dataset, v.events = Transaction.initialEvents := by
    intro v hv
    have hds : usagePendingViews.1.dataset =
        [⟨0, 3, 4, Transaction.initialEvents⟩, ⟨1, 5, 6, Transaction.initialEvents⟩,
          ⟨2, 7, 8, Transaction.initialEvents⟩] := rfl
    rw [hds] at hv
    simp only [List.mem_cons, List.mem_singleton, List.not_mem_nil, or_false] at hv
    rcases hv with rfl | rfl | rfl <;> rfl
  have hall := commit_fans_out_in_index_order usagePendingViews.2 usagePendingViews.1
    (by decide) (by decide) (by decide) hev
  have hret := hall.1.2 (by decide)
  refine ⟨hret, fun v hv => ?_⟩
  rw [(hall.2.2.1 hret).2.1 v hv "city" (by decide)]
  revert v
  decide

end Dataset
